import Mathlib

/-!
The musikcube `TranscodingDataStream` (websocket_remote plugin) and `PulseOut`
(pulseout plugin).

A shallow embedding of `src/plugins/websocket_remote/TranscodingDataStream.cpp`; the
embedding of `src/plugins/pulseout/PulseOut.cpp` follows it, at the end of the
definitions.

* Encoded bytes are natural numbers, PCM samples are integers standing for the
  IEEE bit patterns: the stream only ever copies samples, it never computes on them.
* The decoder is the list of frames its successive `GetBuffer` calls deliver.
* The mp3 codec (libmp3lame) is a parameter: a deterministic function of the
  session (its configuration and everything fed to it so far).
* The disk is an association list from paths to file contents.
* `position`, byte counts and buffer sizes are unbounded naturals; no claim below
  depends on wrap-around of `long` or `size_t`.
* The two estimates of the constructor are computed as the code computes them, in
  `double` arithmetic with the bitrate converted through `float`: every operation
  rounds to nearest, ties to even.
-/

namespace Musikcube

/-! ## Data model -/

abbrev Byte := Nat

abbrev Sample := Int

/-- Contents of an `IBuffer` after the decoder has filled it:
`SampleRate()`, `Channels()`, and the interleaved samples (`Samples()` is their number). -/
structure Frame where
  sampleRate : Nat
  channels : Nat
  samples : List Sample
deriving DecidableEq, Repr

/-- An `IDecoder`: `GetDuration()` in seconds and the frames that successive
`GetBuffer` calls will deliver; once the list is empty `GetBuffer` reports `false`. -/
structure Decoder where
  duration : ℚ
  frames : List Frame
deriving DecidableEq, Repr

/-- The `lame_global_flags` session as the stream configures it in the init block of
`Read`, together with everything passed to it so far: each interleaved stereo buffer with
its per-channel sample count, oldest first, and the number of flushes. -/
structure Session where
  inSamplerate : Nat
  vbrOff : Bool
  bitrate : Nat
  outSamplerate : Nat
  fed : List (List Sample × Nat)
  flushes : Nat
deriving DecidableEq, Repr

/-- The external codec. `encode sess pcm numSamples cap` is
`lame_encode_buffer_interleaved_ieee_float(lame, pcm, numSamples, out, cap)`: `none` is a
negative return value, `some bytes` the bytes written to `out` (their number is the return
value). `flush sess cap` is `lame_encode_flush(lame, out, cap)`, whose return value the
stream converts to `size_t` unchecked: it is given as the bytes written. -/
structure Codec where
  encode : Session → List Sample → Nat → Nat → Option (List Byte)
  flush : Session → Nat → List Byte

/-- Modelled from the spec: the `ByteBuffer<T>` helper declared in
`TranscodingDataStream.h`, which is not among the sources. The spec describes it as a
backing chunk with a read offset and a remaining length, resized on demand;
`rawLength` is the allocated capacity. -/
structure ByteBuffer (α : Type) where
  data : List α
  offset : Nat
  length : Nat
  rawLength : Nat
deriving DecidableEq, Repr

namespace ByteBuffer

variable {α : Type}

/-- A default-constructed buffer. -/
def init : ByteBuffer α := ⟨[], 0, 0, 0⟩

/-- Modelled from the spec: `avail()`, the remaining length. -/
def avail (b : ByteBuffer α) : Nat := b.length - b.offset

/-- Modelled from the spec: `empty()`, nothing remains to be taken. -/
def empty (b : ByteBuffer α) : Bool := b.avail == 0

/-- Modelled from the spec: `pos()`, the storage from the read offset on. -/
def pos (b : ByteBuffer α) : List α := b.data.drop b.offset

/-- Modelled from the spec: `inc(count)`, the advancing half of `take`; a cursor that
reaches the end is rewound so that its storage may be reused. -/
def inc (b : ByteBuffer α) (count : Nat) : ByteBuffer α :=
  if b.offset + count ≥ b.length then { b with offset := 0, length := 0 }
  else { b with offset := b.offset + count }

/-- Modelled from the spec: `realloc(n)`, resize on demand; the storage is replaced only
when it has to grow, the cursor is rewound, and `length` becomes `n`. -/
def realloc [Inhabited α] (b : ByteBuffer α) (newLength : Nat) : ByteBuffer α :=
  if newLength > b.rawLength then
    { data := List.replicate newLength default, offset := 0,
      length := newLength, rawLength := newLength }
  else { b with offset := 0, length := newLength }

/-- Modelled from the spec: `reset()`, rewind over the whole allocated storage. -/
def reset (b : ByteBuffer α) : ByteBuffer α :=
  { b with offset := 0, length := b.rawLength }

/-- The effect on the storage of an external call that writes `out` at `data`. -/
def fill (b : ByteBuffer α) (out : List α) : ByteBuffer α :=
  { b with data := out ++ b.data.drop out.length }

end ByteBuffer

/-- The disk: paths with the contents of the file stored there. -/
abbrev FileSystem := List (String × List Byte)

namespace FileSystem

/-- Contents of the file at `path`, if there is one. -/
def read (fs : FileSystem) (path : String) : Option (List Byte) :=
  match fs with
  | [] => none
  | (p, c) :: rest => if p = path then some c else read rest path

/-- Whether a file exists at `path`. -/
def exists_ (fs : FileSystem) (path : String) : Bool := (read fs path).isSome

/-- The call `boost::filesystem::remove(path, ec)`. -/
def remove (fs : FileSystem) (path : String) : FileSystem :=
  fs.filter (fun e => e.1 ≠ path)

/-- The call `fopen(path, "wb")`: create the file, or truncate it. -/
def create (fs : FileSystem) (path : String) : FileSystem :=
  (path, []) :: remove fs path

/-- The call `fwrite` through a handle on `path`: the bytes go to the end of the file. -/
def append (fs : FileSystem) (path : String) (bytes : List Byte) : FileSystem :=
  fs.map (fun e => if e.1 = path then (e.1, e.2 ++ bytes) else e)

/-- The call `boost::filesystem::rename(src, dst, ec)` when it succeeds. -/
def rename (fs : FileSystem) (src dst : String) : FileSystem :=
  match read fs src with
  | none => fs
  | some c => (dst, c) :: remove (remove fs src) dst

end FileSystem

/-- What the stream does to the outside world, in program order. -/
inductive Ev where
  /-- The call `decoder->GetBuffer(pcmBuffer)` and what it reported. -/
  | fetch (ok : Bool)
  /-- The calls `lame_init` to `lame_init_params`. -/
  | lameInit
  /-- Bytes copied from the spillover to the consumer. -/
  | drain (count : Nat)
  /-- The call `lame_encode_buffer_interleaved_ieee_float`: whether `lame` was non-null,
  `spillover.avail()` at that moment, and the result (`none` when negative). -/
  | encode (session : Bool) (pending : Nat) (result : Option Nat)
  /-- Encoded bytes copied to the consumer. -/
  | copy (count : Nat)
  /-- The call `spillover.swap(encodedBytes)`: `spillover.avail()` before and after. -/
  | store (before after : Nat)
  /-- The call `lame_encode_flush`: whether `lame` was non-null, and the byte count. -/
  | flush (session : Bool) (count : Nat)
  /-- The call `fwrite(…, outFile)`. -/
  | fwrite (count : Nat)
  /-- The call `fclose(outFile)` and whether `outFile` was non-null. -/
  | fclose (isOpen : Bool)
  /-- The call `boost::filesystem::rename(tempFilename, finalFilename)` and its success. -/
  | rename (ok : Bool)
  /-- The call `boost::filesystem::remove(tempFilename)`. -/
  | remove
  /-- The calls `pcmBuffer->Destroy()`, `decoder->Destroy()`, `input->Destroy()`,
  `lame_close(lame)` and `delete this`. -/
  | destroyBuffer
  | destroyDecoder
  | destroyInput
  | lameClose
  | deleteThis
deriving DecidableEq, Repr

/-- The fields of `TranscodingDataStream`, and the part of the world it acts on:
`disk` is the file system and `renameOk` tells whether promoting the temp file will
succeed. `outFile` is `true` when the `FILE*` is non-null. -/
structure TranscodingDataStream where
  input : Option String
  decoder : Option Decoder
  pcmBuffer : Option Frame
  length : Int
  position : Nat
  bitrate : Nat
  interrupted : Bool
  eof : Bool
  lame : Option Session
  outFile : Bool
  detachTolerance : Int
  tempFilename : String
  finalFilename : String
  encodedBytes : ByteBuffer Byte
  spillover : ByteBuffer Byte
  downmix : ByteBuffer Sample
  disk : FileSystem
  renameOk : Bool
deriving DecidableEq, Repr

/-- What `context.environment` hands out: `GetDataStream(uri)` (the raw input, by its
URI), `GetDecoder(input)` and `GetBuffer(SAMPLES_PER_BUFFER)`. -/
structure Environment where
  dataStream : Option String
  decoder : Option Decoder
  buffer : Frame

/-! ## Construction -/

/-- The conversion `(PositionType) x` of a floating-point value, `PositionType` being
`long`: the fractional part is discarded (rounding toward zero). The range of `long` is
not modelled; the values converted below are far inside it. -/
def toPositionType (x : ℚ) : Int :=
  if 0 ≤ x then Rat.floor x else -Rat.floor (-x)

/-! ## Floating point

The constructor computes its two estimates in `double` arithmetic, with the bitrate
converted through `float`. Both formats are binary with round-to-nearest, ties to even;
they differ in the width of the significand. Values are exact rationals; the exponent
range is not bounded, which is the behaviour of the formats as long as a result neither
overflows nor falls into the subnormal range. -/

/-- The integer nearest to `x`, a tie going to the even one. -/
def roundHalfEven (x : ℚ) : Int :=
  if x - (Rat.floor x : ℚ) < 1 / 2 then Rat.floor x
  else if 1 / 2 < x - (Rat.floor x : ℚ) then Rat.floor x + 1
  else if Rat.floor x % 2 = 0 then Rat.floor x
  else Rat.floor x + 1

/-- The value nearest to `x` among those with a significand of `p` bits: with
`2 ^ e ≤ |x| < 2 ^ (e + 1)`, the multiples of `2 ^ (e - (p - 1))`. -/
def roundTo (p : Nat) (x : ℚ) : ℚ :=
  if x = 0 then 0
  else
    (roundHalfEven (x / (2 : ℚ) ^ (Int.log 2 |x| - ((p : Int) - 1))) : ℚ) *
      (2 : ℚ) ^ (Int.log 2 |x| - ((p : Int) - 1))

/-- The result of an operation on `double`s whose exact result is `x`. -/
def toDouble (x : ℚ) : ℚ := roundTo 53 x

/-- The conversion `(float) n` of an unsigned integer. -/
def toFloat (n : Nat) : ℚ := roundTo 24 (n : ℚ)

/-- The length estimate of the constructor,
`(PositionType)((GetDuration() - 0.2) * 1000.0 * (float) bitrate / 8.0)`, evaluated from
left to right as the code does: the constant is the `double` nearest to 0.2 and each of
the four operations rounds its result. `duration` is the `double` that `GetDuration()`
returned. -/
def estimateLength (duration : ℚ) (bitrate : Nat) : Int :=
  toPositionType
    (toDouble (toDouble (toDouble (toDouble (duration - toDouble (2 / 10)) * 1000) *
      toFloat bitrate) / 8))

/-- The detach tolerance of the constructor,
`(PositionType)((2.0) * 1000.0 * (float) bitrate / 8.0)`, evaluated in the same way. -/
def estimateTolerance (bitrate : Nat) : Int :=
  toPositionType (toDouble (toDouble (toDouble (2 * 1000) * toFloat bitrate) / 8))

/-- The constructor `TranscodingDataStream(context, uri, bitrate)`. -/
def construct (env : Environment) (bitrate : Nat) (disk : FileSystem) (renameOk : Bool) :
    TranscodingDataStream :=
  let s : TranscodingDataStream :=
    { input := none, decoder := none, pcmBuffer := none, length := 0, position := 0,
      bitrate := bitrate, interrupted := false, eof := false, lame := none,
      outFile := false, detachTolerance := 0, tempFilename := "", finalFilename := "",
      encodedBytes := ByteBuffer.init, spillover := ByteBuffer.init,
      downmix := ByteBuffer.init, disk := disk, renameOk := renameOk }
  match env.dataStream with
  | none => s
  | some i =>
    match env.decoder with
    | none => { s with input := some i }
    | some d =>
      { s with
        input := some i, decoder := some d, pcmBuffer := some env.buffer,
        length := estimateLength d.duration bitrate,
        detachTolerance := estimateTolerance bitrate }

/-- The constructor `TranscodingDataStream(context, uri, tempFilename, finalFilename,
bitrate)`; `fopenOk` tells whether `fopen(tempFilename, "wb")` succeeds. -/
def constructWithSink (env : Environment) (tempFilename finalFilename : String)
    (bitrate : Nat) (disk : FileSystem) (fopenOk renameOk : Bool) : TranscodingDataStream :=
  let s := construct env bitrate disk renameOk
  let s := { s with tempFilename := tempFilename, finalFilename := finalFilename }
  if tempFilename.length ≠ 0 ∧ finalFilename.length ≠ 0 then
    if fopenOk then { s with outFile := true, disk := FileSystem.create disk tempFilename }
    else s
  else s

/-! ## Channel mixer -/

/-- The mono loop of `Read`: `remaining` iterations, each reading `*from` at index `p`,
writing it to both channels and advancing `from` by one. `none` is a read outside the
source buffer. -/
def mixMono (src : List Sample) : (p remaining : Nat) → Option (List Sample)
  | _, 0 => some []
  | p, k + 1 =>
    match src[p]?, mixMono src (p + 1) k with
    | some x, some rest => some (x :: x :: rest)
    | _, _ => none

/-- The loop of `Read` for three or more channels: each iteration reads `*(from + 0)` and
`*(from + 1)` at index `p` and advances `from` by `channels`. -/
def mixMulti (channels : Nat) (src : List Sample) : (p remaining : Nat) → Option (List Sample)
  | _, 0 => some []
  | p, k + 1 =>
    match src[p]?, src[p + 1]?, mixMulti channels src (p + channels) k with
    | some l, some r, some rest => some (l :: r :: rest)
    | _, _, _ => none

/-- The count `numSamples = pcmBuffer->Samples() / channels`. -/
def numSamples (f : Frame) : Nat := f.samples.length / f.channels

/-- The size `requiredBytes = (size_t) (1.25 * (float) numSamples + 7200.0)`. A sample
count below `2 ^ 24` is a `float`, and the product and the sum are exact on it; a larger
count is rounded by the conversion. -/
def requiredBytes (k : Nat) : Nat :=
  if k < 2 ^ 24 then 5 * k / 4 + 7200
  else (toPositionType (toDouble (toDouble (5 / 4 * toFloat k) + 7200))).toNat

/-- What the non-stereo branch writes to `downmix.data`. -/
def downmixFrame (f : Frame) : Option (List Sample) :=
  if f.channels = 1 then mixMono f.samples 0 (numSamples f)
  else mixMulti f.channels f.samples 0 (numSamples f)

/-- The stereo block the encoder is given for a frame: the `2 * numSamples` interleaved
samples at the pointer passed to it, which is `pcmBuffer->BufferPointer()` for two
channels and `downmix.data` otherwise. -/
def stereoBlock (f : Frame) : Option (List Sample) :=
  if f.channels = 2 then some (f.samples.take (2 * numSamples f))
  else downmixFrame f

/-! ## Read -/

/-- Outcome of one `Read` call: the stream afterwards, the return value, the bytes the
call copied into the consumer's buffer (from `dst[0]` on), and what it did. `aborted`
tells that the call reached `fclose` on a null handle at its error exit, which is
undefined behaviour, and does not return: `ret` is then not handed to any caller, and the
other fields tell what had been done when it stopped. -/
structure ReadResult where
  state : TranscodingDataStream
  ret : Nat
  dst : List Byte
  trace : List Ev
  aborted : Bool := false

/-- The bytes a `Read` call returned: the first `ret` bytes of the consumer's buffer. -/
def ReadResult.returned (r : ReadResult) : List Byte := r.dst.take r.ret

/-- The stream together with the locals of a running `Read` call. -/
structure Ctx where
  s : TranscodingDataStream
  bytesWritten : Nat
  hasBuffer : Bool
  dst : List Byte
  trace : List Ev

instance : Inhabited Frame := ⟨⟨0, 0, []⟩⟩

/-- The call `decoder->GetBuffer(pcmBuffer)`. -/
def getBuffer (s : TranscodingDataStream) : Bool × TranscodingDataStream :=
  match s.decoder with
  | none => (false, s)
  | some d =>
    match d.frames with
    | [] => (false, s)
    | f :: rest => (true, { s with pcmBuffer := some f, decoder := some { d with frames := rest } })

/-- The assignment `hasBuffer = this->decoder->GetBuffer(this->pcmBuffer)`. -/
def Ctx.fetch (c : Ctx) : Ctx :=
  let r := getBuffer c.s
  { c with s := r.2, hasBuffer := r.1, trace := c.trace ++ [Ev.fetch r.1] }

/-- The session `lame_init` returns once the init block has configured it. -/
def lameInit (sampleRate bitrate : Nat) : Session :=
  { inSamplerate := sampleRate, vbrOff := true, bitrate := bitrate,
    outSamplerate := sampleRate, fed := [], flushes := 0 }

/-- The init block of `Read`. -/
def initEncoder (c : Ctx) : Ctx :=
  if c.s.decoder.isSome && c.s.lame.isNone then
    let c := c.fetch
    if c.hasBuffer then
      { c with
        s := { c.s with lame := some (lameInit (c.s.pcmBuffer.getD default).sampleRate c.s.bitrate) },
        trace := c.trace ++ [Ev.lameInit] }
    else c
  else c

/-- The statement `if (this->outFile) fwrite(bytes, 1, count, this->outFile)`. -/
def sinkWrite (c : Ctx) (bytes : List Byte) (count : Nat) : Ctx :=
  if c.s.outFile then
    { c with
      s := { c.s with disk := FileSystem.append c.s.disk c.s.tempFilename bytes },
      trace := c.trace ++ [Ev.fwrite count] }
  else c

/-- The spillover block of `Read`. -/
def drainSpillover (bytesToRead : Nat) (c : Ctx) : Ctx :=
  if !c.s.spillover.empty then
    let count := min c.s.spillover.avail bytesToRead
    let bytes := c.s.spillover.pos.take count
    let c := { c with dst := c.dst ++ bytes, trace := c.trace ++ [Ev.drain count] }
    let c := sinkWrite c bytes count
    { c with
      s := { c.s with spillover := c.s.spillover.inc count },
      bytesWritten := c.bytesWritten + count }
  else c

/-- The returns `this->position += bytesWritten; return bytesWritten;`. -/
def returnWritten (c : Ctx) : ReadResult :=
  { state := { c.s with position := c.s.position + c.bytesWritten },
    ret := c.bytesWritten, dst := c.dst, trace := c.trace }

/-- The exit at the label `internal_error`: `eof` is set and `fclose(this->outFile)` is
called whether or not a sink is open; the trace records which. With a sink open the
handle is then cleared and 0 returned. On a null handle the call of `fclose` is undefined
behaviour, and `Read` is aborted there. -/
def internalError (c : Ctx) : ReadResult :=
  { state := { c.s with eof := true, outFile := false },
    ret := 0, dst := c.dst, trace := c.trace ++ [Ev.fclose c.s.outFile],
    aborted := !c.s.outFile }

/-- Result of one pass through the body of the `while` loop. -/
inductive Step where
  | done (r : ReadResult)
  | more (c : Ctx)

/-- The encoder call of the loop body, on the current frame: the buffers are resized,
a non-stereo frame is mixed into `downmix`, and the codec runs on the stereo block, the
`2 * numSamples` samples at the pointer it is given. On a null session the library
returns a negative value. -/
def encodeFrame (codec : Codec) (c : Ctx) : Ctx × Option (List Byte) :=
  let f := c.s.pcmBuffer.getD default
  let k := numSamples f
  let eb := c.s.encodedBytes.realloc (requiredBytes k)
  let dm :=
    if f.channels = 2 then c.s.downmix
    else ((c.s.downmix.realloc (k * 2)).fill ((downmixFrame f).getD []))
  let block := if f.channels = 2 then f.samples.take (2 * k) else dm.data.take (2 * k)
  let result :=
    match c.s.lame with
    | none => none
    | some sess => codec.encode sess block k eb.length
  let lame := c.s.lame.map (fun sess => { sess with fed := sess.fed ++ [(block, k)] })
  ({ c with
     s := { c.s with encodedBytes := eb, downmix := dm, lame := lame },
     trace := c.trace ++
       [Ev.encode c.s.lame.isSome c.s.spillover.avail (result.map List.length)] },
   result)

/-- The end of the loop body:
`hasBuffer = (bytesToRead > bytesWritten) && decoder->GetBuffer(pcmBuffer)`. -/
def refetch (bytesToRead : Nat) (c : Ctx) : Ctx :=
  if bytesToRead > c.bytesWritten then c.fetch else { c with hasBuffer := false }

/-- The encoder has written `out` to `encodedBytes.data`, and
`encodedBytes.length = (size_t) encodeCount`. -/
def acceptEncoded (c : Ctx) (out : List Byte) : Ctx :=
  { c with s := { c.s with
      encodedBytes := { c.s.encodedBytes.fill out with length := out.length } } }

/-- The copy of `toWrite = min(encodedBytes.length, bytesToRead - bytesWritten)` encoded
bytes to the consumer and the sink, and `encodedBytes.inc(toWrite)`. -/
def writeEncoded (bytesToRead : Nat) (c : Ctx) : Ctx :=
  let toWrite := min c.s.encodedBytes.length (bytesToRead - c.bytesWritten)
  let bytes := c.s.encodedBytes.data.take toWrite
  let c1 : Ctx := { c with dst := c.dst ++ bytes, trace := c.trace ++ [Ev.copy toWrite] }
  let c2 : Ctx := sinkWrite c1 bytes toWrite
  { c2 with
    s := { c2.s with encodedBytes := c2.s.encodedBytes.inc toWrite },
    bytesWritten := c2.bytesWritten + toWrite }

/-- The call `spillover.swap(encodedBytes)`. -/
def swapSpillover (c : Ctx) : Ctx :=
  { c with
    s := { c.s with spillover := c.s.encodedBytes, encodedBytes := c.s.spillover },
    trace := c.trace ++ [Ev.store c.s.spillover.avail c.s.encodedBytes.avail] }

/-- The part of the loop body after a successful encoder call. -/
def deliverEncoded (bytesToRead : Nat) (c : Ctx) : Step :=
  if c.s.encodedBytes.length = 0 then Step.more (refetch bytesToRead c)
  else if (writeEncoded bytesToRead c).s.encodedBytes.avail = 0 then
    Step.more (refetch bytesToRead (writeEncoded bytesToRead c))
  else Step.done (returnWritten (swapSpillover (writeEncoded bytesToRead c)))

/-- The body of the `while` loop. -/
def encodeRound (codec : Codec) (bytesToRead : Nat) (c : Ctx) : Step :=
  match (encodeFrame codec c).2 with
  | none => Step.done (internalError (encodeFrame codec c).1)
  | some out => deliverEncoded bytesToRead (acceptEncoded (encodeFrame codec c).1 out)

/-- The flush of the finalize block: `encodedBytes.reset()`, `lame_encode_flush`, and
the copy of its whole output to `dst + bytesWritten`. A call on a null session is
recorded as such in the trace and taken to produce nothing. -/
def flushEncoder (codec : Codec) (c : Ctx) : Ctx × List Byte :=
  let eb := c.s.encodedBytes.reset
  let out :=
    match c.s.lame with
    | none => []
    | some sess => codec.flush sess eb.length
  ({ c with
     s := { c.s with
       encodedBytes := eb.fill out,
       lame := c.s.lame.map (fun sess => { sess with flushes := sess.flushes + 1 }) },
     dst := c.dst ++ out,
     trace := c.trace ++ [Ev.flush c.s.lame.isSome out.length] },
   out)

/-- The promotion of the temp file: `fclose`, `outFile = nullptr`, `rename`, and
`remove` when the rename failed. -/
def promote (c : Ctx) : Ctx :=
  if c.s.renameOk then
    { c with
      s := { c.s with
        outFile := false,
        disk := FileSystem.rename c.s.disk c.s.tempFilename c.s.finalFilename },
      trace := c.trace ++ [Ev.fclose true, Ev.rename true] }
  else
    { c with
      s := { c.s with
        outFile := false,
        disk := FileSystem.remove c.s.disk c.s.tempFilename },
      trace := c.trace ++ [Ev.fclose true, Ev.rename false, Ev.remove] }

/-- The statement `this->eof = true`. -/
def setEof (c : Ctx) : Ctx := { c with s := { c.s with eof := true } }

/-- The finalize block of `Read` and the return after it. -/
def finalize (codec : Codec) (c : Ctx) : ReadResult :=
  if c.bytesWritten = 0 then
    if (flushEncoder codec c).1.s.outFile then
      returnWritten (setEof (promote
        (sinkWrite (flushEncoder codec c).1 (flushEncoder codec c).2
          (flushEncoder codec c).2.length)))
    else returnWritten (setEof (flushEncoder codec c).1)
  else returnWritten c

/-- The `while (hasBuffer && bytesWritten < bytesToRead)` loop followed by the finalize
block. Every pass but the first consumes one frame of the decoder, so a caller passes the
number of frames left plus one; a loop that has used all of it has just been refused a
frame and leaves like one whose condition is false. -/
def encodeLoop (codec : Codec) (bytesToRead : Nat) : Nat → Ctx → ReadResult
  | 0, c => finalize codec c
  | fuel + 1, c =>
    if c.hasBuffer && c.bytesWritten < bytesToRead then
      match encodeRound codec bytesToRead c with
      | Step.done r => r
      | Step.more c => encodeLoop codec bytesToRead fuel c
    else finalize codec c

/-- Number of frames the decoder can still deliver. -/
def framesLeft (s : TranscodingDataStream) : Nat :=
  match s.decoder with
  | none => 0
  | some d => d.frames.length

/-- The method `TranscodingDataStream::Read(buffer, bytesToRead)`. -/
def Read (codec : Codec) (s : TranscodingDataStream) (bytesToRead : Nat) : ReadResult :=
  if s.eof || s.pcmBuffer.isNone then { state := s, ret := 0, dst := [], trace := [] }
  else
    let c : Ctx := { s := s, bytesWritten := 0, hasBuffer := false, dst := [], trace := [] }
    let c := initEncoder c
    let c := drainSpillover bytesToRead c
    if c.bytesWritten = bytesToRead then returnWritten c
    else
      let c := if !c.hasBuffer then c.fetch else c
      encodeLoop codec bytesToRead (framesLeft c.s + 1) c

/-- The method `SetPosition`: it reports failure and changes nothing. -/
def SetPosition (s : TranscodingDataStream) (_position : Int) : Bool × TranscodingDataStream :=
  (false, s)

/-- The method `Position`. -/
def Position (s : TranscodingDataStream) : Nat := s.position

/-- The method `Eof`. -/
def Eof (s : TranscodingDataStream) : Bool := s.eof

/-- The method `Length`. -/
def Length (s : TranscodingDataStream) : Int := s.length

/-! ## Close and Dispose -/

/-- The method `Dispose`: the stream afterwards and the releases it performed. -/
def Dispose (s : TranscodingDataStream) : TranscodingDataStream × List Ev :=
  ({ s with
     pcmBuffer := none, decoder := none, input := none, lame := none, outFile := false,
     disk := if s.outFile then FileSystem.remove s.disk s.tempFilename else s.disk },
   (if s.pcmBuffer.isSome then [Ev.destroyBuffer] else []) ++
   (if s.decoder.isSome then [Ev.destroyDecoder] else []) ++
   (if s.input.isSome then [Ev.destroyInput] else []) ++
   (if s.lame.isSome then [Ev.lameClose] else []) ++
   (if s.outFile then [Ev.fclose true, Ev.remove] else []) ++
   [Ev.deleteThis])

/-- The method `Destroy`. -/
def Destroy (s : TranscodingDataStream) : TranscodingDataStream × List Ev := Dispose s

/-- Locals of the detached task of `Close`, with the stream and what was done so far. -/
structure Drain where
  s : TranscodingDataStream
  count : Nat
  last : Nat
  trace : List Ev

/-- The loop `while (!Eof() && count < detachTolerance) { last = Read(buffer, 8192);
count += last; }` of the detached task, run sequentially; `none` when the given number
of passes does not bring it to its end. -/
def drainLoop (codec : Codec) : Nat → Drain → Option Drain
  | 0, d => if !d.s.eof && (d.count : Int) < d.s.detachTolerance then none else some d
  | fuel + 1, d =>
    if !d.s.eof && (d.count : Int) < d.s.detachTolerance then
      drainLoop codec fuel
        { s := (Read codec d.s 8192).state, count := d.count + (Read codec d.s 8192).ret,
          last := (Read codec d.s 8192).ret, trace := d.trace ++ (Read codec d.s 8192).trace }
    else some d

/-- The block `if (last != 0 && this->outFile)` of the detached task: the incomplete
temp file is closed and removed. -/
def discardIncomplete (d : Drain) : Drain :=
  if d.last ≠ 0 ∧ d.s.outFile = true then
    { d with
      s := { d.s with outFile := false, disk := FileSystem.remove d.s.disk d.s.tempFilename },
      trace := d.trace ++ [Ev.fclose true, Ev.remove] }
  else d

/-- The method `Close`, the detached task run to its end in place; `fuel` bounds the
passes of its loop and `none` means that it was not enough. -/
def Close (codec : Codec) (fuel : Nat) (s : TranscodingDataStream) :
    Option (TranscodingDataStream × List Ev) :=
  if s.eof then some (Dispose s)
  else
    match drainLoop codec fuel { s := s, count := 0, last := 0, trace := [] } with
    | none => none
    | some d =>
      some ((Dispose (discardIncomplete d).s).1,
        (discardIncomplete d).trace ++ (Dispose (discardIncomplete d).s).2)

/-! ## Runs of successive reads, and the encoded stream -/

/-- The stream after successive `Read` calls with the given capacities. -/
def afterReads (codec : Codec) : TranscodingDataStream → List Nat → TranscodingDataStream
  | s, [] => s
  | s, n :: ns => afterReads codec (Read codec s n).state ns

/-- The values returned by successive `Read` calls with the given capacities. -/
def returnedCounts (codec : Codec) : TranscodingDataStream → List Nat → List Nat
  | _, [] => []
  | s, n :: ns => (Read codec s n).ret :: returnedCounts codec (Read codec s n).state ns

/-- The bytes returned by successive `Read` calls, concatenated. -/
def returnedBytes (codec : Codec) : TranscodingDataStream → List Nat → List Byte
  | _, [] => []
  | s, n :: ns => (Read codec s n).returned ++ returnedBytes codec (Read codec s n).state ns

/-- The session once the stereo block of a frame has been passed to the encoder. -/
def Session.feed (sess : Session) (f : Frame) : Session :=
  { sess with fed := sess.fed ++ [((stereoBlock f).getD [], numSamples f)] }

/-- What the encoder produces for a sequence of frames fed in order to a session, each
with the output capacity `requiredBytes`: the outputs concatenated, or `none` when one of
the calls reports an error. The output of a flush is not part of it. -/
def encodeAll (codec : Codec) : Session → List Frame → Option (List Byte)
  | _, [] => some []
  | sess, f :: rest =>
    match codec.encode sess ((stereoBlock f).getD []) (numSamples f)
        (requiredBytes (numSamples f)) with
    | none => none
    | some out => (encodeAll codec (sess.feed f) rest).map (fun t => out ++ t)

/-- The encoded stream of a whole source at a bitrate: the session is the one `Read`
initialises from the first frame. -/
def encodedStream (codec : Codec) (bitrate : Nat) (frames : List Frame) : Option (List Byte) :=
  match frames with
  | [] => some []
  | f :: _ => encodeAll codec (lameInit f.sampleRate bitrate) frames

/-- The bytes waiting in the spillover. -/
def spillBytes (s : TranscodingDataStream) : List Byte :=
  s.spillover.pos.take s.spillover.avail

/-- The bytes a stream still owes its consumer: the spillover, then the encoding of the
frames the decoder has not delivered yet. -/
def pendingBytes (codec : Codec) (s : TranscodingDataStream) : Option (List Byte) :=
  match s.decoder with
  | none => some []
  | some d =>
    match s.lame with
    | none => encodedStream codec s.bitrate d.frames
    | some sess => (encodeAll codec sess d.frames).map (fun t => spillBytes s ++ t)

/-! ## Concrete sources and codecs used as test inputs -/

/-- A stereo frame of two sample pairs. -/
def frameA : Frame := ⟨44100, 2, [1, 2, 3, 4]⟩

/-- A source of two frames lasting one second. -/
def envTwoFrames : Environment := ⟨some "track", some ⟨1, [frameA, frameA]⟩, default⟩

/-- A source of one frame lasting one second. -/
def envOneFrame : Environment := ⟨some "track", some ⟨1, [frameA]⟩, default⟩

/-- A codec that encodes the first frame to two bytes and reports an error on the next. -/
def codecFailsOnSecond : Codec :=
  { encode := fun sess _ _ _ => if sess.fed.length = 0 then some [1, 2] else none,
    flush := fun _ _ => [] }

/-- A codec that encodes the first frame to three bytes, later frames to two, and whose
flush produces two bytes. -/
def codecThreeTwo : Codec :=
  { encode := fun sess _ _ _ => if sess.fed.length = 0 then some [1, 2, 3] else some [4, 5],
    flush := fun _ _ => [8, 9] }

/-! ## Invariants of a run -/

/-- A constructed stream in the middle of a clean run: not at its end, with its buffer
and decoder, the spillover cursor within its storage, and no spillover before the
encoder exists. -/
structure Streaming (s : TranscodingDataStream) : Prop where
  eof : s.eof = false
  buf : s.pcmBuffer.isSome = true
  dec : s.decoder.isSome = true
  spill : (spillBytes s).length = s.spillover.avail
  fresh : s.lame = none → s.spillover.avail = 0

/-- What a `Read` call that had copied `copied` and still owed `owed` leaves behind:
either the stream goes on with an encoder session, the call returns all it copied, and what was copied and owed
before is what is copied and owed now; or the stream is at its end, the call returns
nothing, and nothing had been copied or was owed. -/
def Settles (codec : Codec) (copied owed : List Byte) (r : ReadResult) : Prop :=
  (r.state.eof = false ∧ Streaming r.state ∧ r.state.lame.isSome = true ∧
    r.ret = r.dst.length ∧ ∃ rest, pendingBytes codec r.state = some rest ∧ copied ++ owed = r.dst ++ rest) ∨
  (r.state.eof = true ∧ r.ret = 0 ∧ copied = [] ∧ owed = [])


/-- A second stereo frame, with other samples. -/
def frameB : Frame := ⟨44100, 2, [5, 6, 7, 8]⟩

/-- A source of two different frames lasting one second. -/
def envDistinct : Environment := ⟨some "track", some ⟨1, [frameA, frameB]⟩, default⟩

/-- A codec whose output for a block is the block itself, sample by sample, and whose
flush produces nothing. -/
def codecEcho : Codec :=
  { encode := fun _ block _ _ => some (block.map Int.toNat),
    flush := fun _ _ => [] }


/-- The fields that are set at construction: the length estimate, the detach tolerance,
the bitrate, the two paths, and whether the promotion will succeed. -/
def settings (s : TranscodingDataStream) : Int × Int × Nat × String × String × Bool :=
  (s.length, s.detachTolerance, s.bitrate, s.tempFilename, s.finalFilename, s.renameOk)


/-- The results of the encoder calls recorded in a trace, in order: `some k` for `k`
bytes produced, `none` for a negative return value. -/
def encodeResults (tr : List Ev) : List (Option Nat) :=
  tr.filterMap (fun e => match e with
    | Ev.encode _ _ r => some r
    | _ => none)


/-- A source whose decoder has no frame to deliver. -/
def envEmpty : Environment := ⟨some "track", some ⟨0, []⟩, default⟩

/-- A codec that reports an error on the first frame it is given. -/
def codecFails : Codec :=
  { encode := fun _ _ _ _ => none,
    flush := fun _ _ => [] }


/-- What successive `Read` calls with the given capacities do, in order. -/
def runTrace (codec : Codec) : TranscodingDataStream → List Nat → List Ev
  | _, [] => []
  | s, n :: ns => (Read codec s n).trace ++ runTrace codec (Read codec s n).state ns

/-- Whether the spillover was empty when the event took place, for the two events that
touch it: an encoder call, which records `spillover.avail()`, and a store into the
spillover, which records `spillover.avail()` just before. -/
def Ev.spillEmpty : Ev → Bool
  | Ev.encode _ pending _ => pending == 0
  | Ev.store before _ => before == 0
  | _ => true


/-- Whether an event is a call of `lame_encode_flush`. -/
def Ev.isFlush : Ev → Bool
  | Ev.flush _ _ => true
  | _ => false

/-- Whether an event is an operation on the encoder from within `Read`: its
initialisation, an encode call or a flush. -/
def Ev.isEncoderOp : Ev → Bool
  | Ev.lameInit => true
  | Ev.encode _ _ _ => true
  | Ev.flush _ _ => true
  | _ => false

/-- Number of flush calls in a trace. -/
def flushCount (tr : List Ev) : Nat := tr.countP Ev.isFlush

/-- The last encoder operation in a trace, if there is one. -/
def lastEncoderOp (tr : List Ev) : Option Ev := (tr.filter Ev.isEncoderOp).getLast?



/-! ## The PulseAudio output (`src/plugins/pulseout/PulseOut.cpp`)

The output device talks to the sound server through the `pa_blocking_*` wrapper. The
server is external: the outcomes of the coming `pa_blocking_new` and
`pa_blocking_set_volume` calls and the value of the `force_linear_volume` preference are
part of the model state, and every call made is recorded in a trace. The mutex is not
modelled: each method runs as one step. -/

/-- A C++ `double`: a finite value, an infinity or a NaN. Finite values are exact
rationals (the methods below only compare and copy them); the sign of zero is not
modelled. -/
inductive Double where
  | num (q : ℚ)
  | posInf
  | negInf
  | nan
deriving DecidableEq, Repr

namespace Double

/-- The built-in comparison `a > b`: false as soon as one operand is a NaN. -/
def gt : Double → Double → Bool
  | nan, _ => false
  | _, nan => false
  | num x, num y => decide (y < x)
  | num _, posInf => false
  | num _, negInf => true
  | posInf, posInf => false
  | posInf, _ => true
  | negInf, _ => false

/-- The built-in comparison `a < b`. -/
def lt (a b : Double) : Bool := gt b a

/-- The value is a number of the interval `[0, 1]`. -/
def inUnit : Double → Prop
  | num q => 0 ≤ q ∧ q ≤ 1
  | _ => False

end Double

/-- The `State` enumeration of `PulseOut.h`, which is not among the sources: the three
enumerators that `PulseOut.cpp` names, taken to be distinct. -/
inductive State where
  | StateStopped
  | StatePaused
  | StatePlaying
deriving DecidableEq, Repr

/-- The result codes of `IOutput::Play`, declared in `core/sdk/constants.h`, which is not
among the sources: their values are parameters. -/
structure OutputCodes where
  OutputInvalidState : Int
  OutputBufferWritten : Int
deriving DecidableEq, Repr

/-- The sound server and the preferences, as far as the output consults them. -/
structure Server where
  /-- Whether each of the coming `pa_blocking_new` calls returns a connection
  (none does once the list is used up). -/
  connects : List Bool
  /-- Whether each of the coming `pa_blocking_set_volume` calls returns 0. -/
  volumeSet : List Bool
  /-- Value of `prefs->GetBool("force_linear_volume", false)`. -/
  forceLinear : Bool
deriving DecidableEq, Repr

/-- Calls that the output makes on the server and on the buffer provider. -/
inductive PaEv where
  /-- The call `pa_blocking_flush`. -/
  | flush
  /-- The call `pa_blocking_free`. -/
  | free
  /-- The call `pa_blocking_drain`. -/
  | drain
  /-- The call `pa_blocking_new` with the sample spec (rate, channels), and whether it
  returned a connection. -/
  | new (rate channels : Nat) (ok : Bool)
  /-- The call `pa_blocking_set_volume`, with the mode (linear or not) and the volume
  from which the normalised value is computed, and whether it returned 0. -/
  | setVolume (linear : Bool) (volume : Double) (ok : Bool)
  /-- The call `pa_blocking_write` of that many bytes. -/
  | write (bytes : Nat)
  /-- The call `provider->OnBufferProcessed(buffer)`. -/
  | onBufferProcessed
deriving DecidableEq, Repr

/-- The fields of a `PulseOut` object (the `volume` member is taken to be a `double`, as
the parameter of `SetVolume` and the result of `GetVolume` are; `PulseOut.h` is not among
the sources), with the server it talks to. `audioConnection` is whether the pointer is
non-null. -/
structure PulseOut where
  audioConnection : Bool
  state : State
  volume : Double
  volumeUpdated : Bool
  channels : Nat
  rate : Nat
  linearVolume : Bool
  server : Server
deriving DecidableEq, Repr

namespace PulseOut

/-- The constructor `PulseOut::PulseOut()`. -/
def construct (server : Server) : PulseOut :=
  { audioConnection := false,
    state := State.StateStopped,
    volume := Double.num 1,
    volumeUpdated := false,
    channels := 0,
    rate := 0,
    linearVolume := false,
    server := server }

/-- The method `PulseOut::CloseDevice()`. -/
def CloseDevice (p : PulseOut) : PulseOut × List PaEv :=
  if p.audioConnection then
    ({ p with audioConnection := false, rate := 0, channels := 0 }, [PaEv.flush, PaEv.free])
  else (p, [])

/-- The clamping at the head of `PulseOut::SetVolume`. -/
def clampVolume (volume : Double) : Double :=
  let volume := if Double.gt volume (Double.num 1) then Double.num 1 else volume
  if Double.lt volume (Double.num 0) then Double.num 0 else volume

/-- The method `PulseOut::SetVolume(volume)`. -/
def SetVolume (p : PulseOut) (volume : Double) : PulseOut × List PaEv :=
  let volume := clampVolume volume
  let p1 := { p with volume := volume, volumeUpdated := false }
  if p1.audioConnection then
    let ok := p1.server.volumeSet.headD false
    ({ p1 with
        volumeUpdated := ok,
        server := { p1.server with volumeSet := p1.server.volumeSet.tail } },
      [PaEv.setVolume p1.linearVolume volume ok])
  else (p1, [])

/-- The method `PulseOut::GetVolume()`. -/
def GetVolume (p : PulseOut) : Double := p.volume

/-- The part of `PulseOut::OpenDevice` that follows `CloseDevice()`: the connection
attempt and, when it succeeds, the set-up of the new connection. -/
def connect (p : PulseOut) (buffer : Frame) : PulseOut × List PaEv :=
  let ok := p.server.connects.headD false
  let p1 := { p with
    audioConnection := ok,
    server := { p.server with connects := p.server.connects.tail } }
  if ok then
    let p2 := { p1 with
      rate := buffer.sampleRate,
      channels := buffer.channels,
      state := State.StatePlaying,
      linearVolume := p1.server.forceLinear }
    ((SetVolume p2 p2.volume).1,
      PaEv.new buffer.sampleRate buffer.channels true :: (SetVolume p2 p2.volume).2)
  else (p1, [PaEv.new buffer.sampleRate buffer.channels false])

/-- The method `PulseOut::OpenDevice(buffer)`. -/
def OpenDevice (p : PulseOut) (buffer : Frame) : PulseOut × List PaEv :=
  if !p.audioConnection || p.rate != buffer.sampleRate || p.channels != buffer.channels then
    ((connect (CloseDevice p).1 buffer).1,
      (CloseDevice p).2 ++ (connect (CloseDevice p).1 buffer).2)
  else (p, [])

/-- The method `PulseOut::Stop()`. -/
def Stop (p : PulseOut) : PulseOut × List PaEv :=
  if p.audioConnection then ({ p with state := State.StateStopped }, [PaEv.flush])
  else (p, [])

/-- The method `PulseOut::Pause()`. -/
def Pause (p : PulseOut) : PulseOut × List PaEv :=
  if p.audioConnection then ({ p with state := State.StatePaused }, [PaEv.flush])
  else (p, [])

/-- The method `PulseOut::Resume()`. -/
def Resume (p : PulseOut) : PulseOut × List PaEv :=
  if p.audioConnection then ({ p with state := State.StatePlaying }, [])
  else (p, [])

/-- The method `PulseOut::Drain()`. -/
def Drain (p : PulseOut) : PulseOut × List PaEv :=
  if p.state ≠ State.StateStopped ∧ p.audioConnection = true then (p, [PaEv.drain])
  else (p, [])

/-- Outcome of a `Play` call: the object afterwards, the value returned and the calls
made. -/
structure PlayResult where
  state : PulseOut
  ret : Int
  trace : List PaEv
deriving DecidableEq, Repr

/-- The tail of `PulseOut::Play` once the device is open and playing: the volume is set
if the last attempt did not succeed, the buffer is written (`Samples() * sizeof(float)`
bytes) and the provider is notified. -/
def writeBuffer (k : OutputCodes) (p : PulseOut) (buffer : Frame) (opened : List PaEv) :
    PlayResult :=
  let r := if !p.volumeUpdated then SetVolume p p.volume else (p, [])
  { state := r.1,
    ret := k.OutputBufferWritten,
    trace := opened ++ r.2 ++ [PaEv.write (buffer.samples.length * 4), PaEv.onBufferProcessed] }

/-- The method `PulseOut::Play(buffer, provider)`. -/
def Play (k : OutputCodes) (p : PulseOut) (buffer : Frame) : PlayResult :=
  if p.state = State.StatePaused then
    { state := p, ret := k.OutputInvalidState, trace := [] }
  else
    let o := OpenDevice p buffer
    if !o.1.audioConnection || o.1.state != State.StatePlaying then
      { state := o.1, ret := k.OutputInvalidState, trace := o.2 }
    else writeBuffer k o.1 buffer o.2

/-- A call of one of the public methods that act on the object. -/
inductive Op where
  | setVolume (volume : Double)
  | play (buffer : Frame)
  | stop
  | pause
  | resume
  | drain
deriving DecidableEq, Repr

/-- The object after one call. -/
def step (k : OutputCodes) (p : PulseOut) : Op → PulseOut
  | Op.setVolume v => (SetVolume p v).1
  | Op.play buffer => (Play k p buffer).state
  | Op.stop => (Stop p).1
  | Op.pause => (Pause p).1
  | Op.resume => (Resume p).1
  | Op.drain => (Drain p).1

/-- The object after a sequence of calls. -/
def run (k : OutputCodes) (p : PulseOut) (ops : List Op) : PulseOut :=
  ops.foldl (step k) p

end PulseOut

/-- A server on which every connection attempt and every volume update succeeds, for as
many calls as listed. -/
def serverUp : Server :=
  { connects := [true, true], volumeSet := [true, true, true, true], forceLinear := false }

/-- A server that refuses the connection. -/
def serverDown : Server :=
  { connects := [false], volumeSet := [], forceLinear := false }

/-- Some values for the result codes of `Play`. -/
def codes : OutputCodes := { OutputInvalidState := -3, OutputBufferWritten := 0 }

/-- An output with an open connection in the format of `frameA`, playing at full volume. -/
def outPlaying : PulseOut :=
  { audioConnection := true,
    state := State.StatePlaying,
    volume := Double.num 1,
    volumeUpdated := true,
    channels := 2,
    rate := 44100,
    linearVolume := false,
    server := serverUp }

/-! ## Theorems -/

/-! ### Channel mixer -/

theorem mixMono_spec (src : List Sample) : ∀ (k p : Nat), p + k ≤ src.length →
    ∃ out, mixMono src p k = some out ∧ out.length = 2 * k ∧
      ∀ i, i < k → out[2 * i]? = src[p + i]? ∧ out[2 * i + 1]? = src[p + i]? := by
  intro k
  induction k with
  | zero =>
    intro p _
    exact ⟨[], rfl, rfl, fun i hi => absurd hi (Nat.not_lt_zero i)⟩
  | succ k ih =>
    intro p hp
    obtain ⟨out, hout, hlen, hget⟩ := ih (p + 1) (by omega)
    have hlt : p < src.length := by omega
    have hx : src[p]? = some src[p] := List.getElem?_eq_getElem hlt
    refine ⟨src[p] :: src[p] :: out, ?_, ?_, ?_⟩
    · simp only [mixMono, hx, hout]
    · simp only [List.length_cons, hlen]; omega
    · intro i hi
      cases i with
      | zero => simp [hx]
      | succ i =>
        have h := hget i (by omega)
        have e1 : 2 * (i + 1) = (2 * i) + 1 + 1 := by omega
        have e3 : p + (i + 1) = p + 1 + i := by omega
        rw [e1, e3]
        simpa using h

theorem mixMulti_spec (c : Nat) (src : List Sample) (hc : 2 ≤ c) : ∀ (k p : Nat),
    p + k * c ≤ src.length →
    ∃ out, mixMulti c src p k = some out ∧ out.length = 2 * k ∧
      ∀ i, i < k → out[2 * i]? = src[p + i * c]? ∧ out[2 * i + 1]? = src[p + i * c + 1]? := by
  intro k
  induction k with
  | zero =>
    intro p _
    exact ⟨[], rfl, rfl, fun i hi => absurd hi (Nat.not_lt_zero i)⟩
  | succ k ih =>
    intro p hp
    have hmul : (k + 1) * c = k * c + c := Nat.succ_mul k c
    obtain ⟨out, hout, hlen, hget⟩ := ih (p + c) (by omega)
    have hlt : p < src.length := by omega
    have hlt1 : p + 1 < src.length := by omega
    have hl : src[p]? = some src[p] := List.getElem?_eq_getElem hlt
    have hr : src[p + 1]? = some src[p + 1] := List.getElem?_eq_getElem hlt1
    refine ⟨src[p] :: src[p + 1] :: out, ?_, ?_, ?_⟩
    · simp only [mixMulti, hl, hr, hout]
    · simp only [List.length_cons, hlen]; omega
    · intro i hi
      cases i with
      | zero => simp [hl, hr]
      | succ i =>
        have h := hget i (by omega)
        have e1 : 2 * (i + 1) = (2 * i) + 1 + 1 := by omega
        have e3 : p + (i + 1) * c = p + c + i * c := by rw [Nat.succ_mul]; omega
        rw [e1, e3]
        simpa using h

theorem numSamples_mul_le (f : Frame) : numSamples f * f.channels ≤ f.samples.length :=
  Nat.div_mul_le_self _ _

theorem downmixFrame_some (f : Frame) :
    ∃ out, downmixFrame f = some out ∧ out.length = 2 * numSamples f := by
  unfold downmixFrame
  split
  · next h1 =>
    obtain ⟨out, h, hl, _⟩ := mixMono_spec f.samples (numSamples f) 0
      (by have := numSamples_mul_le f; rw [h1] at this; omega)
    exact ⟨out, h, hl⟩
  · next h1 =>
    rcases Nat.lt_or_ge f.channels 2 with h2 | h2
    · have h0 : f.channels = 0 := by omega
      have hk : numSamples f = 0 := by simp [numSamples, h0]
      rw [hk]
      exact ⟨[], rfl, rfl⟩
    · obtain ⟨out, h, hl, _⟩ := mixMulti_spec f.channels f.samples h2 (numSamples f) 0
        (by have := numSamples_mul_le f; omega)
      exact ⟨out, h, hl⟩

theorem stereoBlock_some (f : Frame) :
    ∃ out, stereoBlock f = some out ∧ out.length = 2 * numSamples f := by
  unfold stereoBlock
  split
  · next h2 =>
    refine ⟨_, rfl, ?_⟩
    have := numSamples_mul_le f
    rw [h2] at this
    simp only [List.length_take]
    omega
  · exact downmixFrame_some f


theorem stereoBlock_mono3 (rate : Nat) (a b c : Sample) :
    stereoBlock ⟨rate, 1, [a, b, c]⟩ = some [a, a, b, b, c, c] := by
  simp [stereoBlock, downmixFrame, numSamples, mixMono]

theorem stereoBlock_quad1 (rate : Nat) (a b c d : Sample) :
    stereoBlock ⟨rate, 4, [a, b, c, d]⟩ = some [a, b] := by
  simp [stereoBlock, downmixFrame, numSamples, mixMulti]

/-- C5 (downmix correctness): for a frame with `c ≥ 1` channels and `k = Samples()/c`
sample frames, forming the stereo block reads no sample outside the frame (it is `some`),
and the block has exactly `2k` samples. For one channel, `out[2i] = out[2i+1] = in[i]`;
for three or more, `out[2i] = in[i*c]` and `out[2i+1] = in[i*c+1]`; for two channels the
block is the first `2k` samples of the input buffer itself, which is the whole buffer when
`Samples()` is even. In particular mono `[a,b,c]` gives `[a,a,b,b,c,c]` and one
four-channel sample frame `[a,b,c,d]` gives `[a,b]`. -/
theorem downmix_correct (f : Frame) (hc : 0 < f.channels) :
    ∃ out, stereoBlock f = some out ∧ out.length = 2 * numSamples f ∧
      (f.channels = 1 → ∀ i, i < numSamples f →
        ∃ x, f.samples[i]? = some x ∧ out[2 * i]? = some x ∧ out[2 * i + 1]? = some x) ∧
      (3 ≤ f.channels → ∀ i, i < numSamples f →
        ∃ l r, f.samples[i * f.channels]? = some l ∧ f.samples[i * f.channels + 1]? = some r ∧
          out[2 * i]? = some l ∧ out[2 * i + 1]? = some r) ∧
      (f.channels = 2 → out = f.samples.take (2 * numSamples f) ∧
        (f.samples.length % 2 = 0 → out = f.samples)) ∧
      (∀ a b c : Sample,
        stereoBlock ⟨f.sampleRate, 1, [a, b, c]⟩ = some [a, a, b, b, c, c]) ∧
      (∀ a b c d : Sample, stereoBlock ⟨f.sampleRate, 4, [a, b, c, d]⟩ = some [a, b]) := by
  have hk := numSamples_mul_le f
  rcases Nat.lt_or_ge f.channels 2 with h1 | h2
  · -- mono
    have hc1 : f.channels = 1 := by omega
    obtain ⟨out, hout, hlen, hget⟩ := mixMono_spec f.samples (numSamples f) 0
      (by rw [hc1] at hk; omega)
    refine ⟨out, ?_, hlen, ?_, ?_, ?_, ?_, ?_⟩
    · simp [stereoBlock, downmixFrame, hc1, hout]
    · intro _ i hi
      have hlt : i < f.samples.length := by rw [hc1] at hk; omega
      have h := hget i hi
      rw [Nat.zero_add, List.getElem?_eq_getElem hlt] at h
      exact ⟨f.samples[i], List.getElem?_eq_getElem hlt, h.1, h.2⟩
    · intro h3; omega
    · intro h2; omega
    · intro a b c; exact stereoBlock_mono3 _ a b c
    · intro a b c d; exact stereoBlock_quad1 _ a b c d
  · rcases Nat.eq_or_lt_of_le h2 with h2e | h3
    · -- stereo
      have hc2 : f.channels = 2 := h2e.symm
      refine ⟨f.samples.take (2 * numSamples f), ?_, ?_, ?_, ?_, ?_, ?_, ?_⟩
      · simp [stereoBlock, hc2]
      · rw [hc2] at hk
        simp only [List.length_take]
        omega
      · intro h; omega
      · intro h; omega
      · intro _
        refine ⟨rfl, fun hev => ?_⟩
        apply List.take_of_length_le
        have : numSamples f = f.samples.length / 2 := by simp [numSamples, hc2]
        omega
      · intro a b c; exact stereoBlock_mono3 _ a b c
      · intro a b c d; exact stereoBlock_quad1 _ a b c d
    · -- three or more channels
      obtain ⟨out, hout, hlen, hget⟩ := mixMulti_spec f.channels f.samples h2 (numSamples f) 0
        (by omega)
      refine ⟨out, ?_, hlen, ?_, ?_, ?_, ?_, ?_⟩
      · have hn1 : f.channels ≠ 1 := by omega
        have hn2 : f.channels ≠ 2 := by omega
        simp [stereoBlock, downmixFrame, hn1, hn2, hout]
      · intro h; omega
      · intro _ i hi
        have hle : (i + 1) * f.channels ≤ numSamples f * f.channels :=
          Nat.mul_le_mul_right _ hi
        rw [Nat.succ_mul] at hle
        have hlt : i * f.channels < f.samples.length := by omega
        have hlt1 : i * f.channels + 1 < f.samples.length := by omega
        have h := hget i hi
        rw [Nat.zero_add, List.getElem?_eq_getElem hlt, List.getElem?_eq_getElem hlt1] at h
        exact ⟨f.samples[i * f.channels], f.samples[i * f.channels + 1],
          List.getElem?_eq_getElem hlt, List.getElem?_eq_getElem hlt1, h.1, h.2⟩
      · intro h; omega
      · intro a b c; exact stereoBlock_mono3 _ a b c
      · intro a b c d; exact stereoBlock_quad1 _ a b c d

/-- Witness for C5: a mono frame of three samples. -/
theorem downmix_correct_witness :
    0 < (Frame.mk 44100 1 [7, 8, 9]).channels ∧
      ∃ out, stereoBlock (Frame.mk 44100 1 [7, 8, 9]) = some out ∧
        out.length = 2 * numSamples (Frame.mk 44100 1 [7, 8, 9]) :=
  ⟨by decide, (downmix_correct (Frame.mk 44100 1 [7, 8, 9]) (by decide)).imp
    (fun _ h => ⟨h.1, h.2.1⟩)⟩


/-! ### Position -/

theorem fetch_position (c : Ctx) : c.fetch.s.position = c.s.position := by
  unfold Ctx.fetch getBuffer
  split
  · rfl
  · split <;> rfl

theorem sinkWrite_position (c : Ctx) (bytes : List Byte) (count : Nat) :
    (sinkWrite c bytes count).s.position = c.s.position := by
  unfold sinkWrite; split <;> rfl

theorem sinkWrite_bytesWritten (c : Ctx) (bytes : List Byte) (count : Nat) :
    (sinkWrite c bytes count).bytesWritten = c.bytesWritten := by
  unfold sinkWrite; split <;> rfl

theorem refetch_position (n : Nat) (c : Ctx) : (refetch n c).s.position = c.s.position := by
  unfold refetch; split
  · exact fetch_position c
  · rfl

theorem writeEncoded_position (n : Nat) (c : Ctx) :
    (writeEncoded n c).s.position = c.s.position := by
  simp only [writeEncoded, sinkWrite_position]

theorem encodeRound_position (codec : Codec) (n : Nat) (c : Ctx) :
    (∀ r, encodeRound codec n c = Step.done r → r.state.position = c.s.position + r.ret) ∧
    (∀ c2, encodeRound codec n c = Step.more c2 → c2.s.position = c.s.position) := by
  unfold encodeRound
  split
  · constructor
    · intro r h
      cases h
      simp [internalError, encodeFrame]
    · intro c2 h; cases h
  · next out _ =>
    unfold deliverEncoded
    split
    · constructor
      · intro r h; cases h
      · intro c2 h
        cases h
        simp [refetch_position, acceptEncoded, encodeFrame]
    · split
      · constructor
        · intro r h; cases h
        · intro c2 h
          cases h
          simp [refetch_position, writeEncoded_position, acceptEncoded, encodeFrame]
      · constructor
        · intro r h
          cases h
          simp [returnWritten, swapSpillover, writeEncoded_position, acceptEncoded, encodeFrame]
        · intro c2 h; cases h

theorem finalize_position (codec : Codec) (c : Ctx) :
    (finalize codec c).state.position = c.s.position + (finalize codec c).ret := by
  unfold finalize
  split
  · split
    · simp only [returnWritten, setEof, promote]
      split <;> simp [sinkWrite_position, sinkWrite_bytesWritten, flushEncoder]
    · simp [returnWritten, setEof, flushEncoder]
  · rfl

theorem encodeLoop_position (codec : Codec) (n : Nat) : ∀ (fuel : Nat) (c : Ctx),
    (encodeLoop codec n fuel c).state.position =
      c.s.position + (encodeLoop codec n fuel c).ret := by
  intro fuel
  induction fuel with
  | zero => intro c; exact finalize_position codec c
  | succ fuel ih =>
    intro c
    unfold encodeLoop
    split
    · have h := encodeRound_position codec n c
      split
      · next r hr => exact h.1 r hr
      · next c2 hc2 => rw [ih c2, h.2 c2 hc2]
    · exact finalize_position codec c

theorem initEncoder_position (c : Ctx) : (initEncoder c).s.position = c.s.position := by
  unfold initEncoder
  split
  · dsimp only
    split
    · simp [fetch_position]
    · exact fetch_position c
  · rfl

theorem drainSpillover_position (n : Nat) (c : Ctx) :
    (drainSpillover n c).s.position = c.s.position := by
  unfold drainSpillover
  split
  · simp [sinkWrite_position]
  · rfl

theorem Read_position (codec : Codec) (s : TranscodingDataStream) (n : Nat) :
    (Read codec s n).state.position = s.position + (Read codec s n).ret := by
  unfold Read
  split
  · rfl
  · dsimp only
    split
    · simp [returnWritten, drainSpillover_position, initEncoder_position]
    · rw [encodeLoop_position]
      split
      · simp [fetch_position, drainSpillover_position, initEncoder_position]
      · simp [drainSpillover_position, initEncoder_position]

theorem afterReads_position (codec : Codec) : ∀ (caps : List Nat) (s : TranscodingDataStream),
    (afterReads codec s caps).position = s.position + (returnedCounts codec s caps).sum := by
  intro caps
  induction caps with
  | nil => intro s; simp [afterReads, returnedCounts]
  | cons n ns ih =>
    intro s
    simp only [afterReads, returnedCounts, List.sum_cons]
    rw [ih, Read_position]
    omega

theorem construct_position (env : Environment) (bitrate : Nat) (disk : FileSystem)
    (renameOk : Bool) : (construct env bitrate disk renameOk).position = 0 := by
  unfold construct
  split
  · rfl
  · split <;> rfl

theorem constructWithSink_position (env : Environment) (t f : String) (bitrate : Nat)
    (disk : FileSystem) (fopenOk renameOk : Bool) :
    (constructWithSink env t f bitrate disk fopenOk renameOk).position = 0 := by
  unfold constructWithSink
  split
  · split <;> exact construct_position env bitrate disk renameOk
  · exact construct_position env bitrate disk renameOk

/-- C3 (position invariant): after any sequence of `Read` calls on a stream built by
either constructor, whatever the capacities, the codec and the source (runs that end in
an encode error included), `Position()` is the sum of the values returned so far; and
`SetPosition` reports failure and leaves the stream, its position included, as it was. -/
theorem position_invariant (codec : Codec) (env : Environment) (t f : String)
    (bitrate : Nat) (disk : FileSystem) (fopenOk renameOk : Bool) (caps : List Nat)
    (p : Int) :
    Position (afterReads codec (construct env bitrate disk renameOk) caps) =
      (returnedCounts codec (construct env bitrate disk renameOk) caps).sum ∧
    Position (afterReads codec (constructWithSink env t f bitrate disk fopenOk renameOk) caps) =
      (returnedCounts codec
        (constructWithSink env t f bitrate disk fopenOk renameOk) caps).sum ∧
    SetPosition (afterReads codec
        (constructWithSink env t f bitrate disk fopenOk renameOk) caps) p =
      (false, afterReads codec (constructWithSink env t f bitrate disk fopenOk renameOk) caps) := by
  refine ⟨?_, ?_, rfl⟩
  · simp only [Position]
    rw [afterReads_position, construct_position]
    omega
  · simp only [Position]
    rw [afterReads_position, constructWithSink_position]
    omega


/-! ### The loop body on a frame the encoder accepts -/

theorem take_append_drop_take {α : Type} (l : List α) (a b : Nat) :
    l.take a ++ (l.drop a).take b = l.take (a + b) := by
  induction a generalizing l with
  | zero => simp
  | succ a ih =>
    cases l with
    | nil => simp
    | cons x xs =>
      have e : a + 1 + b = (a + b) + 1 := by omega
      simp [ih, e]

theorem drop_append_take {α : Type} (out junk : List α) (t : Nat) (ht : t ≤ out.length) :
    ((out ++ junk).drop t).take (out.length - t) = out.drop t := by
  rw [List.drop_append_of_le_length ht]
  rw [List.take_append_of_le_length (by simp)]
  apply List.take_of_length_le
  simp

theorem realloc_length (b : ByteBuffer Byte) (n : Nat) : (b.realloc n).length = n := by
  unfold ByteBuffer.realloc; split <;> rfl

theorem realloc_offset (b : ByteBuffer Byte) (n : Nat) : (b.realloc n).offset = 0 := by
  unfold ByteBuffer.realloc; split <;> rfl

theorem encodeFrame_block (f : Frame) (dm : ByteBuffer Sample) :
    (if f.channels = 2 then f.samples.take (2 * numSamples f)
      else (if f.channels = 2 then dm
        else (dm.realloc (numSamples f * 2)).fill ((downmixFrame f).getD [])).data.take
          (2 * numSamples f)) = (stereoBlock f).getD [] := by
  unfold stereoBlock
  split
  · rfl
  · obtain ⟨out, h, hl⟩ := downmixFrame_some f
    simp only [h, Option.getD_some, ByteBuffer.fill]
    rw [List.take_append_of_le_length (by omega)]
    exact List.take_of_length_le (by omega)

theorem encodeFrame_result (codec : Codec) (c : Ctx) (f : Frame) (sess : Session)
    (hf : c.s.pcmBuffer = some f) (hl : c.s.lame = some sess) :
    (encodeFrame codec c).2 =
      codec.encode sess ((stereoBlock f).getD []) (numSamples f) (requiredBytes (numSamples f)) := by
  simp only [encodeFrame, hf, hl, Option.getD_some, realloc_length, encodeFrame_block]

theorem encodeFrame_lame (codec : Codec) (c : Ctx) (f : Frame) (sess : Session)
    (hf : c.s.pcmBuffer = some f) (hl : c.s.lame = some sess) :
    (encodeFrame codec c).1.s.lame = some (sess.feed f) := by
  simp only [encodeFrame, hf, hl, Option.getD_some, Option.map_some', encodeFrame_block,
    Session.feed]


theorem sinkWrite_s (c : Ctx) (bytes : List Byte) (count : Nat) :
    (sinkWrite c bytes count).s =
      { c.s with disk :=
          if c.s.outFile then FileSystem.append c.s.disk c.s.tempFilename bytes else c.s.disk } := by
  by_cases h : c.s.outFile = true
  · simp only [sinkWrite, if_pos h]
  · simp only [sinkWrite, if_neg h]

theorem sinkWrite_dst (c : Ctx) (bytes : List Byte) (count : Nat) :
    (sinkWrite c bytes count).dst = c.dst := by
  unfold sinkWrite; split <;> rfl

theorem sinkWrite_hasBuffer (c : Ctx) (bytes : List Byte) (count : Nat) :
    (sinkWrite c bytes count).hasBuffer = c.hasBuffer := by
  unfold sinkWrite; split <;> rfl

theorem fetch_nil (c : Ctx) (d : Decoder) (hd : c.s.decoder = some d) (hfr : d.frames = []) :
    c.fetch = { c with hasBuffer := false, trace := c.trace ++ [Ev.fetch false] } := by
  simp [Ctx.fetch, getBuffer, hd, hfr]

theorem fetch_cons (c : Ctx) (d : Decoder) (g : Frame) (rest : List Frame)
    (hd : c.s.decoder = some d) (hfr : d.frames = g :: rest) :
    c.fetch =
      { c with
        s := { c.s with pcmBuffer := some g, decoder := some { d with frames := rest } },
        hasBuffer := true, trace := c.trace ++ [Ev.fetch true] } := by
  simp [Ctx.fetch, getBuffer, hd, hfr]

/-- The loop body when the encoder output fits into what is left of the consumer's
buffer: everything is copied and the loop goes on to the refetch. -/
theorem encodeRound_fits (codec : Codec) (n : Nat) (c : Ctx) (f : Frame) (sess : Session)
    (out : List Byte) (hf : c.s.pcmBuffer = some f) (hl : c.s.lame = some sess)
    (henc : codec.encode sess ((stereoBlock f).getD []) (numSamples f)
      (requiredBytes (numSamples f)) = some out)
    (hfit : out.length ≤ n - c.bytesWritten) :
    ∃ c1, encodeRound codec n c = Step.more (refetch n c1) ∧
      c1.s.eof = c.s.eof ∧ c1.s.pcmBuffer = c.s.pcmBuffer ∧ c1.s.decoder = c.s.decoder ∧
      c1.s.lame = some (sess.feed f) ∧ c1.s.spillover = c.s.spillover ∧
      c1.dst = c.dst ++ out ∧ c1.bytesWritten = c.bytesWritten + out.length := by
  have hres := encodeFrame_result codec c f sess hf hl
  rw [henc] at hres
  have hlame := encodeFrame_lame codec c f sess hf hl
  unfold encodeRound
  rw [hres]
  simp only
  unfold deliverEncoded
  by_cases h0 : out.length = 0
  · have hnil : out = [] := List.eq_nil_of_length_eq_zero h0
    refine ⟨acceptEncoded (encodeFrame codec c).1 out, ?_, ?_, ?_, ?_, ?_, ?_, ?_, ?_⟩
    · simp [acceptEncoded, h0]
    · simp [acceptEncoded, encodeFrame]
    · simp [acceptEncoded, encodeFrame]
    · simp [acceptEncoded, encodeFrame]
    · simpa [acceptEncoded] using hlame
    · simp [acceptEncoded, encodeFrame]
    · simp [acceptEncoded, encodeFrame, hnil]
    · simp [acceptEncoded, encodeFrame, hnil]
  · have hmin : min out.length (n - c.bytesWritten) = out.length := Nat.min_eq_left hfit
    have hbw : (acceptEncoded (encodeFrame codec c).1 out).bytesWritten = c.bytesWritten := by
      simp [acceptEncoded, encodeFrame]
    have hlen : (acceptEncoded (encodeFrame codec c).1 out).s.encodedBytes.length = out.length := by
      simp [acceptEncoded]
    have hoff : (acceptEncoded (encodeFrame codec c).1 out).s.encodedBytes.offset = 0 := by
      simp [acceptEncoded, encodeFrame, ByteBuffer.fill, realloc_offset]
    have hav : (writeEncoded n (acceptEncoded (encodeFrame codec c).1 out)).s.encodedBytes.avail
        = 0 := by
      simp only [writeEncoded, sinkWrite_s, hlen, hbw, hmin, ByteBuffer.inc, hoff]
      simp [ByteBuffer.avail]
    refine ⟨writeEncoded n (acceptEncoded (encodeFrame codec c).1 out), ?_, ?_, ?_, ?_, ?_, ?_, ?_, ?_⟩
    · simp [hlen, h0, hav]
    · simp [writeEncoded, sinkWrite_s, acceptEncoded, encodeFrame]
    · simp [writeEncoded, sinkWrite_s, acceptEncoded, encodeFrame]
    · simp [writeEncoded, sinkWrite_s, acceptEncoded, encodeFrame]
    · simpa [writeEncoded, sinkWrite_s, acceptEncoded] using hlame
    · simp [writeEncoded, sinkWrite_s, acceptEncoded, encodeFrame]
    · simp only [writeEncoded, sinkWrite_dst, hlen, hbw, hmin]
      simp [acceptEncoded, encodeFrame, ByteBuffer.fill]
    · simp only [writeEncoded, sinkWrite_bytesWritten, hlen, hbw, hmin]


/-- The loop body when the encoder output exceeds what is left of the consumer's buffer:
the buffer is filled, the rest goes to the spillover, and `Read` returns. -/
theorem encodeRound_spills (codec : Codec) (n : Nat) (c : Ctx) (f : Frame) (sess : Session)
    (out : List Byte) (hf : c.s.pcmBuffer = some f) (hl : c.s.lame = some sess)
    (henc : codec.encode sess ((stereoBlock f).getD []) (numSamples f)
      (requiredBytes (numSamples f)) = some out)
    (hbig : n - c.bytesWritten < out.length) :
    ∃ r, encodeRound codec n c = Step.done r ∧
      r.ret = c.bytesWritten + (n - c.bytesWritten) ∧
      r.dst = c.dst ++ out.take (n - c.bytesWritten) ∧
      r.state.eof = c.s.eof ∧ r.state.pcmBuffer = c.s.pcmBuffer ∧
      r.state.decoder = c.s.decoder ∧ r.state.lame = some (sess.feed f) ∧
      spillBytes r.state = out.drop (n - c.bytesWritten) ∧
      r.state.spillover.avail = out.length - (n - c.bytesWritten) := by
  have hres := encodeFrame_result codec c f sess hf hl
  rw [henc] at hres
  have hlame := encodeFrame_lame codec c f sess hf hl
  unfold encodeRound
  rw [hres]
  simp only
  unfold deliverEncoded
  have h0 : out.length ≠ 0 := by omega
  have hmin : min out.length (n - c.bytesWritten) = n - c.bytesWritten :=
    Nat.min_eq_right (Nat.le_of_lt hbig)
  have hbw : (acceptEncoded (encodeFrame codec c).1 out).bytesWritten = c.bytesWritten := by
    simp [acceptEncoded, encodeFrame]
  have hlen : (acceptEncoded (encodeFrame codec c).1 out).s.encodedBytes.length = out.length := by
    simp [acceptEncoded]
  have hoff : (acceptEncoded (encodeFrame codec c).1 out).s.encodedBytes.offset = 0 := by
    simp [acceptEncoded, encodeFrame, ByteBuffer.fill, realloc_offset]
  have hdata : (acceptEncoded (encodeFrame codec c).1 out).s.encodedBytes.data =
      out ++ ((encodeFrame codec c).1.s.encodedBytes.data.drop out.length) := by
    simp [acceptEncoded, ByteBuffer.fill]
  have heb : (writeEncoded n (acceptEncoded (encodeFrame codec c).1 out)).s.encodedBytes =
      { (acceptEncoded (encodeFrame codec c).1 out).s.encodedBytes with
        offset := n - c.bytesWritten } := by
    simp only [writeEncoded, sinkWrite_s, hlen, hbw, hmin, ByteBuffer.inc, hoff]
    rw [if_neg (by omega)]
    simp
  have hav : (writeEncoded n (acceptEncoded (encodeFrame codec c).1 out)).s.encodedBytes.avail
      = out.length - (n - c.bytesWritten) := by
    rw [heb]
    simp only [ByteBuffer.avail, hlen]
  refine ⟨returnWritten (swapSpillover
    (writeEncoded n (acceptEncoded (encodeFrame codec c).1 out))), ?_, ?_, ?_, ?_, ?_, ?_, ?_, ?_, ?_⟩
  · rw [if_neg (by rw [hlen]; exact h0), if_neg (by rw [hav]; omega)]
  · simp only [returnWritten, swapSpillover, writeEncoded, sinkWrite_bytesWritten, hlen, hbw, hmin]
  · simp only [returnWritten, swapSpillover, writeEncoded, sinkWrite_dst, hlen, hbw, hmin, hdata]
    rw [List.take_append_of_le_length (Nat.le_of_lt hbig)]
    simp [acceptEncoded, encodeFrame]
  · simp [returnWritten, swapSpillover, writeEncoded, sinkWrite_s, acceptEncoded, encodeFrame]
  · simp [returnWritten, swapSpillover, writeEncoded, sinkWrite_s, acceptEncoded, encodeFrame]
  · simp [returnWritten, swapSpillover, writeEncoded, sinkWrite_s, acceptEncoded, encodeFrame]
  · simpa [returnWritten, swapSpillover, writeEncoded, sinkWrite_s, acceptEncoded] using hlame
  · simp only [spillBytes, returnWritten, swapSpillover, heb, ByteBuffer.pos, ByteBuffer.avail,
      hlen, hdata]
    exact drop_append_take out _ _ (Nat.le_of_lt hbig)
  · simp only [returnWritten, swapSpillover, hav]


/-! ### The loop, on a source the encoder accepts -/

theorem encodeAll_cons (codec : Codec) (sess : Session) (f : Frame) (rest : List Frame)
    (T : List Byte) (h : encodeAll codec sess (f :: rest) = some T) :
    ∃ out T2, codec.encode sess ((stereoBlock f).getD []) (numSamples f)
        (requiredBytes (numSamples f)) = some out ∧
      encodeAll codec (sess.feed f) rest = some T2 ∧ T = out ++ T2 := by
  unfold encodeAll at h
  split at h
  · cases h
  · next out hout =>
    cases h2 : encodeAll codec (sess.feed f) rest with
    | none => rw [h2] at h; cases h
    | some T2 =>
      rw [h2] at h
      simp only [Option.map_some', Option.some.injEq] at h
      exact ⟨out, T2, hout, rfl, h.symm⟩

theorem refetch_dst (n : Nat) (c : Ctx) : (refetch n c).dst = c.dst := by
  unfold refetch Ctx.fetch; split <;> rfl

theorem refetch_bytesWritten (n : Nat) (c : Ctx) :
    (refetch n c).bytesWritten = c.bytesWritten := by
  unfold refetch Ctx.fetch; split <;> rfl

theorem finalize_flush (codec : Codec) (c : Ctx) (h0 : c.bytesWritten = 0) :
    (finalize codec c).state.eof = true ∧ (finalize codec c).ret = 0 := by
  unfold finalize
  rw [if_pos h0]
  split
  · simp only [returnWritten, setEof, promote]
    split <;> simp [sinkWrite_bytesWritten, flushEncoder, h0]
  · simp [returnWritten, setEof, flushEncoder, h0]

theorem encodeLoop_noBuffer (codec : Codec) (n fuel : Nat) (c : Ctx)
    (h : c.hasBuffer = false) : encodeLoop codec n fuel c = finalize codec c := by
  cases fuel with
  | zero => rfl
  | succ fuel => simp [encodeLoop, h]

theorem finalize_settles (codec : Codec) (n : Nat) (hn : 0 < n) (c : Ctx) (sess : Session)
    (d : Decoder) (T : List Byte)
    (heof : c.s.eof = false) (hbuf : c.s.pcmBuffer.isSome = true)
    (hsp : c.s.spillover.avail = 0) (hdst : c.dst.length = c.bytesWritten)
    (hl : c.s.lame = some sess) (hd : c.s.decoder = some d)
    (hT : encodeAll codec sess d.frames = some T)
    (hex : c.bytesWritten < n → d.frames = []) :
    Settles codec c.dst T (finalize codec c) := by
  by_cases h0 : c.bytesWritten = 0
  · right
    have hfr := hex (by omega)
    rw [hfr] at hT
    simp only [encodeAll, Option.some.injEq] at hT
    refine ⟨(finalize_flush codec c h0).1, (finalize_flush codec c h0).2, ?_, hT.symm⟩
    exact List.eq_nil_of_length_eq_zero (by omega)
  · left
    have hfin : finalize codec c = returnWritten c := by
      unfold finalize; rw [if_neg h0]
    rw [hfin]
    refine ⟨by simpa [returnWritten] using heof, ?_, by simp [returnWritten, hl],
      by simp [returnWritten, hdst], T, ?_, rfl⟩
    · constructor
      · simpa [returnWritten] using heof
      · simpa [returnWritten] using hbuf
      · simp [returnWritten, hd]
      · simp [returnWritten, spillBytes, hsp]
      · intro _
        simpa [returnWritten] using hsp
    · have hsb : spillBytes (returnWritten c).state = [] := by
        simp [returnWritten, spillBytes, hsp]
      simp [pendingBytes, returnWritten, hd, hl, hT, spillBytes, hsp]

theorem encodeLoop_settles (codec : Codec) (n : Nat) (hn : 0 < n) :
    ∀ (fuel : Nat) (c : Ctx) (sess : Session) (d : Decoder) (T : List Byte),
    c.s.eof = false → c.s.pcmBuffer.isSome = true → c.s.spillover.avail = 0 →
    c.dst.length = c.bytesWritten → c.s.lame = some sess → c.s.decoder = some d →
    (c.hasBuffer = true →
      (∃ f, c.s.pcmBuffer = some f ∧ encodeAll codec sess (f :: d.frames) = some T) ∧
        d.frames.length < fuel ∧ c.bytesWritten < n) →
    (c.hasBuffer = false →
      encodeAll codec sess d.frames = some T ∧ (c.bytesWritten < n → d.frames = [])) →
    Settles codec c.dst T (encodeLoop codec n fuel c) := by
  intro fuel
  induction fuel with
  | zero =>
    intro c sess d T heof hbuf hsp hdst hl hd hyes hno
    cases hb : c.hasBuffer with
    | true => exact absurd (hyes hb).2.1 (Nat.not_lt_zero _)
    | false =>
      rw [encodeLoop_noBuffer codec n 0 c hb]
      exact finalize_settles codec n hn c sess d T heof hbuf hsp hdst hl hd (hno hb).1 (hno hb).2
  | succ fuel ih =>
    intro c sess d T heof hbuf hsp hdst hl hd hyes hno
    cases hb : c.hasBuffer with
    | false =>
      rw [encodeLoop_noBuffer codec n _ c hb]
      exact finalize_settles codec n hn c sess d T heof hbuf hsp hdst hl hd (hno hb).1 (hno hb).2
    | true =>
      obtain ⟨⟨f, hf, hT⟩, hfuel, hlt⟩ := hyes hb
      obtain ⟨out, T2, henc, hT2, hTeq⟩ := encodeAll_cons codec sess f d.frames T hT
      have hcond : (c.hasBuffer && decide (c.bytesWritten < n)) = true := by simp [hb, hlt]
      unfold encodeLoop
      rw [if_pos hcond]
      by_cases hfit : out.length ≤ n - c.bytesWritten
      · obtain ⟨c1, hround, e1, e2, e3, e4, e5, e6, e7⟩ :=
          encodeRound_fits codec n c f sess out hf hl henc hfit
        rw [hround]
        simp only
        have hgoal : Settles codec (refetch n c1).dst T2 (encodeLoop codec n fuel (refetch n c1)) := by
          by_cases hroom : n > c1.bytesWritten
          · have hre : refetch n c1 = c1.fetch := by unfold refetch; rw [if_pos hroom]
            rw [hre]
            cases hfr : d.frames with
            | nil =>
              rw [hfr] at hT2
              rw [fetch_nil c1 d (by rw [e3, hd]) hfr]
              apply ih _ (sess.feed f) d T2
              · simpa using e1.trans heof
              · simpa [e2] using hbuf
              · simpa [e5] using hsp
              · simp [e6, e7, hdst]
              · simpa using e4
              · simpa [e3] using hd
              · intro h; simp at h
              · intro _; rw [hfr]; exact ⟨hT2, fun _ => rfl⟩
            | cons g rest =>
              rw [hfr] at hT2 hfuel
              rw [fetch_cons c1 d g rest (by rw [e3, hd]) hfr]
              apply ih _ (sess.feed f) { d with frames := rest } T2
              · simpa using e1.trans heof
              · simp
              · simpa [e5] using hsp
              · simp [e6, e7, hdst]
              · simpa using e4
              · simp
              · intro _
                refine ⟨⟨g, by simp, hT2⟩, ?_, hroom⟩
                simp only [List.length_cons] at hfuel
                simp only
                omega
              · intro h; simp at h
          · have hre : refetch n c1 = { c1 with hasBuffer := false } := by
              unfold refetch; rw [if_neg hroom]
            rw [hre]
            apply ih _ (sess.feed f) d T2
            · simpa using e1.trans heof
            · simpa [e2] using hbuf
            · simpa [e5] using hsp
            · simp [e6, e7, hdst]
            · simpa using e4
            · simpa [e3] using hd
            · intro h; simp at h
            · intro _
              exact ⟨hT2, fun h => absurd h (by simpa using hroom)⟩
        rw [refetch_dst, e6] at hgoal
        rcases hgoal with ⟨g1, g2, g0, g3, rest, g4, g5⟩ | ⟨g1, g2, g3, g4⟩
        · left
          refine ⟨g1, g2, g0, g3, rest, g4, ?_⟩
          rw [hTeq, ← List.append_assoc]
          exact g5
        · right
          have hc : c.dst = [] := (List.append_eq_nil.mp g3).1
          have ho : out = [] := (List.append_eq_nil.mp g3).2
          exact ⟨g1, g2, hc, by rw [hTeq, ho, g4]; rfl⟩
      · obtain ⟨r, hround, r1, r2, r3, r4, r5, r6, r7, r8⟩ :=
          encodeRound_spills codec n c f sess out hf hl henc (by omega)
        rw [hround]
        simp only
        left
        refine ⟨r3.trans heof, ?_, by rw [r6]; rfl, ?_, out.drop (n - c.bytesWritten) ++ T2, ?_, ?_⟩
        · constructor
          · exact r3.trans heof
          · rw [r4]; exact hbuf
          · rw [r5, hd]; rfl
          · rw [r7, r8, List.length_drop]
          · intro h; rw [r6] at h; cases h
        · rw [r1, r2, List.length_append, List.length_take, hdst]
          omega
        · simp [pendingBytes, r5, hd, r6, hT2, r7]
        · rw [r2, hTeq]
          simp only [List.append_assoc]
          rw [← List.append_assoc (out.take _), List.take_append_drop]


/-! ### The spillover block -/

theorem drainSpillover_empty (n : Nat) (c : Ctx) (h : c.s.spillover.avail = 0) :
    drainSpillover n c = c := by
  simp [drainSpillover, ByteBuffer.empty, h]

theorem drainSpillover_frame (n : Nat) (c : Ctx) :
    (drainSpillover n c).s.eof = c.s.eof ∧
    (drainSpillover n c).s.pcmBuffer = c.s.pcmBuffer ∧
    (drainSpillover n c).s.decoder = c.s.decoder ∧
    (drainSpillover n c).s.lame = c.s.lame ∧
    (drainSpillover n c).hasBuffer = c.hasBuffer := by
  unfold drainSpillover
  split
  · simp [sinkWrite_s, sinkWrite_hasBuffer]
  · simp

theorem inc_spec (b : ByteBuffer Byte) (k : Nat) (hk : k ≤ b.avail)
    (hfit : b.avail ≤ b.pos.length) :
    b.pos.take b.avail = b.pos.take k ++ (b.inc k).pos.take (b.inc k).avail ∧
    (b.inc k).avail = b.avail - k ∧
    ((b.inc k).pos.take (b.inc k).avail).length = (b.inc k).avail := by
  obtain ⟨data, offset, length, raw⟩ := b
  simp only [ByteBuffer.avail, ByteBuffer.pos, List.length_drop] at hk hfit
  simp only [ByteBuffer.avail, ByteBuffer.pos, ByteBuffer.inc]
  by_cases hall : offset + k ≥ length
  · rw [if_pos hall]
    have hkk : k = length - offset := by omega
    simp [hkk]
  · rw [if_neg hall]
    have e : List.drop (offset + k) data = List.drop k (List.drop offset data) := by
      rw [List.drop_drop]
    simp only [List.length_take, List.length_drop]
    refine ⟨?_, by omega, by omega⟩
    rw [e, take_append_drop_take]
    congr 1
    omega

/-- The spillover block hands over the first bytes of the spillover and keeps the rest. -/
theorem drainSpillover_spec (n : Nat) (c : Ctx)
    (hsp : (spillBytes c.s).length = c.s.spillover.avail)
    (hdst : c.dst = []) (hbw : c.bytesWritten = 0) :
    (drainSpillover n c).dst.length = (drainSpillover n c).bytesWritten ∧
    (drainSpillover n c).bytesWritten = min c.s.spillover.avail n ∧
    (drainSpillover n c).dst = (spillBytes c.s).take n ∧
    spillBytes c.s = (drainSpillover n c).dst ++ spillBytes (drainSpillover n c).s ∧
    (spillBytes (drainSpillover n c).s).length = (drainSpillover n c).s.spillover.avail ∧
    (drainSpillover n c).s.spillover.avail = c.s.spillover.avail - n := by
  by_cases h0 : c.s.spillover.avail = 0
  · rw [drainSpillover_empty n c h0]
    have hnil : spillBytes c.s = [] := List.eq_nil_of_length_eq_zero (by rw [hsp, h0])
    simp [hdst, hbw, h0, hnil]
  · have hpos : c.s.spillover.avail ≤ c.s.spillover.pos.length := by
      have h := hsp
      simp only [spillBytes, List.length_take] at h
      omega
    have hne : (!c.s.spillover.empty) = true := by simp [ByteBuffer.empty, h0]
    obtain ⟨i1, i2, i3⟩ := inc_spec c.s.spillover (min c.s.spillover.avail n)
      (Nat.min_le_left _ _) hpos
    unfold drainSpillover
    rw [if_pos hne]
    simp only [sinkWrite_s, sinkWrite_dst, sinkWrite_bytesWritten, hdst, hbw, List.nil_append,
      Nat.zero_add, spillBytes]
    refine ⟨?_, trivial, ?_, i1, i3, ?_⟩
    · simp only [List.length_take]; omega
    · rw [List.take_take]
      congr 1
      omega
    · rw [i2]; omega


/-! ### One `Read` call on a stream in the middle of a clean run -/

theorem Settles.shift (codec : Codec) (D T : List Byte) (r : ReadResult)
    (h : Settles codec D T r) : Settles codec [] (D ++ T) r := by
  rcases h with ⟨g1, g2, g0, g3, rest, g4, g5⟩ | ⟨g1, g2, g3, g4⟩
  · exact Or.inl ⟨g1, g2, g0, g3, rest, g4, by simpa using g5⟩
  · exact Or.inr ⟨g1, g2, rfl, by simp [g3, g4]⟩

theorem Read_settles (codec : Codec) (s : TranscodingDataStream) (n : Nat) (T : List Byte)
    (hn : 0 < n ∨ s.lame.isSome = true) (hs : Streaming s)
    (hT : pendingBytes codec s = some T) :
    Settles codec [] T (Read codec s n) := by
  obtain ⟨d, hd⟩ := Option.isSome_iff_exists.mp hs.dec
  have hguard : ¬ ((s.eof || s.pcmBuffer.isNone) = true) := by
    have h1 := hs.eof
    have h2 := hs.buf
    rw [Option.isSome_iff_exists] at h2
    obtain ⟨b, hb⟩ := h2
    simp [h1, hb]
  unfold Read
  rw [if_neg hguard]
  dsimp only
  cases hl : s.lame with
  | none =>
    have hn : 0 < n := by
      rcases hn with h | h
      · exact h
      · rw [hl] at h; cases h
    have hsp0 := hs.fresh hl
    cases hfr : d.frames with
    | nil =>
      have hT0 : T = [] := by
        simp [pendingBytes, hd, hl, hfr, encodedStream] at hT
        exact hT
      have hinit : initEncoder { s := s, bytesWritten := 0, hasBuffer := false, dst := [], trace := [] }
          = { s := s, bytesWritten := 0, hasBuffer := false, dst := [],
              trace := [Ev.fetch false] } := by
        simp [initEncoder, Ctx.fetch, getBuffer, hd, hl, hfr]
      rw [hinit, drainSpillover_empty n _ hsp0]
      rw [if_neg (by simp only; omega)]
      simp only [Bool.not_false, if_true]
      rw [fetch_nil _ d hd hfr, encodeLoop_noBuffer codec n _ _ rfl]
      right
      exact ⟨(finalize_flush codec _ rfl).1, (finalize_flush codec _ rfl).2, rfl, hT0⟩
    | cons f rest =>
      have hTe : encodeAll codec (lameInit f.sampleRate s.bitrate) (f :: rest) = some T := by
        simpa [pendingBytes, hd, hl, hfr, encodedStream] using hT
      have hinit : initEncoder { s := s, bytesWritten := 0, hasBuffer := false, dst := [], trace := [] }
          = { s := { s with pcmBuffer := some f, decoder := some { d with frames := rest },
                            lame := some (lameInit f.sampleRate s.bitrate) },
              bytesWritten := 0, hasBuffer := true, dst := [],
              trace := [Ev.fetch true, Ev.lameInit] } := by
        simp [initEncoder, Ctx.fetch, getBuffer, hd, hl, hfr]
      rw [hinit, drainSpillover_empty n _ (by simpa using hsp0)]
      rw [if_neg (by simp only; omega)]
      simp only [Bool.not_true, Bool.false_eq_true, if_false]
      apply encodeLoop_settles codec n hn _ _ (lameInit f.sampleRate s.bitrate)
        { d with frames := rest } T
      · simpa using hs.eof
      · simp
      · simpa using hsp0
      · simp
      · simp
      · simp
      · intro _
        exact ⟨⟨f, by simp, hTe⟩, by simp [framesLeft], hn⟩
      · intro h; simp at h
  | some sess =>
    have hinit : initEncoder { s := s, bytesWritten := 0, hasBuffer := false, dst := [], trace := [] }
        = { s := s, bytesWritten := 0, hasBuffer := false, dst := [], trace := [] } := by
      simp [initEncoder, hl]
    rw [hinit]
    obtain ⟨Tenc, hTenc, hTeq⟩ : ∃ Tenc, encodeAll codec sess d.frames = some Tenc ∧
        T = spillBytes s ++ Tenc := by
      simp only [pendingBytes, hd, hl] at hT
      cases h : encodeAll codec sess d.frames with
      | none => rw [h] at hT; cases hT
      | some Tenc =>
        rw [h] at hT
        simp only [Option.map_some', Option.some.injEq] at hT
        exact ⟨Tenc, rfl, hT.symm⟩
    obtain ⟨q1, q2, q3, q4, q5, q6⟩ := drainSpillover_spec n
      { s := s, bytesWritten := 0, hasBuffer := false, dst := [], trace := [] } hs.spill rfl rfl
    obtain ⟨p1, p2, p3, p4, p5⟩ := drainSpillover_frame n
      { s := s, bytesWritten := 0, hasBuffer := false, dst := [], trace := [] }
    simp only at q2 q3 q4 q6 p1 p2 p3 p4 p5
    by_cases hfull : (drainSpillover n
        { s := s, bytesWritten := 0, hasBuffer := false, dst := [], trace := [] }).bytesWritten = n
    · rw [if_pos hfull]
      left
      refine ⟨by simpa [returnWritten, p1] using hs.eof, ?_, by simp [returnWritten, p4, hl],
        by simp [returnWritten, q1],
        spillBytes (drainSpillover n
          { s := s, bytesWritten := 0, hasBuffer := false, dst := [], trace := [] }).s ++ Tenc,
        ?_, ?_⟩
      · constructor
        · simpa [returnWritten, p1] using hs.eof
        · simpa [returnWritten, p2] using hs.buf
        · simpa [returnWritten, p3] using hs.dec
        · simpa [returnWritten, spillBytes] using q5
        · intro h
          simp [returnWritten, p4, hl] at h
      · simp only [pendingBytes, returnWritten, p3, hd, p4, hl, hTenc, Option.map_some']
        rfl
      · rw [hTeq, q4]
        simp [returnWritten]
    · rw [if_neg hfull]
      have hn : 0 < n := by
        rw [q2] at hfull
        omega
      have hav0 : (drainSpillover n
          { s := s, bytesWritten := 0, hasBuffer := false, dst := [], trace := [] }).s.spillover.avail
            = 0 := by
        rw [q6]; rw [q2] at hfull; omega
      have hnil : spillBytes (drainSpillover n
          { s := s, bytesWritten := 0, hasBuffer := false, dst := [], trace := [] }).s = [] :=
        List.eq_nil_of_length_eq_zero (by rw [q5, hav0])
      rw [hnil, List.append_nil] at q4
      rw [p5]
      simp only [Bool.not_false, if_true]
      rw [hTeq, q4]
      apply Settles.shift
      have hbwlt : (drainSpillover n
          { s := s, bytesWritten := 0, hasBuffer := false, dst := [], trace := [] }).bytesWritten
            < n := by
        rw [q2] at hfull ⊢; omega
      cases hfr : d.frames with
      | nil =>
        rw [fetch_nil _ d (by rw [p3, hd]) hfr]
        rw [hfr] at hTenc
        apply encodeLoop_settles codec n hn _ _ sess d Tenc
        · simpa [p1] using hs.eof
        · simpa [p2] using hs.buf
        · simpa using hav0
        · simpa using q1
        · simpa [p4] using hl
        · simpa [p3] using hd
        · intro h; simp at h
        · intro _; rw [hfr]; exact ⟨hTenc, fun _ => rfl⟩
      | cons g rest =>
        rw [fetch_cons _ d g rest (by rw [p3, hd]) hfr]
        rw [hfr] at hTenc
        apply encodeLoop_settles codec n hn _ _ sess { d with frames := rest } Tenc
        · simpa [p1] using hs.eof
        · simp
        · simpa using hav0
        · simpa using q1
        · simpa [p4] using hl
        · simp
        · intro _
          exact ⟨⟨g, by simp, hTenc⟩, by simp [framesLeft], by simpa using hbwlt⟩
        · intro h; simp at h

/-! ### Whole runs -/

theorem Read_at_eof (codec : Codec) (s : TranscodingDataStream) (n : Nat) (h : s.eof = true) :
    Read codec s n = { state := s, ret := 0, dst := [], trace := [] } := by
  simp [Read, h]

theorem afterReads_at_eof (codec : Codec) (caps : List Nat) (s : TranscodingDataStream)
    (h : s.eof = true) : afterReads codec s caps = s := by
  induction caps with
  | nil => rfl
  | cons n ns ih => simp only [afterReads, Read_at_eof codec s n h, ih]

theorem returnedBytes_at_eof (codec : Codec) (caps : List Nat) (s : TranscodingDataStream)
    (h : s.eof = true) : returnedBytes codec s caps = [] := by
  induction caps with
  | nil => rfl
  | cons n ns ih =>
    simp only [returnedBytes, Read_at_eof codec s n h, ih, ReadResult.returned, List.take_zero,
      List.append_nil]

theorem returnedBytes_step (codec : Codec) (s : TranscodingDataStream) (n : Nat)
    (ns : List Nat) (T : List Byte)
    (hset : Settles codec [] T (Read codec s n))
    (hrec : ∀ U, Streaming (Read codec s n).state → (Read codec s n).state.lame.isSome = true →
      pendingBytes codec (Read codec s n).state = some U →
      returnedBytes codec (Read codec s n).state ns = U) :
    returnedBytes codec s (n :: ns) = T := by
  simp only [returnedBytes, ReadResult.returned]
  rcases hset with ⟨_, g2, g0, g3, rest, g4, g5⟩ | ⟨g1, g2, _, g4⟩
  · rw [hrec rest g2 g0 g4, g3, List.take_length]
    simpa using g5.symm
  · rw [returnedBytes_at_eof codec ns _ g1, g2, g4]
    rfl

/-- Once the encoder session exists, a clean run to the end returns exactly the bytes
the stream owed, whatever the capacities. -/
theorem returnedBytes_streaming (codec : Codec) : ∀ (caps : List Nat)
    (s : TranscodingDataStream) (T : List Byte), Streaming s → s.lame.isSome = true →
    pendingBytes codec s = some T → (afterReads codec s caps).eof = true →
    returnedBytes codec s caps = T := by
  intro caps
  induction caps with
  | nil =>
    intro s T hs _ _ heof
    rw [afterReads, hs.eof] at heof
    cases heof
  | cons n ns ih =>
    intro s T hs hl hT heof
    apply returnedBytes_step codec s n ns T (Read_settles codec s n T (Or.inr hl) hs hT)
    intro U hs2 hl2 hU
    exact ih _ U hs2 hl2 hU heof

/-- A clean run from any stream in mid-run to the end, started with a positive capacity,
returns exactly the bytes the stream owed. -/
theorem returnedBytes_clean (codec : Codec) (s : TranscodingDataStream) (n : Nat)
    (ns : List Nat) (T : List Byte) (hn : 0 < n) (hs : Streaming s)
    (hT : pendingBytes codec s = some T) (heof : (afterReads codec s (n :: ns)).eof = true) :
    returnedBytes codec s (n :: ns) = T := by
  apply returnedBytes_step codec s n ns T (Read_settles codec s n T (Or.inl hn) hs hT)
  intro U hs2 hl2 hU
  exact returnedBytes_streaming codec ns _ U hs2 hl2 hU heof


/-! ### C1: byte fidelity -/

theorem constructWithSink_nosink (env : Environment) (bitrate : Nat) (disk : FileSystem)
    (fopenOk renameOk : Bool) :
    constructWithSink env "" "" bitrate disk fopenOk renameOk =
      construct env bitrate disk renameOk := by
  unfold constructWithSink construct
  cases env.dataStream with
  | none => simp
  | some i =>
    cases env.decoder with
    | none => simp
    | some d => simp

theorem constructWithSink_streaming (env : Environment) (uri : String) (d : Decoder)
    (t f : String) (bitrate : Nat) (disk : FileSystem) (fopenOk renameOk : Bool)
    (hin : env.dataStream = some uri) (hdec : env.decoder = some d) :
    Streaming (constructWithSink env t f bitrate disk fopenOk renameOk) ∧
    ∀ codec, pendingBytes codec (constructWithSink env t f bitrate disk fopenOk renameOk) =
      encodedStream codec bitrate d.frames := by
  unfold constructWithSink construct
  simp only [hin, hdec]
  constructor
  · constructor <;> split <;> (try split) <;>
      simp [spillBytes, ByteBuffer.init, ByteBuffer.avail, ByteBuffer.pos]
  · intro codec
    split <;> (try split) <;> simp [pendingBytes]

/-- C1, as amended (read-size independence on clean runs): for every PCM source and
every codec that reports no error on the frames of that source, and for any two capacity
sequences, each starting with a positive capacity, that each drive the stream from
construction until `eof` is reported, the bytes returned by `Read`, concatenated, are the
same byte string for both sequences. (With empty paths `constructWithSink` is the
constructor without a sink.) -/
theorem byte_fidelity (codec : Codec) (env : Environment) (uri : String) (d : Decoder)
    (t f : String) (bitrate : Nat) (disk : FileSystem) (fopenOk renameOk : Bool)
    (n1 n2 : Nat) (caps1 caps2 : List Nat)
    (hin : env.dataStream = some uri) (hdec : env.decoder = some d)
    (hclean : (encodedStream codec bitrate d.frames).isSome = true)
    (h1 : 0 < n1) (h2 : 0 < n2)
    (e1 : (afterReads codec (constructWithSink env t f bitrate disk fopenOk renameOk)
      (n1 :: caps1)).eof = true)
    (e2 : (afterReads codec (constructWithSink env t f bitrate disk fopenOk renameOk)
      (n2 :: caps2)).eof = true) :
    returnedBytes codec (constructWithSink env t f bitrate disk fopenOk renameOk) (n1 :: caps1) =
      returnedBytes codec (constructWithSink env t f bitrate disk fopenOk renameOk)
        (n2 :: caps2) := by
  obtain ⟨total, htotal⟩ := Option.isSome_iff_exists.mp hclean
  obtain ⟨hs, hp⟩ := constructWithSink_streaming env uri d t f bitrate disk fopenOk renameOk
    hin hdec
  have hT := (hp codec).trans htotal
  have r1 := returnedBytes_clean codec _ n1 caps1 total h1 hs hT e1
  have r2 := returnedBytes_clean codec _ n2 caps2 total h2 hs hT e2
  exact r1.trans r2.symm

/-- Witness for C1: two frames read as `1, 8, 8` and as `8, 8`. -/
theorem byte_fidelity_witness :
    (encodedStream codecThreeTwo 128 [frameA, frameA]).isSome = true ∧
    returnedBytes codecThreeTwo (constructWithSink envTwoFrames "temp" "final" 128 [] true true)
        [1, 8, 8] =
      returnedBytes codecThreeTwo (constructWithSink envTwoFrames "temp" "final" 128 [] true true)
        [8, 8] :=
  ⟨by decide,
    byte_fidelity codecThreeTwo envTwoFrames "track" ⟨1, [frameA, frameA]⟩ "temp" "final" 128 []
      true true 1 8 [8, 8] [8] rfl rfl (by decide) (by decide) (by decide)
      (by decide) (by decide)⟩

/-- Counterexample to C1 as stated. First, a codec that fails on the second frame: read
with capacity 8 the run ends having returned nothing, read with capacities 2 and 8 it
ends having returned two bytes. Second, a zero capacity on the fresh stream: the frame
fetched by the init block is never encoded, and the bytes of the first frame are missing
from what is returned. -/
theorem byte_fidelity_counterexample :
    ((afterReads codecFailsOnSecond
        (constructWithSink envTwoFrames "temp" "final" 128 [] true true) [8]).eof = true ∧
      (afterReads codecFailsOnSecond
        (constructWithSink envTwoFrames "temp" "final" 128 [] true true) [2, 8]).eof = true ∧
      returnedBytes codecFailsOnSecond
        (constructWithSink envTwoFrames "temp" "final" 128 [] true true) [8] = [] ∧
      returnedBytes codecFailsOnSecond
        (constructWithSink envTwoFrames "temp" "final" 128 [] true true) [2, 8] = [1, 2]) ∧
    ((afterReads codecEcho
        (constructWithSink envDistinct "temp" "final" 128 [] true true) [8, 8]).eof = true ∧
      (afterReads codecEcho
        (constructWithSink envDistinct "temp" "final" 128 [] true true) [0, 8, 8]).eof = true ∧
      returnedBytes codecEcho
        (constructWithSink envDistinct "temp" "final" 128 [] true true) [8, 8] =
          [1, 2, 3, 4, 5, 6, 7, 8] ∧
      returnedBytes codecEcho
        (constructWithSink envDistinct "temp" "final" 128 [] true true) [0, 8, 8] =
          [5, 6, 7, 8]) := by
  decide


/-! ### The settings of a stream never change -/

theorem encodeFrame_settings (codec : Codec) (c : Ctx) :
    settings (encodeFrame codec c).1.s = settings c.s := rfl

theorem roundHalfEven_sub_le (x : ℚ) : |((roundHalfEven x : Int) : ℚ) - x| ≤ 1 / 2 := by
  have h1 : ((⌊x⌋ : Int) : ℚ) ≤ x := Int.floor_le x
  have h2 : x < ((⌊x⌋ : Int) : ℚ) + 1 := Int.lt_floor_add_one x
  have hf : Rat.floor x = ⌊x⌋ := rfl
  unfold roundHalfEven
  rw [hf]
  split
  · rw [abs_le]; constructor <;> linarith
  · split
    · rw [abs_le]; push_cast; constructor <;> linarith
    · have h3 : x - ((⌊x⌋ : Int) : ℚ) = 1 / 2 := by
        apply le_antisymm <;> linarith
      split
      · rw [abs_le]; constructor <;> linarith
      · rw [abs_le]; push_cast; constructor <;> linarith

theorem roundHalfEven_near (x : ℚ) (k : Int) (h : |x - (k : ℚ)| < 1 / 2) :
    roundHalfEven x = k := by
  have h0 := roundHalfEven_sub_le x
  rw [abs_lt] at h
  rw [abs_le] at h0
  have h1 : ((roundHalfEven x : Int) : ℚ) - (k : ℚ) < 1 := by linarith [h.1, h.2, h0.1, h0.2]
  have h2 : (k : ℚ) - ((roundHalfEven x : Int) : ℚ) < 1 := by linarith [h.1, h.2, h0.1, h0.2]
  have h3 : roundHalfEven x - k < 1 := by exact_mod_cast h1
  have h4 : k - roundHalfEven x < 1 := by exact_mod_cast h2
  omega

theorem roundHalfEven_intCast (z : Int) : roundHalfEven (z : ℚ) = z :=
  roundHalfEven_near _ z (by simp)

theorem two_zpow_pos (e : Int) : (0 : ℚ) < (2 : ℚ) ^ e := zpow_pos (by norm_num) e

theorem log_bounds (x : ℚ) (hx : x ≠ 0) :
    (2 : ℚ) ^ Int.log 2 |x| ≤ |x| ∧ |x| < (2 : ℚ) ^ (Int.log 2 |x| + 1) := by
  have hpos : 0 < |x| := abs_pos.mpr hx
  have h1 := Int.zpow_log_le_self (b := 2) (by norm_num) hpos
  have h2 := Int.lt_zpow_succ_log_self (b := 2) (by norm_num) |x|
  simp only [Nat.cast_ofNat] at h1 h2
  exact ⟨h1, h2⟩

/-- A value with a significand of fewer than `p` bits is not changed by the rounding. -/
theorem roundTo_exact (p : Nat) (m j : Int) (hm : |m| < 2 ^ p) :
    roundTo p ((m : ℚ) * (2 : ℚ) ^ j) = (m : ℚ) * (2 : ℚ) ^ j := by
  by_cases h0 : m = 0
  · simp [h0, roundTo]
  have hx : (m : ℚ) * (2 : ℚ) ^ j ≠ 0 :=
    mul_ne_zero (by exact_mod_cast h0) (two_zpow_pos j).ne'
  obtain ⟨hlo, _⟩ := log_bounds _ hx
  unfold roundTo
  rw [if_neg hx]
  generalize Int.log 2 |(m : ℚ) * (2 : ℚ) ^ j| = l at hlo
  -- the unit in the last place is at most `2 ^ j`
  have hmq : |(m : ℚ)| < (2 : ℚ) ^ (p : Int) := by
    have : ((|m| : Int) : ℚ) < ((2 ^ p : Int) : ℚ) := by exact_mod_cast hm
    rw [zpow_natCast]
    simpa using this
  have hlt : (2 : ℚ) ^ l < (2 : ℚ) ^ ((p : Int) + j) := by
    rw [zpow_add₀ (by norm_num : (2 : ℚ) ≠ 0)]
    calc (2 : ℚ) ^ l ≤ |(m : ℚ) * (2 : ℚ) ^ j| := hlo
      _ = |(m : ℚ)| * (2 : ℚ) ^ j := by rw [abs_mul, abs_of_pos (two_zpow_pos j)]
      _ < (2 : ℚ) ^ (p : Int) * (2 : ℚ) ^ j :=
        mul_lt_mul_of_pos_right hmq (two_zpow_pos j)
  have hl : l < (p : Int) + j := (zpow_lt_zpow_iff_right₀ (by norm_num : (1 : ℚ) < 2)).mp hlt
  obtain ⟨d, hd⟩ : ∃ d : Nat, j - (l - ((p : Int) - 1)) = (d : Int) :=
    ⟨(j - (l - ((p : Int) - 1))).toNat, (Int.toNat_of_nonneg (by omega)).symm⟩
  have hj : j = (l - ((p : Int) - 1)) + (d : Int) := by omega
  have hpow : (2 : ℚ) ^ j = (2 : ℚ) ^ (l - ((p : Int) - 1)) * (2 : ℚ) ^ d := by
    rw [hj, zpow_add₀ (by norm_num : (2 : ℚ) ≠ 0), zpow_natCast]
  have hu : (2 : ℚ) ^ (l - ((p : Int) - 1)) ≠ 0 := (two_zpow_pos _).ne'
  have hq : (m : ℚ) * (2 : ℚ) ^ j / (2 : ℚ) ^ (l - ((p : Int) - 1)) =
      ((m * 2 ^ d : Int) : ℚ) := by
    rw [hpow]
    push_cast
    field_simp
    ring
  rw [hq, roundHalfEven_intCast, hpow]
  push_cast
  ring

theorem toFloat_exact (B : Nat) (h : B ≤ 2 ^ 24) : toFloat B = (B : ℚ) := by
  rcases Nat.lt_or_ge B (2 ^ 24) with hlt | hge
  · have := roundTo_exact 24 (B : Int) 0 (by rw [abs_of_nonneg (by positivity)]; exact_mod_cast hlt)
    simpa [toFloat] using this
  · have hB : B = 2 ^ 24 := le_antisymm h hge
    have := roundTo_exact 24 1 24 (by norm_num)
    rw [hB, toFloat]
    norm_num at this ⊢
    exact this

/-- Both branches of `requiredBytes` are the same computation: below `2 ^ 24` the
conversion to `float`, the product and the sum are exact. -/
theorem requiredBytes_eq (k : Nat) :
    requiredBytes k =
      (toPositionType (toDouble (toDouble (5 / 4 * toFloat k) + 7200))).toNat := by
  unfold requiredBytes
  split
  · next hk =>
    have hk' : (k : Int) < 2 ^ 24 := by exact_mod_cast hk
    have hk0 : (0 : Int) ≤ (k : Int) := Int.natCast_nonneg k
    have h1 : toDouble (5 / 4 * (k : ℚ)) = 5 / 4 * (k : ℚ) := by
      have := roundTo_exact 53 (5 * (k : Int)) (-2)
        (by rw [abs_of_nonneg (by positivity)]; norm_num; omega)
      have e : ((5 * (k : Int) : Int) : ℚ) * (2 : ℚ) ^ (-2 : Int) = 5 / 4 * (k : ℚ) := by
        push_cast
        norm_num
        ring
      rw [e] at this
      exact this
    have h2 : toDouble (5 / 4 * (k : ℚ) + 7200) = ((5 * k + 28800 : Nat) : ℚ) / ((4 : Nat) : ℚ) := by
      have := roundTo_exact 53 (5 * (k : Int) + 28800) (-2)
        (by rw [abs_of_nonneg (by positivity)]; norm_num; omega)
      have e : ((5 * (k : Int) + 28800 : Int) : ℚ) * (2 : ℚ) ^ (-2 : Int) =
          5 / 4 * (k : ℚ) + 7200 := by
        push_cast
        norm_num
        ring
      rw [e] at this
      rw [toDouble, this]
      push_cast
      ring
    rw [toFloat_exact k hk.le, h1, h2]
    unfold toPositionType
    rw [if_pos (by positivity)]
    have hfl : Rat.floor (((5 * k + 28800 : Nat) : ℚ) / ((4 : Nat) : ℚ)) =
        (((5 * k + 28800) / 4 : Nat) : Int) := Rat.floor_natCast_div_natCast _ _
    rw [hfl, Int.toNat_ofNat]
    omega
  · rfl

theorem constructWithSink_unavailable (env : Environment) (t f : String) (bitrate : Nat)
    (disk : FileSystem) (fopenOk renameOk : Bool)
    (h : env.dataStream = none ∨ env.decoder = none) :
    (constructWithSink env t f bitrate disk fopenOk renameOk).pcmBuffer = none ∧
    (constructWithSink env t f bitrate disk fopenOk renameOk).length = 0 ∧
    (constructWithSink env t f bitrate disk fopenOk renameOk).detachTolerance = 0 ∧
    (constructWithSink env t f bitrate disk fopenOk renameOk).position = 0 := by
  unfold constructWithSink construct
  rcases h with h | h
  · simp only [h]
    split <;> (try split) <;> simp
  · simp only [h]
    cases env.dataStream with
    | none => split <;> (try split) <;> simp
    | some i => split <;> (try split) <;> simp

theorem Read_without_buffer (codec : Codec) (s : TranscodingDataStream) (n : Nat)
    (h : s.pcmBuffer = none) :
    Read codec s n = { state := s, ret := 0, dst := [], trace := [] } := by
  simp [Read, h]

theorem afterReads_without_buffer (codec : Codec) (caps : List Nat)
    (s : TranscodingDataStream) (h : s.pcmBuffer = none) : afterReads codec s caps = s := by
  induction caps with
  | nil => rfl
  | cons n ns ih => simp only [afterReads, Read_without_buffer codec s n h, ih]

/-- C9 (source unavailable): if the raw input stream or the decoder could not be obtained
at construction, then `Length()` is 0, the detach tolerance is 0, and every `Read` call,
after any earlier calls and for any capacity, returns 0, copies nothing, performs no
fetch, encode or sink write (its trace is empty) and leaves the whole stream state,
position 0 included, as it was. (With empty paths `constructWithSink` is the constructor
without a sink.) -/
theorem source_unavailable (codec : Codec) (env : Environment) (t f : String) (bitrate : Nat)
    (disk : FileSystem) (fopenOk renameOk : Bool) (caps : List Nat) (n : Nat)
    (h : env.dataStream = none ∨ env.decoder = none) :
    Length (constructWithSink env t f bitrate disk fopenOk renameOk) = 0 ∧
    (constructWithSink env t f bitrate disk fopenOk renameOk).detachTolerance = 0 ∧
    afterReads codec (constructWithSink env t f bitrate disk fopenOk renameOk) caps =
      constructWithSink env t f bitrate disk fopenOk renameOk ∧
    Read codec (afterReads codec (constructWithSink env t f bitrate disk fopenOk renameOk) caps) n =
      { state := constructWithSink env t f bitrate disk fopenOk renameOk,
        ret := 0, dst := [], trace := [] } ∧
    Position (constructWithSink env t f bitrate disk fopenOk renameOk) = 0 := by
  obtain ⟨h1, h2, h3, h4⟩ := constructWithSink_unavailable env t f bitrate disk fopenOk renameOk h
  have h5 := afterReads_without_buffer codec caps _ h1
  refine ⟨h2, h3, h5, ?_, h4⟩
  rw [h5]
  exact Read_without_buffer codec _ n h1

/-- Witness for C9: an environment that has the raw input but no decoder for it. -/
theorem source_unavailable_witness :
    Length (constructWithSink ⟨some "track", none, default⟩ "temp" "final" 128 [] true true) = 0 ∧
    (Read codecEcho
      (afterReads codecEcho
        (constructWithSink ⟨some "track", none, default⟩ "temp" "final" 128 [] true true)
        [8, 0, 8]) 8192).ret = 0 :=
  ⟨(source_unavailable codecEcho ⟨some "track", none, default⟩ "temp" "final" 128 [] true true
      [8, 0, 8] 8192 (Or.inr rfl)).1,
    congrArg ReadResult.ret
      (source_unavailable codecEcho ⟨some "track", none, default⟩ "temp" "final" 128 [] true true
        [8, 0, 8] 8192 (Or.inr rfl)).2.2.2.1⟩

/-! ### C2, C6, C8: the flush output and the error exit -/

/-- C2 (sink mirror), evaluated on a clean run with a sink: one frame encoded to
`[1, 2, 3]`, a flush producing `[8, 9]`, read with capacity 8 until `eof`. The consumer is
returned `[1, 2, 3]`; the temp file holds `[1, 2, 3]` before the last call, receives the
two flush bytes in it, and is promoted with `[1, 2, 3, 8, 9]`: the flush bytes are written
to the sink and copied to the buffer, but the call returns 0. -/
theorem sink_mirror_flush_uncounted :
    (afterReads codecThreeTwo
      (constructWithSink envOneFrame "temp" "final" 128 [] true true) [8, 8]).eof = true ∧
    returnedCounts codecThreeTwo
      (constructWithSink envOneFrame "temp" "final" 128 [] true true) [8, 8] = [3, 0] ∧
    returnedBytes codecThreeTwo
      (constructWithSink envOneFrame "temp" "final" 128 [] true true) [8, 8] = [1, 2, 3] ∧
    FileSystem.read (afterReads codecThreeTwo
      (constructWithSink envOneFrame "temp" "final" 128 [] true true) [8]).disk "temp" =
        some [1, 2, 3] ∧
    (Read codecThreeTwo (afterReads codecThreeTwo
      (constructWithSink envOneFrame "temp" "final" 128 [] true true) [8]) 8).trace =
        [Ev.fetch false, Ev.flush true 2, Ev.fwrite 2, Ev.fclose true, Ev.rename true] ∧
    FileSystem.read (afterReads codecThreeTwo
      (constructWithSink envOneFrame "temp" "final" 128 [] true true) [8, 8]).disk "final" =
        some [1, 2, 3, 8, 9] := by
  decide

/-- C8 (abnormal termination discards the artifact), evaluated on a fatal encode error:
the codec fails on the second frame, after two bytes of the first have gone to the temp
file. `Read` returns 0 with `eof` set and the handle closed; `Close` then finds `eof` and
disposes, and `Dispose` finds no open handle: the temp file, with its two bytes, stays on
disk. It is never renamed to the final path. -/
theorem encode_error_leaves_temp_file :
    (Read codecFailsOnSecond
      (constructWithSink envTwoFrames "temp" "final" 128 [] true true) 8).ret = 0 ∧
    (Read codecFailsOnSecond
      (constructWithSink envTwoFrames "temp" "final" 128 [] true true) 8).state.eof = true ∧
    (Read codecFailsOnSecond
      (constructWithSink envTwoFrames "temp" "final" 128 [] true true) 8).trace =
        [Ev.fetch true, Ev.lameInit, Ev.encode true 0 (some 2), Ev.copy 2, Ev.fwrite 2,
          Ev.fetch true, Ev.encode true 0 none, Ev.fclose true] ∧
    (Close codecFailsOnSecond 0 (Read codecFailsOnSecond
      (constructWithSink envTwoFrames "temp" "final" 128 [] true true) 8).state).map
        (fun r => (FileSystem.read r.1.disk "temp", FileSystem.read r.1.disk "final", r.2)) =
      some (some [1, 2], none,
        [Ev.destroyBuffer, Ev.destroyDecoder, Ev.destroyInput, Ev.lameClose, Ev.deleteThis]) := by
  decide


/-! ### Encoder results along a call -/

theorem encodeResults_append (a b : List Ev) :
    encodeResults (a ++ b) = encodeResults a ++ encodeResults b := by
  simp [encodeResults, List.filterMap_append]

theorem fetch_results (c : Ctx) : encodeResults c.fetch.trace = encodeResults c.trace := by
  simp [Ctx.fetch, encodeResults_append, encodeResults]

theorem sinkWrite_results (c : Ctx) (bytes : List Byte) (count : Nat) :
    encodeResults (sinkWrite c bytes count).trace = encodeResults c.trace := by
  unfold sinkWrite
  split
  · simp [encodeResults_append, encodeResults]
  · rfl

theorem refetch_results (n : Nat) (c : Ctx) :
    encodeResults (refetch n c).trace = encodeResults c.trace := by
  unfold refetch
  split
  · exact fetch_results c
  · rfl

theorem writeEncoded_results (n : Nat) (c : Ctx) :
    encodeResults (writeEncoded n c).trace = encodeResults c.trace := by
  simp only [writeEncoded, sinkWrite_results, encodeResults_append]
  simp [encodeResults]

theorem encodeFrame_results (codec : Codec) (c : Ctx) :
    encodeResults (encodeFrame codec c).1.trace =
      encodeResults c.trace ++ [(encodeFrame codec c).2.map List.length] := by
  simp [encodeFrame, encodeResults_append, encodeResults]

theorem encodeRound_results (codec : Codec) (n : Nat) (c : Ctx) :
    (∀ r, encodeRound codec n c = Step.done r →
      encodeResults r.trace =
        encodeResults c.trace ++ [(encodeFrame codec c).2.map List.length] ∧
      ((encodeFrame codec c).2 = none → r.ret = 0 ∧ r.state.eof = true)) ∧
    (∀ c2, encodeRound codec n c = Step.more c2 →
      encodeResults c2.trace =
        encodeResults c.trace ++ [(encodeFrame codec c).2.map List.length] ∧
      (encodeFrame codec c).2 ≠ none) := by
  have hef := encodeFrame_results codec c
  unfold encodeRound
  split
  · next hnone =>
    constructor
    · intro r h
      cases h
      refine ⟨?_, fun _ => ⟨rfl, rfl⟩⟩
      rw [← hef]
      simp [internalError, encodeResults_append, encodeResults]
    · intro c2 h; cases h
  · next out hout =>
    unfold deliverEncoded
    split
    · constructor
      · intro r h; cases h
      · intro c2 h
        cases h
        refine ⟨?_, by rw [hout]; simp⟩
        rw [refetch_results, ← hef]
        rfl
    · split
      · constructor
        · intro r h; cases h
        · intro c2 h
          cases h
          refine ⟨?_, by rw [hout]; simp⟩
          rw [refetch_results, writeEncoded_results, ← hef]
          rfl
      · constructor
        · intro r h
          cases h
          refine ⟨?_, fun h => by rw [hout] at h; cases h⟩
          rw [← hef]
          simp only [returnWritten, swapSpillover, encodeResults_append, writeEncoded_results]
          simp [encodeResults, acceptEncoded]
        · intro c2 h; cases h

theorem finalize_results (codec : Codec) (c : Ctx) :
    encodeResults (finalize codec c).trace = encodeResults c.trace := by
  unfold finalize
  split
  · split
    · simp only [returnWritten, setEof, promote]
      split <;>
        (simp only [encodeResults_append, sinkWrite_results, flushEncoder]
         simp [encodeResults])
    · simp only [returnWritten, setEof, flushEncoder, encodeResults_append]
      simp [encodeResults]
  · rfl

theorem initEncoder_results (c : Ctx) :
    encodeResults (initEncoder c).trace = encodeResults c.trace := by
  unfold initEncoder
  split
  · dsimp only
    split
    · simp only [encodeResults_append, fetch_results]
      simp [encodeResults]
    · exact fetch_results c
  · rfl

theorem drainSpillover_results (n : Nat) (c : Ctx) :
    encodeResults (drainSpillover n c).trace = encodeResults c.trace := by
  unfold drainSpillover
  split
  · simp only [sinkWrite_results, encodeResults_append]
    simp [encodeResults]
  · rfl

/-! ### What an encode error leaves behind -/

theorem encodeLoop_error (codec : Codec) (n : Nat) : ∀ (fuel : Nat) (c : Ctx),
    none ∉ encodeResults c.trace →
    none ∈ encodeResults (encodeLoop codec n fuel c).trace →
    (encodeLoop codec n fuel c).ret = 0 ∧ (encodeLoop codec n fuel c).state.eof = true := by
  intro fuel
  induction fuel with
  | zero =>
    intro c hno h
    rw [encodeLoop, finalize_results] at h
    exact absurd h hno
  | succ fuel ih =>
    intro c hno h
    unfold encodeLoop at h ⊢
    split at h
    · next hcond =>
      rw [if_pos hcond]
      have hr := encodeRound_results codec n c
      split at h
      · next r hround =>
        obtain ⟨htr, herr⟩ := hr.1 r hround
        cases h2 : (encodeFrame codec c).2 with
        | none => exact herr h2
        | some out =>
          rw [htr, h2] at h
          simp at h
          exact absurd h hno
      · next c2 hround =>
        obtain ⟨htr, hsome⟩ := hr.2 c2 hround
        apply ih c2 _ h
        rw [htr]
        intro hmem
        rcases List.mem_append.mp hmem with h1 | h1
        · exact hno h1
        · cases h2 : (encodeFrame codec c).2 with
          | none => exact hsome h2
          | some out => rw [h2] at h1; simp at h1
    · next hcond =>
      rw [if_neg hcond]
      rw [finalize_results] at h
      exact absurd h hno

theorem Read_error (codec : Codec) (s : TranscodingDataStream) (n : Nat)
    (h : none ∈ encodeResults (Read codec s n).trace) :
    (Read codec s n).ret = 0 ∧ (Read codec s n).state.eof = true := by
  unfold Read at h ⊢
  split at h
  · simp [encodeResults] at h
  · next hg =>
    rw [if_neg hg]
    dsimp only at h ⊢
    have hclean : ∀ b : Bool, none ∉ encodeResults
        (drainSpillover n (initEncoder
          { s := s, bytesWritten := 0, hasBuffer := b, dst := [], trace := [] })).trace := by
      intro b
      rw [drainSpillover_results, initEncoder_results]
      simp [encodeResults]
    split at h
    · exact absurd h (by simpa [returnWritten] using hclean false)
    · next hne =>
      rw [if_neg hne]
      apply encodeLoop_error codec n _ _ _ h
      split
      · rw [fetch_results]; exact hclean false
      · exact hclean false

/-! ### C4: a call that overflows into the spillover, and the call after it -/

theorem fetch_eof (c : Ctx) : c.fetch.s.eof = c.s.eof := by
  unfold Ctx.fetch getBuffer
  split
  · rfl
  · split <;> rfl

theorem fetch_buf (c : Ctx) (h : c.s.pcmBuffer.isSome = true) :
    c.fetch.s.pcmBuffer.isSome = true := by
  unfold Ctx.fetch getBuffer
  split
  · exact h
  · split
    · exact h
    · rfl

theorem fetch_bytesWritten (c : Ctx) : c.fetch.bytesWritten = c.bytesWritten := rfl

theorem refetch_eof (n : Nat) (c : Ctx) : (refetch n c).s.eof = c.s.eof := by
  unfold refetch; split
  · exact fetch_eof c
  · rfl

theorem refetch_buf (n : Nat) (c : Ctx) (h : c.s.pcmBuffer.isSome = true) :
    (refetch n c).s.pcmBuffer.isSome = true := by
  unfold refetch; split
  · exact fetch_buf c h
  · exact h

theorem initEncoder_frame (c : Ctx) :
    (initEncoder c).s.eof = c.s.eof ∧ (initEncoder c).bytesWritten = c.bytesWritten ∧
    (c.s.pcmBuffer.isSome = true → (initEncoder c).s.pcmBuffer.isSome = true) := by
  unfold initEncoder
  split
  · dsimp only
    split
    · exact ⟨fetch_eof c, rfl, fetch_buf c⟩
    · exact ⟨fetch_eof c, rfl, fetch_buf c⟩
  · exact ⟨rfl, rfl, id⟩

theorem drainSpillover_bytesWritten_le (n : Nat) (c : Ctx) (h : c.bytesWritten = 0) :
    (drainSpillover n c).bytesWritten ≤ n := by
  unfold drainSpillover
  split
  · simp only [sinkWrite_bytesWritten, h]
    omega
  · omega

theorem encodeFrame_some (codec : Codec) (c : Ctx) (out : List Byte)
    (h : (encodeFrame codec c).2 = some out) : ∃ sess, c.s.lame = some sess := by
  cases hl : c.s.lame with
  | none => simp [encodeFrame, hl] at h
  | some sess => exact ⟨sess, rfl⟩

theorem encodeLoop_overflow (codec : Codec) (n : Nat) : ∀ (fuel : Nat) (c : Ctx) (E : Nat),
    c.bytesWritten ≤ n → c.s.eof = false → c.s.pcmBuffer.isSome = true →
    (∀ k, some k ∈ encodeResults c.trace → k ≤ n) → n < E →
    some E ∈ encodeResults (encodeLoop codec n fuel c).trace →
    (encodeLoop codec n fuel c).ret = n ∧
    (encodeLoop codec n fuel c).state.eof = false ∧
    (encodeLoop codec n fuel c).state.pcmBuffer.isSome = true ∧
    (encodeLoop codec n fuel c).state.lame.isSome = true ∧
    E - n ≤ (encodeLoop codec n fuel c).state.spillover.avail ∧
    (spillBytes (encodeLoop codec n fuel c).state).length =
      (encodeLoop codec n fuel c).state.spillover.avail := by
  intro fuel
  induction fuel with
  | zero =>
    intro c E _ _ _ hold hbig h
    rw [encodeLoop, finalize_results] at h
    have := hold E h
    omega
  | succ fuel ih =>
    intro c E hbw heof hbuf hold hbig h
    unfold encodeLoop at h ⊢
    by_cases hcond : (c.hasBuffer && decide (c.bytesWritten < n)) = true
    · rw [if_pos hcond] at h ⊢
      have hres := encodeRound_results codec n c
      cases h2 : (encodeFrame codec c).2 with
      | none =>
        cases hX : encodeRound codec n c with
        | done r =>
          rw [hX] at h
          simp only at h
          rw [(hres.1 r hX).1, h2] at h
          simp at h
          have := hold E h
          omega
        | more c2 => exact absurd h2 (hres.2 c2 hX).2
      | some out =>
        obtain ⟨sess, hl⟩ := encodeFrame_some codec c out h2
        obtain ⟨f, hf⟩ := Option.isSome_iff_exists.mp hbuf
        have henc := encodeFrame_result codec c f sess hf hl
        rw [h2] at henc
        by_cases hfit : out.length ≤ n - c.bytesWritten
        · obtain ⟨c1, hround, e1, e2, _, _, _, _, e7⟩ :=
            encodeRound_fits codec n c f sess out hf hl henc.symm hfit
          rw [hround] at h ⊢
          simp only at h ⊢
          apply ih (refetch n c1) E _ _ _ _ hbig h
          · rw [refetch_bytesWritten, e7]; omega
          · rw [refetch_eof, e1]; exact heof
          · exact refetch_buf n c1 (by rw [e2]; exact hbuf)
          · intro k hk
            rw [(hres.2 _ hround).1, h2] at hk
            simp at hk
            rcases hk with hk | hk
            · exact hold k hk
            · omega
        · obtain ⟨r, hround, r1, _, r3, r4, _, r6, r7, r8⟩ :=
            encodeRound_spills codec n c f sess out hf hl henc.symm (by omega)
          rw [hround] at h ⊢
          simp only at h ⊢
          rw [(hres.1 _ hround).1, h2] at h
          simp at h
          have hE : E = out.length := by
            rcases h with h | h
            · have := hold E h
              omega
            · exact h
          refine ⟨by rw [r1]; omega, r3.trans heof, by rw [r4]; exact hbuf, by rw [r6]; rfl,
            by rw [r8, hE]; omega, by rw [r7, r8, List.length_drop]⟩
    · rw [if_neg hcond] at h ⊢
      rw [finalize_results] at h
      have := hold E h
      omega

theorem Read_overflow (codec : Codec) (s : TranscodingDataStream) (n E : Nat) (hbig : n < E)
    (h : some E ∈ encodeResults (Read codec s n).trace) :
    (Read codec s n).ret = n ∧ (Read codec s n).state.eof = false ∧
    (Read codec s n).state.pcmBuffer.isSome = true ∧
    (Read codec s n).state.lame.isSome = true ∧
    E - n ≤ (Read codec s n).state.spillover.avail ∧
    (spillBytes (Read codec s n).state).length = (Read codec s n).state.spillover.avail := by
  unfold Read at h ⊢
  by_cases hg : (s.eof || s.pcmBuffer.isNone) = true
  · rw [if_pos hg] at h
    simp [encodeResults] at h
  · rw [if_neg hg] at h ⊢
    dsimp only at h ⊢
    have heof : s.eof = false := by
      cases he : s.eof with
      | false => rfl
      | true => simp [he] at hg
    have hbuf : s.pcmBuffer.isSome = true := by
      cases hb : s.pcmBuffer with
      | none => simp [hb] at hg
      | some b => rfl
    obtain ⟨i1, i2, i3⟩ := initEncoder_frame
      { s := s, bytesWritten := 0, hasBuffer := false, dst := [], trace := [] }
    obtain ⟨p1, p2, _, _, _⟩ := drainSpillover_frame n (initEncoder
      { s := s, bytesWritten := 0, hasBuffer := false, dst := [], trace := [] })
    have hle := drainSpillover_bytesWritten_le n (initEncoder
      { s := s, bytesWritten := 0, hasBuffer := false, dst := [], trace := [] }) i2
    have hold : ∀ k, some k ∈ encodeResults (drainSpillover n (initEncoder
        { s := s, bytesWritten := 0, hasBuffer := false, dst := [], trace := [] })).trace →
        k ≤ n := by
      intro k hk
      rw [drainSpillover_results, initEncoder_results] at hk
      simp [encodeResults] at hk
    by_cases hfull : (drainSpillover n (initEncoder
        { s := s, bytesWritten := 0, hasBuffer := false, dst := [], trace := [] })).bytesWritten = n
    · rw [if_pos hfull] at h
      have := hold E (by simpa [returnWritten] using h)
      omega
    · rw [if_neg hfull] at h ⊢
      apply encodeLoop_overflow codec n _ _ E _ _ _ _ hbig h
      · split
        · rw [fetch_bytesWritten]; exact hle
        · exact hle
      · split
        · rw [fetch_eof, p1, i1]; exact heof
        · rw [p1, i1]; exact heof
      · have hb2 : (drainSpillover n (initEncoder
            { s := s, bytesWritten := 0, hasBuffer := false, dst := [], trace := [] })).s.pcmBuffer.isSome
              = true := by
          rw [p2]; exact i3 hbuf
        split
        · exact fetch_buf _ hb2
        · exact hb2
      · intro k hk
        apply hold k
        split at hk
        · rw [fetch_results] at hk; exact hk
        · exact hk

theorem Read_from_spillover (codec : Codec) (s : TranscodingDataStream) (m : Nat)
    (heof : s.eof = false) (hbuf : s.pcmBuffer.isSome = true) (hl : s.lame.isSome = true)
    (hav : m ≤ s.spillover.avail) (hpos : 0 < s.spillover.avail)
    (hlen : (spillBytes s).length = s.spillover.avail) :
    (Read codec s m).ret = m ∧ (Read codec s m).dst = (spillBytes s).take m ∧
    (Read codec s m).dst.length = m ∧
    (Read codec s m).trace = Ev.drain m :: (if s.outFile then [Ev.fwrite m] else []) ∧
    (Read codec s m).state.decoder = s.decoder ∧ (Read codec s m).state.lame = s.lame := by
  have hguard : ¬ ((s.eof || s.pcmBuffer.isNone) = true) := by
    obtain ⟨b, hb⟩ := Option.isSome_iff_exists.mp hbuf
    simp [heof, hb]
  obtain ⟨sess, hsess⟩ := Option.isSome_iff_exists.mp hl
  have hinit : initEncoder { s := s, bytesWritten := 0, hasBuffer := false, dst := [], trace := [] }
      = { s := s, bytesWritten := 0, hasBuffer := false, dst := [], trace := [] } := by
    simp [initEncoder, hsess]
  obtain ⟨q1, q2, q3, _, _, _⟩ := drainSpillover_spec m
    { s := s, bytesWritten := 0, hasBuffer := false, dst := [], trace := [] } hlen rfl rfl
  obtain ⟨_, _, p3, p4, _⟩ := drainSpillover_frame m
    { s := s, bytesWritten := 0, hasBuffer := false, dst := [], trace := [] }
  simp only at q2 q3 p3 p4
  have hbw : (drainSpillover m
      { s := s, bytesWritten := 0, hasBuffer := false, dst := [], trace := [] }).bytesWritten = m := by
    rw [q2]; omega
  have htr : (drainSpillover m
      { s := s, bytesWritten := 0, hasBuffer := false, dst := [], trace := [] }).trace =
        Ev.drain m :: (if s.outFile then [Ev.fwrite m] else []) := by
    have hne : (!s.spillover.empty) = true := by
      simp [ByteBuffer.empty]; omega
    have hmin : min s.spillover.avail m = m := by omega
    unfold drainSpillover
    rw [if_pos hne]
    simp only [sinkWrite, hmin]
    split <;> simp
  unfold Read
  rw [if_neg hguard]
  dsimp only
  rw [hinit, if_pos hbw]
  refine ⟨hbw, q3, ?_, htr, p3, p4⟩
  simp only [returnWritten]
  rw [q1, hbw]

/-- C4, as amended (spillover exactness): if an encode round in a `Read` call of
capacity `n` produces `E` bytes with `n < E`, that call returns exactly `n` and at least
`E - n` bytes are stored in the spillover; and a subsequent `Read` call of any capacity
`m ≤ E - n` returns exactly `min(m, E - n) = m` bytes, the first `m` of the stored
leftover, and does nothing but drain it (and mirror it to the sink): no PCM frame is
fetched, the encoder is not invoked, and decoder and session are as before. -/
theorem spillover_exact (codec : Codec) (s : TranscodingDataStream) (n E m : Nat)
    (hbig : n < E) (henc : some E ∈ encodeResults (Read codec s n).trace)
    (hm : m ≤ E - n) :
    (Read codec s n).ret = n ∧
    E - n ≤ (Read codec s n).state.spillover.avail ∧
    (Read codec (Read codec s n).state m).ret = min m (E - n) ∧
    (Read codec (Read codec s n).state m).dst = (spillBytes (Read codec s n).state).take m ∧
    (Read codec (Read codec s n).state m).dst.length = m ∧
    (Read codec (Read codec s n).state m).trace =
      Ev.drain m :: (if (Read codec s n).state.outFile then [Ev.fwrite m] else []) ∧
    (Read codec (Read codec s n).state m).state.decoder = (Read codec s n).state.decoder ∧
    (Read codec (Read codec s n).state m).state.lame = (Read codec s n).state.lame := by
  obtain ⟨o1, o2, o3, o4, o5, o6⟩ := Read_overflow codec s n E hbig henc
  obtain ⟨s1, s2, s3, s4, s5, s6⟩ := Read_from_spillover codec (Read codec s n).state m o2 o3 o4
    (by omega) (by omega) o6
  exact ⟨o1, o5, by rw [s1]; omega, s2, s3, s4, s5, s6⟩

/-- Witness for C4: the first frame encodes to three bytes, read with capacity 1 and
then with capacity 2. -/
theorem spillover_exact_witness :
    some 3 ∈ encodeResults (Read codecThreeTwo
      (constructWithSink envTwoFrames "temp" "final" 128 [] true true) 1).trace ∧
    (Read codecThreeTwo
      (constructWithSink envTwoFrames "temp" "final" 128 [] true true) 1).ret = 1 ∧
    (Read codecThreeTwo (Read codecThreeTwo
      (constructWithSink envTwoFrames "temp" "final" 128 [] true true) 1).state 2).ret =
        min 2 (3 - 1) :=
  ⟨by decide,
    (spillover_exact codecThreeTwo
      (constructWithSink envTwoFrames "temp" "final" 128 [] true true) 1 3 2
      (by decide) (by decide) (by decide)).1,
    (spillover_exact codecThreeTwo
      (constructWithSink envTwoFrames "temp" "final" 128 [] true true) 1 3 2
      (by decide) (by decide) (by decide)).2.2.1⟩

/-- Counterexample to C4 as stated: the first frame encodes to `E = 3` bytes and is read
with capacity `n = 1`; the next call, with capacity `m = 5`, returns 4 bytes and not
`min(5, 3 - 1) = 2`: having drained the two leftover bytes it fetches the second frame
and invokes the encoder on it. -/
theorem spillover_exact_counterexample :
    some 3 ∈ encodeResults (Read codecThreeTwo
      (constructWithSink envTwoFrames "temp" "final" 128 [] true true) 1).trace ∧
    (Read codecThreeTwo
      (constructWithSink envTwoFrames "temp" "final" 128 [] true true) 1).ret = 1 ∧
    (Read codecThreeTwo (Read codecThreeTwo
      (constructWithSink envTwoFrames "temp" "final" 128 [] true true) 1).state 5).ret = 4 ∧
    min 5 (3 - 1) = 2 ∧
    (Read codecThreeTwo (Read codecThreeTwo
      (constructWithSink envTwoFrames "temp" "final" 128 [] true true) 1).state 5).trace =
      [Ev.drain 2, Ev.fwrite 2, Ev.fetch true, Ev.encode true 0 (some 2), Ev.copy 2,
        Ev.fwrite 2, Ev.fetch false] := by
  decide


/-! ### C6: the return value is bounded, the copy of the flush output is not -/

theorem writeEncoded_bytesWritten (n : Nat) (c : Ctx) :
    (writeEncoded n c).bytesWritten =
      c.bytesWritten + min c.s.encodedBytes.length (n - c.bytesWritten) := by
  simp only [writeEncoded, sinkWrite_bytesWritten]

theorem encodeRound_le (codec : Codec) (n : Nat) (c : Ctx) (hbw : c.bytesWritten ≤ n) :
    (∀ r, encodeRound codec n c = Step.done r → r.ret ≤ n) ∧
    (∀ c2, encodeRound codec n c = Step.more c2 → c2.bytesWritten ≤ n) := by
  have hw : ∀ out, (writeEncoded n (acceptEncoded (encodeFrame codec c).1 out)).bytesWritten
      ≤ n := by
    intro out
    rw [writeEncoded_bytesWritten]
    have : (acceptEncoded (encodeFrame codec c).1 out).bytesWritten = c.bytesWritten := rfl
    rw [this]
    omega
  unfold encodeRound
  split
  · constructor
    · intro r h
      cases h
      exact Nat.zero_le n
    · intro c2 h; cases h
  · next out _ =>
    unfold deliverEncoded
    split
    · constructor
      · intro r h; cases h
      · intro c2 h
        cases h
        rw [refetch_bytesWritten]
        exact hbw
    · split
      · constructor
        · intro r h; cases h
        · intro c2 h
          cases h
          rw [refetch_bytesWritten]
          exact hw out
      · constructor
        · intro r h
          cases h
          exact hw out
        · intro c2 h; cases h

theorem finalize_ret (codec : Codec) (c : Ctx) : (finalize codec c).ret = c.bytesWritten := by
  unfold finalize
  split
  · split
    · simp only [returnWritten, setEof, promote]
      split <;> simp [sinkWrite_bytesWritten, flushEncoder]
    · simp [returnWritten, setEof, flushEncoder]
  · rfl

theorem encodeLoop_le (codec : Codec) (n : Nat) : ∀ (fuel : Nat) (c : Ctx),
    c.bytesWritten ≤ n → (encodeLoop codec n fuel c).ret ≤ n := by
  intro fuel
  induction fuel with
  | zero =>
    intro c hbw
    rw [encodeLoop, finalize_ret]
    exact hbw
  | succ fuel ih =>
    intro c hbw
    unfold encodeLoop
    split
    · have h := encodeRound_le codec n c hbw
      split
      · next r hr => exact h.1 r hr
      · next c2 hc2 => exact ih c2 (h.2 c2 hc2)
    · rw [finalize_ret]
      exact hbw

theorem Read_ret_le (codec : Codec) (s : TranscodingDataStream) (n : Nat) :
    (Read codec s n).ret ≤ n := by
  unfold Read
  split
  · exact Nat.zero_le n
  · dsimp only
    have hle := drainSpillover_bytesWritten_le n (initEncoder
      { s := s, bytesWritten := 0, hasBuffer := false, dst := [], trace := [] })
      (initEncoder_frame _).2.1
    split
    · exact hle
    · apply encodeLoop_le
      split
      · exact hle
      · exact hle

/-- C6 (read return bound): the value returned by `Read` never exceeds the capacity,
for every stream state, codec and capacity; but the copy into the consumer's buffer does.
Evaluated where the source is exhausted, the flush produces two bytes, and `Read` is
called with capacity 1: the call returns 0 and copies both flush bytes into the one-byte
buffer. -/
theorem read_copies_beyond_capacity :
    (∀ (codec : Codec) (s : TranscodingDataStream) (n : Nat), (Read codec s n).ret ≤ n) ∧
    (Read codecThreeTwo (afterReads codecThreeTwo
      (constructWithSink envOneFrame "temp" "final" 128 [] true true) [8]) 1).ret = 0 ∧
    (Read codecThreeTwo (afterReads codecThreeTwo
      (constructWithSink envOneFrame "temp" "final" 128 [] true true) [8]) 1).dst = [8, 9] ∧
    1 < (Read codecThreeTwo (afterReads codecThreeTwo
      (constructWithSink envOneFrame "temp" "final" 128 [] true true) [8]) 1).dst.length :=
  ⟨Read_ret_le, by decide, by decide, by decide⟩


/-! ### C13, C17, C18: the finalize block, the init block and the error exit, evaluated -/

/-- C13 (flush delivery), evaluated: the one-frame source has been read to exhaustion
(three bytes returned), the flush produces `F = 2` bytes, and `Read` is called with
capacity `n = 8`. The two bytes are copied to the buffer and mirrored to the sink, the
sink is promoted and `eof` is set, but the call returns 0, not `min(F, n) = 2`, and
`position` stays at 3. -/
theorem flush_delivery_returns_zero :
    (Read codecThreeTwo (afterReads codecThreeTwo
      (constructWithSink envOneFrame "temp" "final" 128 [] true true) [8]) 8).trace =
        [Ev.fetch false, Ev.flush true 2, Ev.fwrite 2, Ev.fclose true, Ev.rename true] ∧
    (Read codecThreeTwo (afterReads codecThreeTwo
      (constructWithSink envOneFrame "temp" "final" 128 [] true true) [8]) 8).dst = [8, 9] ∧
    (Read codecThreeTwo (afterReads codecThreeTwo
      (constructWithSink envOneFrame "temp" "final" 128 [] true true) [8]) 8).ret = 0 ∧
    min 2 8 = 2 ∧
    Position (afterReads codecThreeTwo
      (constructWithSink envOneFrame "temp" "final" 128 [] true true) [8]) = 3 ∧
    Position (Read codecThreeTwo (afterReads codecThreeTwo
      (constructWithSink envOneFrame "temp" "final" 128 [] true true) [8]) 8).state = 3 ∧
    Eof (Read codecThreeTwo (afterReads codecThreeTwo
      (constructWithSink envOneFrame "temp" "final" 128 [] true true) [8]) 8).state = true ∧
    FileSystem.read (Read codecThreeTwo (afterReads codecThreeTwo
      (constructWithSink envOneFrame "temp" "final" 128 [] true true) [8]) 8).state.disk
        "final" = some [1, 2, 3, 8, 9] := by
  decide

/-- C17 (zero-capacity read), evaluated on the freshly constructed stream over two
different frames: `Read` with capacity 0 returns 0 and leaves `position` and `eof` as
they were, but its init block fetches the first frame, and the call returns before the
frame is encoded: one frame fewer is left in the decoder, no encoder call is made, and
the later reads return the bytes of the second frame only. -/
theorem zero_read_drops_frame :
    (Read codecEcho (constructWithSink envDistinct "temp" "final" 128 [] true true) 0).ret = 0 ∧
    (Read codecEcho
      (constructWithSink envDistinct "temp" "final" 128 [] true true) 0).state.position = 0 ∧
    (Read codecEcho
      (constructWithSink envDistinct "temp" "final" 128 [] true true) 0).state.eof = false ∧
    (Read codecEcho (constructWithSink envDistinct "temp" "final" 128 [] true true) 0).trace =
      [Ev.fetch true, Ev.lameInit] ∧
    framesLeft (constructWithSink envDistinct "temp" "final" 128 [] true true) = 2 ∧
    framesLeft (Read codecEcho
      (constructWithSink envDistinct "temp" "final" 128 [] true true) 0).state = 1 ∧
    returnedBytes codecEcho
      (constructWithSink envDistinct "temp" "final" 128 [] true true) [8, 8] =
        [1, 2, 3, 4, 5, 6, 7, 8] ∧
    returnedBytes codecEcho (Read codecEcho
      (constructWithSink envDistinct "temp" "final" 128 [] true true) 0).state [8, 8] =
        [5, 6, 7, 8] := by
  decide

/-- C18 (the encoder exists whenever it is used), evaluated. First, a source whose first
fetch reports exhaustion: the init block leaves `lame` null and `encodedBytes`
unallocated, and the finalize block calls `lame_encode_flush` on them. Second, a stream
without a sink whose codec fails on the first frame: the error exit calls `fclose` on the
null `outFile`. -/
theorem encoder_used_without_session :
    (constructWithSink envEmpty "temp" "final" 128 [] true true).pcmBuffer.isSome = true ∧
    (Read codecThreeTwo
      (constructWithSink envEmpty "temp" "final" 128 [] true true) 8).trace =
        [Ev.fetch false, Ev.fetch false, Ev.flush false 0, Ev.fwrite 0, Ev.fclose true,
          Ev.rename true] ∧
    (constructWithSink envEmpty "temp" "final" 128 [] true true).encodedBytes.rawLength = 0 ∧
    (constructWithSink envOneFrame "" "" 128 [] true true).outFile = false ∧
    (Read codecFails (constructWithSink envOneFrame "" "" 128 [] true true) 8).trace =
      [Ev.fetch true, Ev.lameInit, Ev.encode true 0 none, Ev.fclose false] := by
  decide


/-! ### C12: disposing twice -/

/-- C12 (idempotent disposal): on the resource state (PCM buffer, decoder, input, encoder
session, sink handle, temp file on disk), `Dispose` applied to the state left by a first
`Dispose` changes nothing, `dispose(dispose(s)) = dispose(s)`, and it releases nothing,
closes nothing and removes no file: its trace is the `delete this` that ends every call
(the stream object itself is not part of the resource state). Over the two calls each
resource that was held is released exactly once, one that was not held is never released,
and the sink is closed and its temp file removed at most once. -/
theorem dispose_idempotent (s : TranscodingDataStream) :
    (Dispose (Dispose s).1).1 = (Dispose s).1 ∧
    (Dispose (Dispose s).1).2 = [Ev.deleteThis] ∧
    ((Dispose s).2 ++ (Dispose (Dispose s).1).2).count Ev.destroyBuffer =
      (if s.pcmBuffer.isSome then 1 else 0) ∧
    ((Dispose s).2 ++ (Dispose (Dispose s).1).2).count Ev.destroyDecoder =
      (if s.decoder.isSome then 1 else 0) ∧
    ((Dispose s).2 ++ (Dispose (Dispose s).1).2).count Ev.destroyInput =
      (if s.input.isSome then 1 else 0) ∧
    ((Dispose s).2 ++ (Dispose (Dispose s).1).2).count Ev.lameClose =
      (if s.lame.isSome then 1 else 0) ∧
    ((Dispose s).2 ++ (Dispose (Dispose s).1).2).count (Ev.fclose true) =
      (if s.outFile then 1 else 0) ∧
    ((Dispose s).2 ++ (Dispose (Dispose s).1).2).count Ev.remove =
      (if s.outFile then 1 else 0) ∧
    ((Dispose s).2 ++ (Dispose (Dispose s).1).2).count (Ev.fclose false) = 0 := by
  refine ⟨?_, ?_, ?_, ?_, ?_, ?_, ?_, ?_, ?_⟩
  · simp [Dispose]
  · simp [Dispose]
  all_goals
    simp only [Dispose]
    cases s.pcmBuffer <;> cases s.decoder <;> cases s.input <;> cases s.lame <;>
      cases s.outFile <;> simp


/-! ### The shape of the loop body and what each step adds to the trace -/

theorem encodeRound_cases (codec : Codec) (n : Nat) (c : Ctx) (P : Step → Prop)
    (herr : (encodeFrame codec c).2 = none →
      P (Step.done (internalError (encodeFrame codec c).1)))
    (hzero : ∀ out, (encodeFrame codec c).2 = some out → out.length = 0 →
      P (Step.more (refetch n (acceptEncoded (encodeFrame codec c).1 out))))
    (hfit : ∀ out, (encodeFrame codec c).2 = some out → out.length ≠ 0 →
      (writeEncoded n (acceptEncoded (encodeFrame codec c).1 out)).s.encodedBytes.avail = 0 →
      P (Step.more (refetch n (writeEncoded n (acceptEncoded (encodeFrame codec c).1 out)))))
    (hspill : ∀ out, (encodeFrame codec c).2 = some out → out.length ≠ 0 →
      (writeEncoded n (acceptEncoded (encodeFrame codec c).1 out)).s.encodedBytes.avail ≠ 0 →
      P (Step.done (returnWritten (swapSpillover
        (writeEncoded n (acceptEncoded (encodeFrame codec c).1 out)))))) :
    P (encodeRound codec n c) := by
  unfold encodeRound
  split
  · next h => exact herr h
  · next out h =>
    unfold deliverEncoded
    have hlen : (acceptEncoded (encodeFrame codec c).1 out).s.encodedBytes.length = out.length :=
      rfl
    split
    · next h0 => exact hzero out h (hlen ▸ h0)
    · next h0 =>
      split
      · next hav => exact hfit out h (hlen ▸ h0) hav
      · next hav => exact hspill out h (hlen ▸ h0) hav

theorem fetch_trace (c : Ctx) : c.fetch.trace = c.trace ++ [Ev.fetch c.fetch.hasBuffer] := rfl

theorem sinkWrite_trace (c : Ctx) (bytes : List Byte) (count : Nat) :
    (sinkWrite c bytes count).trace =
      c.trace ++ (if c.s.outFile then [Ev.fwrite count] else []) := by
  unfold sinkWrite
  split <;> simp

theorem refetch_trace (n : Nat) (c : Ctx) :
    (refetch n c).trace =
      c.trace ++ (if n > c.bytesWritten then [Ev.fetch (refetch n c).hasBuffer] else []) := by
  unfold refetch
  split
  · exact fetch_trace c
  · simp

theorem encodeFrame_trace (codec : Codec) (c : Ctx) :
    (encodeFrame codec c).1.trace =
      c.trace ++ [Ev.encode c.s.lame.isSome c.s.spillover.avail
        ((encodeFrame codec c).2.map List.length)] := rfl

theorem writeEncoded_trace (n : Nat) (c : Ctx) :
    (writeEncoded n c).trace =
      c.trace ++ Ev.copy (min c.s.encodedBytes.length (n - c.bytesWritten)) ::
        (if c.s.outFile then [Ev.fwrite (min c.s.encodedBytes.length (n - c.bytesWritten))]
         else []) := by
  simp only [writeEncoded, sinkWrite_trace]
  simp

theorem finalize_trace (codec : Codec) (c : Ctx) :
    (finalize codec c).trace =
      c.trace ++
        (if c.bytesWritten = 0 then
          Ev.flush c.s.lame.isSome (flushEncoder codec c).2.length ::
            (if c.s.outFile then
              Ev.fwrite (flushEncoder codec c).2.length :: Ev.fclose true ::
                (if c.s.renameOk then [Ev.rename true] else [Ev.rename false, Ev.remove])
             else [])
         else []) := by
  unfold finalize
  by_cases h0 : c.bytesWritten = 0
  · rw [if_pos h0, if_pos h0]
    have hout : (flushEncoder codec c).1.s.outFile = c.s.outFile := rfl
    have hren : (sinkWrite (flushEncoder codec c).1 (flushEncoder codec c).2
        (flushEncoder codec c).2.length).s.renameOk = c.s.renameOk := by
      rw [sinkWrite_s]; rfl
    rw [hout]
    by_cases ho : c.s.outFile = true
    · rw [if_pos ho, if_pos ho]
      simp only [returnWritten, setEof, promote, hren]
      by_cases hr : c.s.renameOk = true
      · rw [if_pos hr, if_pos hr]
        simp [sinkWrite_trace, hout, ho, flushEncoder]
      · rw [if_neg hr, if_neg hr]
        simp [sinkWrite_trace, hout, ho, flushEncoder]
    · rw [if_neg ho, if_neg ho]
      simp [returnWritten, setEof, flushEncoder]
  · rw [if_neg h0, if_neg h0]
    simp [returnWritten]

theorem initEncoder_trace (c : Ctx) :
    (initEncoder c).trace =
      c.trace ++
        (if c.s.decoder.isSome && c.s.lame.isNone then
          Ev.fetch c.fetch.hasBuffer :: (if c.fetch.hasBuffer then [Ev.lameInit] else [])
         else []) := by
  unfold initEncoder
  split
  · dsimp only
    split
    · next h => simp [fetch_trace, h]
    · next h => simp [fetch_trace, h]
  · simp

theorem drainSpillover_trace (n : Nat) (c : Ctx) :
    (drainSpillover n c).trace =
      c.trace ++
        (if !c.s.spillover.empty then
          Ev.drain (min c.s.spillover.avail n) ::
            (if c.s.outFile then [Ev.fwrite (min c.s.spillover.avail n)] else [])
         else []) := by
  unfold drainSpillover
  split
  · simp [sinkWrite_trace]
  · simp

theorem fetch_spillover (c : Ctx) : c.fetch.s.spillover = c.s.spillover := by
  unfold Ctx.fetch getBuffer
  split
  · rfl
  · split <;> rfl

theorem refetch_spillover (n : Nat) (c : Ctx) : (refetch n c).s.spillover = c.s.spillover := by
  unfold refetch
  split
  · exact fetch_spillover c
  · rfl

theorem writeEncoded_spillover (n : Nat) (c : Ctx) :
    (writeEncoded n c).s.spillover = c.s.spillover := by
  simp only [writeEncoded, sinkWrite_s]

theorem initEncoder_spillover (c : Ctx) : (initEncoder c).s.spillover = c.s.spillover := by
  unfold initEncoder
  split
  · dsimp only
    split
    · exact fetch_spillover c
    · exact fetch_spillover c
  · rfl

theorem inc_avail (b : ByteBuffer Byte) (k : Nat) (hk : k ≤ b.avail) :
    (b.inc k).avail = b.avail - k := by
  obtain ⟨data, offset, length, raw⟩ := b
  simp only [ByteBuffer.avail] at hk
  simp only [ByteBuffer.avail, ByteBuffer.inc]
  split
  · simp only
    omega
  · simp only
    omega

theorem drainSpillover_avail (n : Nat) (c : Ctx) :
    (drainSpillover n c).s.spillover.avail = c.s.spillover.avail - n ∧
    (drainSpillover n c).bytesWritten = c.bytesWritten + min c.s.spillover.avail n := by
  unfold drainSpillover
  split
  · simp only [sinkWrite_s, sinkWrite_bytesWritten]
    rw [inc_avail _ _ (Nat.min_le_left _ _)]
    exact ⟨by omega, trivial⟩
  · next h =>
    have h0 : c.s.spillover.avail = 0 := by simpa [ByteBuffer.empty] using h
    rw [h0]
    exact ⟨by omega, by omega⟩

/-! ### C14: the spillover is empty whenever the encoder runs -/

theorem encodeRound_spillEmpty (codec : Codec) (n : Nat) (c : Ctx)
    (hsp : c.s.spillover.avail = 0) (htr : c.trace.all Ev.spillEmpty = true) :
    (∀ r, encodeRound codec n c = Step.done r → r.trace.all Ev.spillEmpty = true) ∧
    (∀ c2, encodeRound codec n c = Step.more c2 →
      c2.trace.all Ev.spillEmpty = true ∧ c2.s.spillover.avail = 0) := by
  have hsp1 : (encodeFrame codec c).1.s.spillover = c.s.spillover := rfl
  have htr1 : (encodeFrame codec c).1.trace.all Ev.spillEmpty = true := by
    rw [encodeFrame_trace]
    simp [htr, hsp, Ev.spillEmpty]
  apply encodeRound_cases codec n c
    (fun st => (∀ r, st = Step.done r → r.trace.all Ev.spillEmpty = true) ∧
      (∀ c2, st = Step.more c2 →
        c2.trace.all Ev.spillEmpty = true ∧ c2.s.spillover.avail = 0))
  · intro _
    constructor
    · intro r h
      cases h
      simp only [internalError, List.all_append, htr1]
      simp [Ev.spillEmpty]
    · intro c2 h; cases h
  · intro out _ _
    constructor
    · intro r h; cases h
    · intro c2 h
      cases h
      constructor
      · rw [refetch_trace]
        have : (acceptEncoded (encodeFrame codec c).1 out).trace = (encodeFrame codec c).1.trace :=
          rfl
        rw [List.all_append, this, htr1]
        split <;> simp [Ev.spillEmpty]
      · rw [refetch_spillover]
        exact hsp
  · intro out _ _ _
    constructor
    · intro r h; cases h
    · intro c2 h
      cases h
      constructor
      · rw [refetch_trace, List.all_append, writeEncoded_trace, List.all_append]
        have : (acceptEncoded (encodeFrame codec c).1 out).trace = (encodeFrame codec c).1.trace :=
          rfl
        rw [this, htr1]
        split <;> split <;> simp [Ev.spillEmpty]
      · rw [refetch_spillover, writeEncoded_spillover]
        exact hsp
  · intro out _ _ _
    constructor
    · intro r h
      cases h
      simp only [returnWritten, swapSpillover, List.all_append, writeEncoded_trace,
        writeEncoded_spillover]
      have : (acceptEncoded (encodeFrame codec c).1 out).trace = (encodeFrame codec c).1.trace :=
        rfl
      have hs : (acceptEncoded (encodeFrame codec c).1 out).s.spillover = c.s.spillover := rfl
      rw [this, htr1, hs, hsp]
      split <;> simp [Ev.spillEmpty]
    · intro c2 h; cases h

theorem finalize_spillEmpty (codec : Codec) (c : Ctx)
    (htr : c.trace.all Ev.spillEmpty = true) :
    (finalize codec c).trace.all Ev.spillEmpty = true := by
  rw [finalize_trace, List.all_append, htr]
  split
  · split
    · split <;> simp [Ev.spillEmpty]
    · simp [Ev.spillEmpty]
  · simp

theorem encodeLoop_spillEmpty (codec : Codec) (n : Nat) : ∀ (fuel : Nat) (c : Ctx),
    c.s.spillover.avail = 0 → c.trace.all Ev.spillEmpty = true →
    (encodeLoop codec n fuel c).trace.all Ev.spillEmpty = true := by
  intro fuel
  induction fuel with
  | zero => intro c _ htr; exact finalize_spillEmpty codec c htr
  | succ fuel ih =>
    intro c hsp htr
    unfold encodeLoop
    split
    · have h := encodeRound_spillEmpty codec n c hsp htr
      split
      · next r hr => exact h.1 r hr
      · next c2 hc2 => exact ih c2 (h.2 c2 hc2).2 (h.2 c2 hc2).1
    · exact finalize_spillEmpty codec c htr

theorem Read_spillEmpty (codec : Codec) (s : TranscodingDataStream) (n : Nat) :
    (Read codec s n).trace.all Ev.spillEmpty = true := by
  unfold Read
  split
  · rfl
  · dsimp only
    have htr : (drainSpillover n (initEncoder
        { s := s, bytesWritten := 0, hasBuffer := false, dst := [], trace := [] })).trace.all
          Ev.spillEmpty = true := by
      rw [drainSpillover_trace, initEncoder_trace]
      simp only [List.all_append, List.nil_append]
      split <;> split <;> (try split) <;> (try split) <;> simp [Ev.spillEmpty]
    obtain ⟨a1, a2⟩ := drainSpillover_avail n (initEncoder
      { s := s, bytesWritten := 0, hasBuffer := false, dst := [], trace := [] })
    have hbw0 : (initEncoder
        { s := s, bytesWritten := 0, hasBuffer := false, dst := [], trace := [] }).bytesWritten
          = 0 := (initEncoder_frame _).2.1
    split
    · exact htr
    · next hne =>
      have hav : (drainSpillover n (initEncoder
          { s := s, bytesWritten := 0, hasBuffer := false, dst := [], trace := [] })).s.spillover.avail
            = 0 := by
        rw [a1]
        rw [a2, hbw0] at hne
        omega
      apply encodeLoop_spillEmpty
      · split
        · rw [fetch_spillover]; exact hav
        · exact hav
      · split
        · rw [fetch_trace, List.all_append, htr]
          simp [Ev.spillEmpty]
        · exact htr

theorem runTrace_spillEmpty (codec : Codec) : ∀ (caps : List Nat) (s : TranscodingDataStream),
    (runTrace codec s caps).all Ev.spillEmpty = true := by
  intro caps
  induction caps with
  | nil => intro s; rfl
  | cons n ns ih =>
    intro s
    simp only [runTrace, List.all_append, Read_spillEmpty, ih, Bool.and_self]

/-- C14 (spillover before encode): over any sequence of `Read` calls from any stream
state, with any capacities, whenever the encoder is invoked on a PCM frame the spillover
is empty (`avail = 0`), and whenever leftover bytes are stored into the spillover it was
empty immediately before: a store never lands on pending bytes, so the spillover never
holds more than one pending chunk. -/
theorem spillover_before_encode (codec : Codec) (s : TranscodingDataStream) (caps : List Nat)
    (e : Ev) (he : e ∈ runTrace codec s caps) :
    (∀ session pending result, e = Ev.encode session pending result → pending = 0) ∧
    (∀ before after, e = Ev.store before after → before = 0) := by
  have h := List.all_eq_true.mp (runTrace_spillEmpty codec caps s) e he
  constructor
  · intro session pending result heq
    rw [heq] at h
    simpa [Ev.spillEmpty] using h
  · intro before after heq
    rw [heq] at h
    simpa [Ev.spillEmpty] using h

/-- Witness for C14: a run in which the encoder is invoked twice and overflows once. -/
theorem spillover_before_encode_witness :
    Ev.store 0 2 ∈ runTrace codecThreeTwo
      (constructWithSink envTwoFrames "temp" "final" 128 [] true true) [1, 8, 8] ∧
    (∀ before after, Ev.store 0 2 = Ev.store before after → before = 0) :=
  ⟨by decide,
    (spillover_before_encode codecThreeTwo
      (constructWithSink envTwoFrames "temp" "final" 128 [] true true) [1, 8, 8]
      (Ev.store 0 2) (by decide)).2⟩


/-! ### C16: every read makes progress, and the drain loop of `Close` ends -/

theorem encodeRound_outFile (codec : Codec) (n : Nat) (c : Ctx) :
    (∀ r, encodeRound codec n c = Step.done r → r.state.eof = false →
      r.state.outFile = c.s.outFile) ∧
    (∀ c2, encodeRound codec n c = Step.more c2 → c2.s.outFile = c.s.outFile) := by
  have hf : ∀ x : Ctx, x.fetch.s.outFile = x.s.outFile := by
    intro x
    unfold Ctx.fetch getBuffer
    split
    · rfl
    · split <;> rfl
  have hre : ∀ x : Ctx, (refetch n x).s.outFile = x.s.outFile := by
    intro x
    unfold refetch
    split
    · exact hf x
    · rfl
  have hw : ∀ out, (writeEncoded n (acceptEncoded (encodeFrame codec c).1 out)).s.outFile
      = c.s.outFile := by
    intro out
    simp only [writeEncoded, sinkWrite_s]
    rfl
  apply encodeRound_cases codec n c
    (fun st => (∀ r, st = Step.done r → r.state.eof = false → r.state.outFile = c.s.outFile) ∧
      (∀ c2, st = Step.more c2 → c2.s.outFile = c.s.outFile))
  · intro _
    refine ⟨fun r h he => ?_, fun c2 h => ?_⟩
    · cases h
      cases he
    · cases h
  · intro out _ _
    refine ⟨fun r h _ => ?_, fun c2 h => ?_⟩
    · cases h
    · cases h
      rw [hre]
      rfl
  · intro out _ _ _
    refine ⟨fun r h _ => ?_, fun c2 h => ?_⟩
    · cases h
    · cases h
      rw [hre, hw]
  · intro out _ _ _
    refine ⟨fun r h _ => ?_, fun c2 h => ?_⟩
    · cases h
      simp only [returnWritten, swapSpillover, hw]
    · cases h

theorem flushCount_append (a b : List Ev) : flushCount (a ++ b) = flushCount a + flushCount b := by
  simp [flushCount, List.countP_append]

theorem lastEncoderOp_append (a b : List Ev) (e : Ev) (h : lastEncoderOp b = some e) :
    lastEncoderOp (a ++ b) = some e := by
  unfold lastEncoderOp at h ⊢
  rw [List.filter_append]
  cases hb : List.filter Ev.isEncoderOp b with
  | nil => rw [hb] at h; cases h
  | cons x xs =>
    rw [hb] at h
    rw [List.getLast?_append_of_ne_nil _ (by simp)]
    exact h

theorem fetch_framesLeft (c : Ctx) (h : c.fetch.hasBuffer = true) :
    framesLeft c.fetch.s < framesLeft c.s := by
  unfold Ctx.fetch getBuffer framesLeft at *
  cases hd : c.s.decoder with
  | none => simp [hd] at h
  | some d =>
    cases hf : d.frames with
    | nil => simp [hd, hf] at h
    | cons g rest => simp [hd, hf]

theorem refetch_facts (n : Nat) (c : Ctx) :
    flushCount (refetch n c).trace = flushCount c.trace ∧
    ((refetch n c).hasBuffer = true → framesLeft (refetch n c).s < framesLeft c.s) ∧
    ((refetch n c).hasBuffer = false → n > c.bytesWritten →
      Ev.fetch false ∈ (refetch n c).trace) := by
  unfold refetch
  split
  · refine ⟨?_, fetch_framesLeft c, fun h _ => ?_⟩
    · rw [fetch_trace, flushCount_append]
      simp [flushCount, Ev.isFlush]
    · rw [fetch_trace, h]
      simp
  · next hn =>
    refine ⟨rfl, fun h => ?_, fun _ h => absurd h hn⟩
    simp at h

/-- What the loop and the finalize block leave: either no flush was called, and `eof`
can then only come from an encode error; or the flush was called once, as the last
encoder operation, after a fetch that reported exhaustion, and `eof` is set. -/
theorem finalize_flushes (codec : Codec) (c : Ctx) (h0 : flushCount c.trace = 0)
    (he : c.s.eof = false) (hex : c.bytesWritten = 0 → Ev.fetch false ∈ c.trace) :
    (flushCount (finalize codec c).trace = 0 ∧
      ((finalize codec c).state.eof = true → none ∈ encodeResults (finalize codec c).trace)) ∨
    (flushCount (finalize codec c).trace = 1 ∧ (finalize codec c).state.eof = true ∧
      (∃ b k, lastEncoderOp (finalize codec c).trace = some (Ev.flush b k)) ∧
      Ev.fetch false ∈ (finalize codec c).trace) := by
  by_cases hb : c.bytesWritten = 0
  · right
    have htr := finalize_trace codec c
    rw [if_pos hb] at htr
    refine ⟨?_, (finalize_flush codec c hb).1, ⟨c.s.lame.isSome, (flushEncoder codec c).2.length, ?_⟩, ?_⟩
    · rw [htr, flushCount_append, h0]
      split <;> (try split) <;> simp [flushCount, Ev.isFlush]
    · rw [htr]
      apply lastEncoderOp_append
      split <;> (try split) <;> simp [lastEncoderOp, Ev.isEncoderOp]
    · rw [htr]
      exact List.mem_append_left _ (hex hb)
  · left
    have hfin : finalize codec c = returnWritten c := by
      unfold finalize
      rw [if_neg hb]
    rw [hfin]
    refine ⟨h0, fun h => ?_⟩
    simp only [returnWritten] at h
    rw [he] at h
    cases h

theorem framesLeft_writeEncoded (n : Nat) (c : Ctx) :
    framesLeft (writeEncoded n c).s = framesLeft c.s := by
  simp only [writeEncoded, sinkWrite_s, framesLeft]

theorem writeEncoded_eof (n : Nat) (c : Ctx) : (writeEncoded n c).s.eof = c.s.eof := by
  simp only [writeEncoded, sinkWrite_s]

theorem encodeRound_flushes (codec : Codec) (n : Nat) (c : Ctx)
    (h0 : flushCount c.trace = 0) (he : c.s.eof = false) :
    (∀ r, encodeRound codec n c = Step.done r →
      flushCount r.trace = 0 ∧ (r.state.eof = true → none ∈ encodeResults r.trace)) ∧
    (∀ c2, encodeRound codec n c = Step.more c2 →
      flushCount c2.trace = 0 ∧ c2.s.eof = false ∧
      (c2.hasBuffer = true → framesLeft c2.s < framesLeft c.s) ∧
      (c2.hasBuffer = false → n > c2.bytesWritten → Ev.fetch false ∈ c2.trace)) := by
  have hef : flushCount (encodeFrame codec c).1.trace = 0 := by
    rw [encodeFrame_trace, flushCount_append, h0]
    simp [flushCount, Ev.isFlush]
  apply encodeRound_cases codec n c
    (fun st =>
      (∀ r, st = Step.done r →
        flushCount r.trace = 0 ∧ (r.state.eof = true → none ∈ encodeResults r.trace)) ∧
      (∀ c2, st = Step.more c2 →
        flushCount c2.trace = 0 ∧ c2.s.eof = false ∧
        (c2.hasBuffer = true → framesLeft c2.s < framesLeft c.s) ∧
        (c2.hasBuffer = false → n > c2.bytesWritten → Ev.fetch false ∈ c2.trace)))
  · intro hnone
    refine ⟨fun r h => ?_, fun c2 h => ?_⟩
    · cases h
      simp only [internalError]
      refine ⟨?_, fun _ => ?_⟩
      · rw [flushCount_append, hef]
        simp [flushCount, Ev.isFlush]
      · rw [encodeResults_append, encodeFrame_results, hnone]
        simp
    · cases h
  · intro out _ _
    refine ⟨fun r h => ?_, fun c2 h => ?_⟩
    · cases h
    · cases h
      obtain ⟨f1, f2, f3⟩ := refetch_facts n (acceptEncoded (encodeFrame codec c).1 out)
      refine ⟨by rw [f1]; exact hef, by rw [refetch_eof]; exact he, f2, fun hnb hn => ?_⟩
      rw [refetch_bytesWritten] at hn
      exact f3 hnb hn
  · intro out _ _ _
    refine ⟨fun r h => ?_, fun c2 h => ?_⟩
    · cases h
    · cases h
      obtain ⟨f1, f2, f3⟩ := refetch_facts n
        (writeEncoded n (acceptEncoded (encodeFrame codec c).1 out))
      refine ⟨?_, by rw [refetch_eof, writeEncoded_eof]; exact he, fun hb => ?_,
        fun hnb hn => ?_⟩
      · rw [f1, writeEncoded_trace, flushCount_append]
        have : (acceptEncoded (encodeFrame codec c).1 out).trace =
          (encodeFrame codec c).1.trace := rfl
        rw [this, hef]
        split <;> simp [flushCount, Ev.isFlush]
      · have := f2 hb
        rw [framesLeft_writeEncoded] at this
        exact this
      · rw [refetch_bytesWritten] at hn
        exact f3 hnb hn
  · intro out _ _ _
    refine ⟨fun r h => ?_, fun c2 h => ?_⟩
    · cases h
      simp only [returnWritten, swapSpillover, writeEncoded_eof]
      refine ⟨?_, fun h => ?_⟩
      · rw [flushCount_append, writeEncoded_trace, flushCount_append]
        have : (acceptEncoded (encodeFrame codec c).1 out).trace =
          (encodeFrame codec c).1.trace := rfl
        rw [this, hef]
        split <;> simp [flushCount, Ev.isFlush]
      · have e : (acceptEncoded (encodeFrame codec c).1 out).s.eof = c.s.eof := rfl
        rw [e, he] at h
        cases h
    · cases h

theorem encodeRound_bytesWritten_mono (codec : Codec) (n : Nat) (c : Ctx) :
    ∀ c2, encodeRound codec n c = Step.more c2 → c.bytesWritten ≤ c2.bytesWritten := by
  apply encodeRound_cases codec n c
    (fun st => ∀ c2, st = Step.more c2 → c.bytesWritten ≤ c2.bytesWritten)
  · intro _ c2 h; cases h
  · intro out _ _ c2 h
    cases h
    rw [refetch_bytesWritten]
    exact Nat.le_refl _
  · intro out _ _ _ c2 h
    cases h
    rw [refetch_bytesWritten, writeEncoded_bytesWritten]
    exact Nat.le_add_right _ _
  · intro out _ _ _ c2 h; cases h

theorem encodeLoop_flushes (codec : Codec) (n : Nat) : ∀ (fuel : Nat) (c : Ctx),
    flushCount c.trace = 0 → c.s.eof = false →
    (c.bytesWritten = 0 → 0 < n ∧ (c.hasBuffer = false → Ev.fetch false ∈ c.trace)) →
    (c.hasBuffer = true → framesLeft c.s < fuel) →
    (flushCount (encodeLoop codec n fuel c).trace = 0 ∧
      ((encodeLoop codec n fuel c).state.eof = true →
        none ∈ encodeResults (encodeLoop codec n fuel c).trace)) ∨
    (flushCount (encodeLoop codec n fuel c).trace = 1 ∧
      (encodeLoop codec n fuel c).state.eof = true ∧
      (∃ b k, lastEncoderOp (encodeLoop codec n fuel c).trace = some (Ev.flush b k)) ∧
      Ev.fetch false ∈ (encodeLoop codec n fuel c).trace) := by
  intro fuel
  induction fuel with
  | zero =>
    intro c h0 he hinv hfuel
    have hnb : c.hasBuffer = false := by
      cases hb : c.hasBuffer with
      | false => rfl
      | true => exact absurd (hfuel hb) (Nat.not_lt_zero _)
    rw [encodeLoop]
    exact finalize_flushes codec c h0 he (fun hb => (hinv hb).2 hnb)
  | succ fuel ih =>
    intro c h0 he hinv hfuel
    unfold encodeLoop
    by_cases hcond : (c.hasBuffer && decide (c.bytesWritten < n)) = true
    · rw [if_pos hcond]
      simp only [Bool.and_eq_true, decide_eq_true_eq] at hcond
      obtain ⟨hhb, hlt⟩ := hcond
      have hfl := hfuel hhb
      have hr := encodeRound_flushes codec n c h0 he
      cases hX : encodeRound codec n c with
      | done r =>
        simp only
        exact Or.inl (hr.1 r hX)
      | more c2 =>
        simp only
        obtain ⟨g1, g2, g3, g4⟩ := hr.2 c2 hX
        have hmono := encodeRound_bytesWritten_mono codec n c c2 hX
        apply ih c2 g1 g2
        · intro hb
          exact ⟨by omega, fun hnb => g4 hnb (by omega)⟩
        · intro hb
          have := g3 hb
          omega
    · rw [if_neg hcond]
      apply finalize_flushes codec c h0 he
      intro hb
      obtain ⟨hn, hf⟩ := hinv hb
      apply hf
      cases hhb : c.hasBuffer with
      | false => rfl
      | true =>
        exfalso
        apply hcond
        simp only [hhb, Bool.true_and, decide_eq_true_eq]
        omega


theorem Read_flushes (codec : Codec) (s : TranscodingDataStream) (n : Nat) :
    (flushCount (Read codec s n).trace = 0 ∧
      ((Read codec s n).state.eof = true →
        s.eof = true ∨ none ∈ encodeResults (Read codec s n).trace)) ∨
    (flushCount (Read codec s n).trace = 1 ∧ (Read codec s n).state.eof = true ∧
      (∃ b k, lastEncoderOp (Read codec s n).trace = some (Ev.flush b k)) ∧
      Ev.fetch false ∈ (Read codec s n).trace) := by
  unfold Read
  by_cases hg : (s.eof || s.pcmBuffer.isNone) = true
  · rw [if_pos hg]
    exact Or.inl ⟨rfl, fun h => Or.inl h⟩
  · rw [if_neg hg]
    dsimp only
    have heof : s.eof = false := by
      cases he : s.eof with
      | false => rfl
      | true => simp [he] at hg
    have h1 : flushCount (drainSpillover n (initEncoder
        { s := s, bytesWritten := 0, hasBuffer := false, dst := [], trace := [] })).trace = 0 := by
      rw [drainSpillover_trace, initEncoder_trace]
      simp only [flushCount_append, List.nil_append]
      split <;> split <;> (try split) <;> (try split) <;> simp [flushCount, Ev.isFlush]
    have he1 : (drainSpillover n (initEncoder
        { s := s, bytesWritten := 0, hasBuffer := false, dst := [], trace := [] })).s.eof = false := by
      rw [(drainSpillover_frame n _).1, (initEncoder_frame _).1]
      exact heof
    by_cases hfull : (drainSpillover n (initEncoder
        { s := s, bytesWritten := 0, hasBuffer := false, dst := [], trace := [] })).bytesWritten = n
    · rw [if_pos hfull]
      left
      refine ⟨h1, fun h => ?_⟩
      simp only [returnWritten] at h
      rw [he1] at h
      cases h
    · rw [if_neg hfull]
      have key : ∀ c : Ctx, flushCount c.trace = 0 → c.s.eof = false →
          (c.bytesWritten = 0 → 0 < n ∧ (c.hasBuffer = false → Ev.fetch false ∈ c.trace)) →
          (flushCount (encodeLoop codec n (framesLeft c.s + 1) c).trace = 0 ∧
            ((encodeLoop codec n (framesLeft c.s + 1) c).state.eof = true →
              s.eof = true ∨
                none ∈ encodeResults (encodeLoop codec n (framesLeft c.s + 1) c).trace)) ∨
          (flushCount (encodeLoop codec n (framesLeft c.s + 1) c).trace = 1 ∧
            (encodeLoop codec n (framesLeft c.s + 1) c).state.eof = true ∧
            (∃ b k, lastEncoderOp (encodeLoop codec n (framesLeft c.s + 1) c).trace =
              some (Ev.flush b k)) ∧
            Ev.fetch false ∈ (encodeLoop codec n (framesLeft c.s + 1) c).trace) := by
        intro c a1 a2 a3
        rcases encodeLoop_flushes codec n (framesLeft c.s + 1) c a1 a2 a3
          (fun _ => Nat.lt_succ_self _) with h | h
        · exact Or.inl ⟨h.1, fun he => Or.inr (h.2 he)⟩
        · exact Or.inr h
      by_cases hhb : (drainSpillover n (initEncoder
          { s := s, bytesWritten := 0, hasBuffer := false, dst := [], trace := [] })).hasBuffer
            = true
      · rw [if_neg (by simp [hhb])]
        apply key _ h1 he1
        intro hb
        refine ⟨?_, fun hnb => ?_⟩
        · rw [hb] at hfull
          omega
        · rw [hhb] at hnb
          cases hnb
      · rw [if_pos (by simpa using hhb)]
        apply key
        · rw [fetch_trace, flushCount_append, h1]
          simp [flushCount, Ev.isFlush]
        · rw [fetch_eof]; exact he1
        · intro hb
          rw [fetch_bytesWritten] at hb
          refine ⟨?_, fun hnb => ?_⟩
          · rw [hb] at hfull
            omega
          · rw [fetch_trace, hnb]
            simp

theorem runTrace_at_eof (codec : Codec) (caps : List Nat) (s : TranscodingDataStream)
    (h : s.eof = true) : runTrace codec s caps = [] := by
  induction caps with
  | nil => rfl
  | cons n ns ih => simp only [runTrace, Read_at_eof codec s n h, ih, List.append_nil]

theorem runTrace_flushes (codec : Codec) : ∀ (caps : List Nat) (s : TranscodingDataStream),
    flushCount (runTrace codec s caps) ≤ 1 ∧
    (flushCount (runTrace codec s caps) = 1 →
      ∃ b k, lastEncoderOp (runTrace codec s caps) = some (Ev.flush b k)) ∧
    ((afterReads codec s caps).eof = true →
      s.eof = true ∨ none ∈ encodeResults (runTrace codec s caps) ∨
        flushCount (runTrace codec s caps) = 1) := by
  intro caps
  induction caps with
  | nil =>
    intro s
    refine ⟨by simp [runTrace, flushCount], fun h => ?_, fun h => Or.inl h⟩
    simp [runTrace, flushCount] at h
  | cons n ns ih =>
    intro s
    simp only [runTrace, afterReads]
    rcases Read_flushes codec s n with ⟨a1, a2⟩ | ⟨b1, b2, b3, _⟩
    · obtain ⟨i1, i2, i3⟩ := ih (Read codec s n).state
      rw [flushCount_append, a1, Nat.zero_add, encodeResults_append]
      refine ⟨i1, fun h => ?_, fun h => ?_⟩
      · obtain ⟨b, k, hb⟩ := i2 h
        exact ⟨b, k, lastEncoderOp_append _ _ _ hb⟩
      · rcases i3 h with h1 | h1 | h1
        · rcases a2 h1 with h2 | h2
          · exact Or.inl h2
          · exact Or.inr (Or.inl (List.mem_append_left _ h2))
        · exact Or.inr (Or.inl (List.mem_append_right _ h1))
        · exact Or.inr (Or.inr h1)
    · rw [runTrace_at_eof codec ns _ b2, List.append_nil, b1]
      exact ⟨Nat.le_refl 1, fun _ => b3, fun _ => Or.inr (Or.inr rfl)⟩

/-- C15 (flush exactly once): over any sequence of `Read` calls on one stream, whatever
the capacities, `lame_encode_flush` is invoked at most once, and a `Read` call invokes it
only if a fetch of that call reported exhaustion; on every clean run (no encode error)
that takes a stream that is not at `eof` to `eof` it is invoked exactly once, and it is
the last encoder operation of the run. -/
theorem flush_exactly_once (codec : Codec) (s : TranscodingDataStream) (caps : List Nat)
    (n : Nat) :
    flushCount (runTrace codec s caps) ≤ 1 ∧
    (0 < flushCount (Read codec (afterReads codec s caps) n).trace →
      Ev.fetch false ∈ (Read codec (afterReads codec s caps) n).trace) ∧
    (s.eof = false → (afterReads codec s caps).eof = true →
      none ∉ encodeResults (runTrace codec s caps) →
      flushCount (runTrace codec s caps) = 1 ∧
      ∃ b k, lastEncoderOp (runTrace codec s caps) = some (Ev.flush b k)) := by
  obtain ⟨i1, i2, i3⟩ := runTrace_flushes codec caps s
  refine ⟨i1, fun h => ?_, fun h0 he hclean => ?_⟩
  · rcases Read_flushes codec (afterReads codec s caps) n with ⟨a1, _⟩ | ⟨_, _, _, b4⟩
    · omega
    · exact b4
  · rcases i3 he with h1 | h1 | h1
    · rw [h0] at h1; cases h1
    · exact absurd h1 hclean
    · exact ⟨h1, i2 h1⟩

/-- Witness for C15: a clean run over two frames, read as `1, 8, 8`. -/
theorem flush_exactly_once_witness :
    (constructWithSink envTwoFrames "temp" "final" 128 [] true true).eof = false ∧
    (afterReads codecThreeTwo
      (constructWithSink envTwoFrames "temp" "final" 128 [] true true) [1, 8, 8]).eof = true ∧
    flushCount (runTrace codecThreeTwo
      (constructWithSink envTwoFrames "temp" "final" 128 [] true true) [1, 8, 8]) = 1 :=
  ⟨by decide, by decide,
    ((flush_exactly_once codecThreeTwo
      (constructWithSink envTwoFrames "temp" "final" 128 [] true true) [1, 8, 8] 8).2.2
        (by decide) (by decide) (by decide)).1⟩


/-! ### C19: the stored volume of the PulseAudio output -/

theorem clampVolume_num (q : ℚ) :
    PulseOut.clampVolume (Double.num q) = Double.num (min 1 (max 0 q)) := by
  unfold PulseOut.clampVolume
  dsimp only
  by_cases h1 : (1 : ℚ) < q
  · have hr : min 1 (max 0 q) = 1 := by
      rw [max_eq_right (by linarith), min_eq_left (by linarith)]
    have h3 : ¬ ((1 : ℚ) < 0) := by norm_num
    rw [hr]
    simp [Double.gt, Double.lt, h1, h3]
  · by_cases h0 : q < 0
    · have hr : min 1 (max 0 q) = 0 := by
        rw [max_eq_left (by linarith), min_eq_right (by norm_num)]
      rw [hr]
      simp [Double.gt, Double.lt, h1, h0]
    · have hr : min 1 (max 0 q) = q := by
        rw [max_eq_right (by linarith), min_eq_right (by linarith)]
      rw [hr]
      simp [Double.gt, Double.lt, h1, h0]

theorem clampVolume_posInf : PulseOut.clampVolume Double.posInf = Double.num 1 := by
  simp [PulseOut.clampVolume, Double.gt, Double.lt]

theorem clampVolume_negInf : PulseOut.clampVolume Double.negInf = Double.num 0 := by
  simp [PulseOut.clampVolume, Double.gt, Double.lt]

theorem clampVolume_nan : PulseOut.clampVolume Double.nan = Double.nan := by
  simp [PulseOut.clampVolume, Double.gt, Double.lt]

theorem clampVolume_inUnit (v : Double) (hv : v ≠ Double.nan) :
    (PulseOut.clampVolume v).inUnit := by
  cases v with
  | num q =>
    rw [clampVolume_num]
    exact ⟨le_min (by norm_num) (le_max_left _ _), min_le_left _ _⟩
  | posInf => rw [clampVolume_posInf]; simp [Double.inUnit]
  | negInf => rw [clampVolume_negInf]; simp [Double.inUnit]
  | nan => exact absurd rfl hv

theorem clampVolume_of_inUnit (v : Double) (h : v.inUnit) : PulseOut.clampVolume v = v := by
  cases v with
  | num q =>
    obtain ⟨h0, h1⟩ := h
    rw [clampVolume_num, max_eq_right h0, min_eq_right h1]
  | posInf => exact absurd h (by simp [Double.inUnit])
  | negInf => exact absurd h (by simp [Double.inUnit])
  | nan => exact absurd h (by simp [Double.inUnit])

theorem SetVolume_volume (p : PulseOut) (v : Double) :
    (PulseOut.SetVolume p v).1.volume = PulseOut.clampVolume v := by
  unfold PulseOut.SetVolume
  dsimp only
  split <;> rfl

theorem SetVolume_audioConnection (p : PulseOut) (v : Double) :
    (PulseOut.SetVolume p v).1.audioConnection = p.audioConnection := by
  unfold PulseOut.SetVolume
  dsimp only
  split <;> rfl

theorem SetVolume_state (p : PulseOut) (v : Double) :
    (PulseOut.SetVolume p v).1.state = p.state := by
  unfold PulseOut.SetVolume
  dsimp only
  split <;> rfl

theorem CloseDevice_volume (p : PulseOut) : (PulseOut.CloseDevice p).1.volume = p.volume := by
  unfold PulseOut.CloseDevice
  split <;> rfl

theorem connect_volume (p : PulseOut) (buffer : Frame) (h : p.volume.inUnit) :
    (PulseOut.connect p buffer).1.volume = p.volume := by
  unfold PulseOut.connect
  dsimp only
  split
  · rw [SetVolume_volume]
    exact clampVolume_of_inUnit _ h
  · rfl

theorem OpenDevice_volume (p : PulseOut) (buffer : Frame) (h : p.volume.inUnit) :
    (PulseOut.OpenDevice p buffer).1.volume = p.volume := by
  unfold PulseOut.OpenDevice
  split
  · dsimp only
    rw [connect_volume _ _ (by rw [CloseDevice_volume]; exact h), CloseDevice_volume]
  · rfl

theorem Play_volume (k : OutputCodes) (p : PulseOut) (buffer : Frame) (h : p.volume.inUnit) :
    (PulseOut.Play k p buffer).state.volume = p.volume := by
  have ho := OpenDevice_volume p buffer h
  unfold PulseOut.Play
  split
  · rfl
  · dsimp only
    split
    · exact ho
    · unfold PulseOut.writeBuffer
      dsimp only
      split
      · rw [SetVolume_volume, ho]
        exact clampVolume_of_inUnit _ h
      · exact ho

theorem step_inUnit (k : OutputCodes) (p : PulseOut) (op : PulseOut.Op) (h : p.volume.inUnit)
    (hop : ∀ w, op = PulseOut.Op.setVolume w → w ≠ Double.nan) :
    (PulseOut.step k p op).volume.inUnit := by
  cases op with
  | setVolume v =>
    show (PulseOut.SetVolume p v).1.volume.inUnit
    rw [SetVolume_volume]
    exact clampVolume_inUnit v (hop v rfl)
  | play buffer =>
    show (PulseOut.Play k p buffer).state.volume.inUnit
    rw [Play_volume k p buffer h]
    exact h
  | stop =>
    show (PulseOut.Stop p).1.volume.inUnit
    unfold PulseOut.Stop
    split <;> exact h
  | pause =>
    show (PulseOut.Pause p).1.volume.inUnit
    unfold PulseOut.Pause
    split <;> exact h
  | resume =>
    show (PulseOut.Resume p).1.volume.inUnit
    unfold PulseOut.Resume
    split <;> exact h
  | drain =>
    show (PulseOut.Drain p).1.volume.inUnit
    unfold PulseOut.Drain
    split <;> exact h

theorem run_inUnit (k : OutputCodes) (ops : List PulseOut.Op) :
    ∀ p : PulseOut, p.volume.inUnit →
      (∀ w, PulseOut.Op.setVolume w ∈ ops → w ≠ Double.nan) →
      (PulseOut.run k p ops).volume.inUnit := by
  induction ops with
  | nil => intro p h _; exact h
  | cons op rest ih =>
    intro p h hops
    show (PulseOut.run k (PulseOut.step k p op) rest).volume.inUnit
    apply ih
    · exact step_inUnit k p op h (fun w hw => hops w (by rw [hw]; exact List.mem_cons_self _ _))
    · exact fun w hw => hops w (List.mem_cons_of_mem _ hw)

theorem construct_inUnit (server : Server) : (PulseOut.construct server).volume.inUnit := by
  simp [PulseOut.construct, Double.inUnit]


/-- C19 (volume clamping), amended: for every value `v` other than a NaN, after
`SetVolume(v)` on any object `p` (with or without an open connection) `GetVolume()`
returns `min(1, max(0, v))`: that number for a finite `v`, 1 for `+inf` and 0 for `-inf`,
a number of `[0, 1]` in each case. In every state `s` reached from the constructor by
calls of the public methods in which no NaN is passed to `SetVolume`, the stored volume
lies in `[0, 1]` and `SetVolume(GetVolume())` leaves it unchanged. -/
theorem volume_clamped (k : OutputCodes) (server : Server) (p : PulseOut) (v : Double)
    (ops : List PulseOut.Op) (hv : v ≠ Double.nan)
    (hops : ∀ w, PulseOut.Op.setVolume w ∈ ops → w ≠ Double.nan) :
    (∀ q, v = Double.num q →
      PulseOut.GetVolume (PulseOut.SetVolume p v).1 = Double.num (min 1 (max 0 q))) ∧
    (v = Double.posInf → PulseOut.GetVolume (PulseOut.SetVolume p v).1 = Double.num 1) ∧
    (v = Double.negInf → PulseOut.GetVolume (PulseOut.SetVolume p v).1 = Double.num 0) ∧
    (PulseOut.GetVolume (PulseOut.SetVolume p v).1).inUnit ∧
    PulseOut.GetVolume (PulseOut.SetVolume (PulseOut.SetVolume p v).1
      (PulseOut.GetVolume (PulseOut.SetVolume p v).1)).1 =
        PulseOut.GetVolume (PulseOut.SetVolume p v).1 ∧
    (PulseOut.GetVolume (PulseOut.run k (PulseOut.construct server) ops)).inUnit ∧
    PulseOut.GetVolume (PulseOut.SetVolume (PulseOut.run k (PulseOut.construct server) ops)
      (PulseOut.GetVolume (PulseOut.run k (PulseOut.construct server) ops))).1 =
        PulseOut.GetVolume (PulseOut.run k (PulseOut.construct server) ops) := by
  have hin := clampVolume_inUnit v hv
  have hrun := run_inUnit k ops (PulseOut.construct server) (construct_inUnit server) hops
  simp only [PulseOut.GetVolume, SetVolume_volume]
  refine ⟨?_, ?_, ?_, hin, clampVolume_of_inUnit _ hin, hrun, clampVolume_of_inUnit _ hrun⟩
  · intro q hq
    rw [hq, clampVolume_num]
  · intro h
    rw [h, clampVolume_posInf]
  · intro h
    rw [h, clampVolume_negInf]

theorem volume_clamped_witness :
    (Double.num 2 ≠ Double.nan ∧
      ∀ w, PulseOut.Op.setVolume w ∈
        [PulseOut.Op.play frameA, PulseOut.Op.setVolume (Double.num 2), PulseOut.Op.stop] →
          w ≠ Double.nan) ∧
    PulseOut.GetVolume (PulseOut.SetVolume outPlaying (Double.num 2)).1 =
      Double.num (min 1 (max 0 2)) ∧
    (PulseOut.GetVolume (PulseOut.run codes (PulseOut.construct serverUp)
      [PulseOut.Op.play frameA, PulseOut.Op.setVolume (Double.num 2),
        PulseOut.Op.stop])).inUnit :=
  ⟨⟨by simp, by simp⟩,
    (volume_clamped codes serverUp outPlaying (Double.num 2)
      [PulseOut.Op.play frameA, PulseOut.Op.setVolume (Double.num 2), PulseOut.Op.stop]
      (by simp) (by simp)).1 2 rfl,
    (volume_clamped codes serverUp outPlaying (Double.num 2)
      [PulseOut.Op.play frameA, PulseOut.Op.setVolume (Double.num 2), PulseOut.Op.stop]
      (by simp) (by simp)).2.2.2.2.2.1⟩

/-- C19, as stated, fails at a NaN: both comparisons of `SetVolume` are false on it, so
it is stored as it is, with or without an open connection, and `GetVolume()` returns it:
not a number, not 0 or 1, and nothing in `[0, 1]`. -/
theorem volume_clamped_counterexample :
    (PulseOut.construct serverDown).audioConnection = false ∧
    PulseOut.GetVolume (PulseOut.SetVolume (PulseOut.construct serverDown) Double.nan).1 =
      Double.nan ∧
    outPlaying.audioConnection = true ∧
    PulseOut.GetVolume (PulseOut.SetVolume outPlaying Double.nan).1 = Double.nan ∧
    (PulseOut.SetVolume outPlaying Double.nan).2 =
      [PaEv.setVolume false Double.nan true] ∧
    (∀ q, PulseOut.GetVolume (PulseOut.SetVolume outPlaying Double.nan).1 ≠ Double.num q) ∧
    ¬ (PulseOut.GetVolume (PulseOut.SetVolume outPlaying Double.nan).1).inUnit := by
  have h : ∀ p, PulseOut.GetVolume (PulseOut.SetVolume p Double.nan).1 = Double.nan :=
    fun p => by rw [PulseOut.GetVolume, SetVolume_volume, clampVolume_nan]
  refine ⟨rfl, h _, rfl, h _, ?_, ?_, ?_⟩
  · simp [PulseOut.SetVolume, clampVolume_nan, outPlaying, serverUp]
  · intro q
    rw [h]
    simp
  · rw [h]
    simp [Double.inUnit]


/-! ### C20: when `Play` writes -/

/-- Neither a write to the device nor a notification of the buffer provider. -/
theorem SetVolume_quiet (p : PulseOut) (v : Double) (e : PaEv)
    (he : e ∈ (PulseOut.SetVolume p v).2) :
    (∀ n, e ≠ PaEv.write n) ∧ e ≠ PaEv.onBufferProcessed := by
  unfold PulseOut.SetVolume at he
  dsimp only at he
  split at he
  · simp only [List.mem_singleton] at he
    subst he
    exact ⟨fun n => by simp, by simp⟩
  · simp at he

theorem CloseDevice_quiet (p : PulseOut) (e : PaEv) (he : e ∈ (PulseOut.CloseDevice p).2) :
    (∀ n, e ≠ PaEv.write n) ∧ e ≠ PaEv.onBufferProcessed := by
  unfold PulseOut.CloseDevice at he
  split at he
  · simp only [List.mem_cons, List.mem_singleton, List.not_mem_nil, or_false] at he
    rcases he with he | he <;> subst he <;> exact ⟨fun n => by simp, by simp⟩
  · simp at he

theorem connect_quiet (p : PulseOut) (buffer : Frame) (e : PaEv)
    (he : e ∈ (PulseOut.connect p buffer).2) :
    (∀ n, e ≠ PaEv.write n) ∧ e ≠ PaEv.onBufferProcessed := by
  unfold PulseOut.connect at he
  dsimp only at he
  split at he
  · rcases List.mem_cons.mp he with he | he
    · subst he
      exact ⟨fun n => by simp, by simp⟩
    · exact SetVolume_quiet _ _ e he
  · simp only [List.mem_singleton] at he
    subst he
    exact ⟨fun n => by simp, by simp⟩

theorem OpenDevice_quiet (p : PulseOut) (buffer : Frame) (e : PaEv)
    (he : e ∈ (PulseOut.OpenDevice p buffer).2) :
    (∀ n, e ≠ PaEv.write n) ∧ e ≠ PaEv.onBufferProcessed := by
  unfold PulseOut.OpenDevice at he
  split at he
  · rcases List.mem_append.mp he with he | he
    · exact CloseDevice_quiet _ e he
    · exact connect_quiet _ _ e he
  · simp at he

/-- With a connection open in the format of the buffer, `OpenDevice` does nothing. -/
theorem OpenDevice_same (p : PulseOut) (buffer : Frame) (hc : p.audioConnection = true)
    (hr : p.rate = buffer.sampleRate) (hch : p.channels = buffer.channels) :
    PulseOut.OpenDevice p buffer = (p, []) := by
  simp [PulseOut.OpenDevice, hc, hr, hch]

theorem Play_paused (k : OutputCodes) (p : PulseOut) (buffer : Frame)
    (h : p.state = State.StatePaused) :
    PulseOut.Play k p buffer = { state := p, ret := k.OutputInvalidState, trace := [] } := by
  simp [PulseOut.Play, h]

theorem Play_refused (k : OutputCodes) (p : PulseOut) (buffer : Frame)
    (h : p.state ≠ State.StatePaused)
    (ho : (PulseOut.OpenDevice p buffer).1.audioConnection = false ∨
      (PulseOut.OpenDevice p buffer).1.state ≠ State.StatePlaying) :
    PulseOut.Play k p buffer =
      { state := (PulseOut.OpenDevice p buffer).1, ret := k.OutputInvalidState,
        trace := (PulseOut.OpenDevice p buffer).2 } := by
  unfold PulseOut.Play
  rw [if_neg h]
  dsimp only
  rw [if_pos]
  rcases ho with ho | ho
  · simp [ho]
  · simp [ho]

theorem Play_written (k : OutputCodes) (p : PulseOut) (buffer : Frame)
    (h : p.state ≠ State.StatePaused)
    (hc : (PulseOut.OpenDevice p buffer).1.audioConnection = true)
    (hs : (PulseOut.OpenDevice p buffer).1.state = State.StatePlaying) :
    PulseOut.Play k p buffer =
      PulseOut.writeBuffer k (PulseOut.OpenDevice p buffer).1 buffer
        (PulseOut.OpenDevice p buffer).2 := by
  unfold PulseOut.Play
  rw [if_neg h]
  dsimp only
  rw [if_neg]
  simp [hc, hs]

theorem writeBuffer_trace (k : OutputCodes) (p : PulseOut) (buffer : Frame)
    (opened : List PaEv)
    (hq : ∀ e ∈ opened, (∀ n, e ≠ PaEv.write n) ∧ e ≠ PaEv.onBufferProcessed) :
    ∃ pre, (PulseOut.writeBuffer k p buffer opened).trace =
        pre ++ [PaEv.write (buffer.samples.length * 4), PaEv.onBufferProcessed] ∧
      (∀ n, PaEv.write n ∉ pre) ∧ PaEv.onBufferProcessed ∉ pre := by
  unfold PulseOut.writeBuffer
  dsimp only
  refine ⟨_, rfl, ?_, ?_⟩
  · intro n hn
    rcases List.mem_append.mp hn with hn | hn
    · exact (hq _ hn).1 n rfl
    · split at hn
      · exact (SetVolume_quiet _ _ _ hn).1 n rfl
      · simp at hn
  · intro hn
    rcases List.mem_append.mp hn with hn | hn
    · exact (hq _ hn).2 rfl
    · split at hn
      · exact (SetVolume_quiet _ _ _ hn).2 rfl
      · simp at hn


/-- C20 (playback state gating). `Play` returns `OutputInvalidState`, with no write to the
device and no notification of the buffer provider, when the state is Paused on entry
(nothing is done at all) and when, after `OpenDevice`, there is no connection or the state
is not Playing (only the calls of `OpenDevice` are made); such is the case after `Stop`
on a connection in the format of the buffer, where nothing is called. In every other case
`Play` returns `OutputBufferWritten`, and its calls end with the one write of
`Samples() * sizeof(float)` bytes and the one notification of the provider. `Stop`,
`Pause` and `Resume` leave the object as it is and call nothing unless a connection is
open, and set the state to Stopped, Paused and Playing when one is. -/
theorem play_gating (k : OutputCodes) (p : PulseOut) (buffer : Frame) :
    (p.state = State.StatePaused →
      (PulseOut.Play k p buffer).ret = k.OutputInvalidState ∧
      (PulseOut.Play k p buffer).trace = [] ∧
      (PulseOut.Play k p buffer).state = p) ∧
    (p.state ≠ State.StatePaused →
      ((PulseOut.OpenDevice p buffer).1.audioConnection = false ∨
        (PulseOut.OpenDevice p buffer).1.state ≠ State.StatePlaying) →
      (PulseOut.Play k p buffer).ret = k.OutputInvalidState ∧
      (PulseOut.Play k p buffer).trace = (PulseOut.OpenDevice p buffer).2 ∧
      (∀ n, PaEv.write n ∉ (PulseOut.Play k p buffer).trace) ∧
      PaEv.onBufferProcessed ∉ (PulseOut.Play k p buffer).trace) ∧
    (p.state ≠ State.StatePaused →
      (PulseOut.OpenDevice p buffer).1.audioConnection = true →
      (PulseOut.OpenDevice p buffer).1.state = State.StatePlaying →
      (PulseOut.Play k p buffer).ret = k.OutputBufferWritten ∧
      (PulseOut.Play k p buffer).trace.count PaEv.onBufferProcessed = 1 ∧
      ∃ pre, (PulseOut.Play k p buffer).trace =
          pre ++ [PaEv.write (buffer.samples.length * 4), PaEv.onBufferProcessed] ∧
        (∀ n, PaEv.write n ∉ pre) ∧ PaEv.onBufferProcessed ∉ pre) ∧
    (p.audioConnection = true → p.rate = buffer.sampleRate →
      p.channels = buffer.channels →
      (PulseOut.Play k (PulseOut.Stop p).1 buffer).ret = k.OutputInvalidState ∧
      (PulseOut.Play k (PulseOut.Stop p).1 buffer).trace = []) ∧
    (p.audioConnection = false →
      PulseOut.Stop p = (p, []) ∧ PulseOut.Pause p = (p, []) ∧
      PulseOut.Resume p = (p, [])) ∧
    (p.audioConnection = true →
      (PulseOut.Stop p).1.state = State.StateStopped ∧
      (PulseOut.Pause p).1.state = State.StatePaused ∧
      (PulseOut.Resume p).1.state = State.StatePlaying) := by
  refine ⟨?_, ?_, ?_, ?_, ?_, ?_⟩
  · intro h
    rw [Play_paused k p buffer h]
    exact ⟨rfl, rfl, rfl⟩
  · intro h ho
    rw [Play_refused k p buffer h ho]
    exact ⟨rfl, rfl, fun n hn => (OpenDevice_quiet p buffer _ hn).1 n rfl,
      fun hn => (OpenDevice_quiet p buffer _ hn).2 rfl⟩
  · intro h hc hs
    rw [Play_written k p buffer h hc hs]
    obtain ⟨pre, hpre, hw, hn⟩ :=
      writeBuffer_trace k (PulseOut.OpenDevice p buffer).1 buffer
        (PulseOut.OpenDevice p buffer).2 (OpenDevice_quiet p buffer)
    refine ⟨rfl, ?_, pre, hpre, hw, hn⟩
    rw [hpre, List.count_append, List.count_eq_zero_of_not_mem hn]
    simp
  · intro hc hr hch
    have hstop : PulseOut.Stop p = ({ p with state := State.StateStopped }, [PaEv.flush]) := by
      simp [PulseOut.Stop, hc]
    have hopen := OpenDevice_same (PulseOut.Stop p).1 buffer
      (by rw [hstop]; exact hc) (by rw [hstop]; exact hr) (by rw [hstop]; exact hch)
    have hne : (PulseOut.Stop p).1.state ≠ State.StatePaused := by
      rw [hstop]
      simp
    rw [Play_refused k _ buffer hne (Or.inr (by rw [hopen, hstop]; simp)), hopen]
    exact ⟨rfl, rfl⟩
  · intro hc
    simp [PulseOut.Stop, PulseOut.Pause, PulseOut.Resume, hc]
  · intro hc
    simp [PulseOut.Stop, PulseOut.Pause, PulseOut.Resume, hc]

theorem play_gating_witness :
    ((PulseOut.Pause outPlaying).1.state = State.StatePaused ∧
      (PulseOut.Play codes (PulseOut.Pause outPlaying).1 frameA).ret = -3 ∧
      (PulseOut.Play codes (PulseOut.Pause outPlaying).1 frameA).trace = []) ∧
    (((PulseOut.construct serverDown).state ≠ State.StatePaused ∧
        (PulseOut.OpenDevice (PulseOut.construct serverDown) frameA).1.audioConnection =
          false) ∧
      (PulseOut.Play codes (PulseOut.construct serverDown) frameA).ret = -3 ∧
      PaEv.onBufferProcessed ∉
        (PulseOut.Play codes (PulseOut.construct serverDown) frameA).trace) ∧
    (((PulseOut.construct serverUp).state ≠ State.StatePaused ∧
        (PulseOut.OpenDevice (PulseOut.construct serverUp) frameA).1.audioConnection = true ∧
        (PulseOut.OpenDevice (PulseOut.construct serverUp) frameA).1.state =
          State.StatePlaying) ∧
      (PulseOut.Play codes (PulseOut.construct serverUp) frameA).ret = 0 ∧
      (PulseOut.Play codes (PulseOut.construct serverUp) frameA).trace.count
        PaEv.onBufferProcessed = 1) ∧
    ((outPlaying.audioConnection = true ∧ outPlaying.rate = frameA.sampleRate ∧
        outPlaying.channels = frameA.channels) ∧
      (PulseOut.Play codes (PulseOut.Stop outPlaying).1 frameA).ret = -3 ∧
      (PulseOut.Play codes (PulseOut.Stop outPlaying).1 frameA).trace = []) ∧
    ((PulseOut.construct serverDown).audioConnection = false ∧
      PulseOut.Stop (PulseOut.construct serverDown) = (PulseOut.construct serverDown, [])) ∧
    (PulseOut.Resume (PulseOut.Pause outPlaying).1).1.state = State.StatePlaying :=
  ⟨⟨rfl,
      ((play_gating codes (PulseOut.Pause outPlaying).1 frameA).1 rfl).1,
      ((play_gating codes (PulseOut.Pause outPlaying).1 frameA).1 rfl).2.1⟩,
    ⟨⟨by decide, rfl⟩,
      ((play_gating codes (PulseOut.construct serverDown) frameA).2.1 (by decide)
        (Or.inl rfl)).1,
      ((play_gating codes (PulseOut.construct serverDown) frameA).2.1 (by decide)
        (Or.inl rfl)).2.2.2⟩,
    ⟨⟨by decide, rfl, rfl⟩,
      ((play_gating codes (PulseOut.construct serverUp) frameA).2.2.1 (by decide)
        rfl rfl).1,
      ((play_gating codes (PulseOut.construct serverUp) frameA).2.2.1 (by decide)
        rfl rfl).2.1⟩,
    ⟨⟨rfl, rfl, rfl⟩,
      ((play_gating codes outPlaying frameA).2.2.2.1 rfl rfl rfl).1,
      ((play_gating codes outPlaying frameA).2.2.2.1 rfl rfl rfl).2⟩,
    ⟨rfl, ((play_gating codes (PulseOut.construct serverDown) frameA).2.2.2.2.1 rfl).1⟩,
    ((play_gating codes (PulseOut.Pause outPlaying).1 frameA).2.2.2.2.2 rfl).2.2⟩


/-! ### C7: the terminal state after an encoder error -/

theorem encodeRound_aborted (codec : Codec) (n : Nat) (c : Ctx) :
    ∀ r, encodeRound codec n c = Step.done r →
      ((encodeFrame codec c).2 = none →
        r.aborted = !c.s.outFile ∧ ∃ pre, r.trace = pre ++ [Ev.fclose c.s.outFile]) := by
  apply encodeRound_cases codec n c
    (fun st => ∀ r, st = Step.done r →
      ((encodeFrame codec c).2 = none →
        r.aborted = !c.s.outFile ∧ ∃ pre, r.trace = pre ++ [Ev.fclose c.s.outFile]))
  · intro _ r h _
    cases h
    exact ⟨rfl, _, rfl⟩
  · intro out _ _ r h
    cases h
  · intro out _ _ _ r h
    cases h
  · intro out hout _ _ r _ hnone
    rw [hnone] at hout
    cases hout

theorem encodeLoop_aborted (codec : Codec) (n : Nat) : ∀ (fuel : Nat) (c : Ctx),
    none ∉ encodeResults c.trace →
    none ∈ encodeResults (encodeLoop codec n fuel c).trace →
    (encodeLoop codec n fuel c).aborted = !c.s.outFile ∧
      ∃ pre, (encodeLoop codec n fuel c).trace = pre ++ [Ev.fclose c.s.outFile] := by
  intro fuel
  induction fuel with
  | zero =>
    intro c hno h
    rw [encodeLoop, finalize_results] at h
    exact absurd h hno
  | succ fuel ih =>
    intro c hno h
    unfold encodeLoop at h ⊢
    split at h
    · next hcond =>
      rw [if_pos hcond]
      have hr := encodeRound_results codec n c
      split at h
      · next r hround =>
        obtain ⟨htr, _⟩ := hr.1 r hround
        cases h2 : (encodeFrame codec c).2 with
        | none => exact encodeRound_aborted codec n c r hround h2
        | some out =>
          rw [htr, h2] at h
          simp at h
          exact absurd h hno
      · next c2 hround =>
        obtain ⟨htr, hsome⟩ := hr.2 c2 hround
        have ho := (encodeRound_outFile codec n c).2 c2 hround
        rw [← ho]
        apply ih c2 _ h
        rw [htr]
        intro hmem
        rcases List.mem_append.mp hmem with h1 | h1
        · exact hno h1
        · cases h2 : (encodeFrame codec c).2 with
          | none => exact hsome h2
          | some out => rw [h2] at h1; simp at h1
    · next hcond =>
      rw [if_neg hcond]
      rw [finalize_results] at h
      exact absurd h hno

/-- A `Read` call in which the encoder reports an error ends with `fclose(outFile)`, and
is aborted there when no sink is open. -/
theorem Read_error_aborted (codec : Codec) (s : TranscodingDataStream) (n : Nat)
    (h : none ∈ encodeResults (Read codec s n).trace) :
    (Read codec s n).aborted = !s.outFile ∧
      ∃ pre, (Read codec s n).trace = pre ++ [Ev.fclose s.outFile] := by
  have hf : ∀ x : Ctx, x.fetch.s.outFile = x.s.outFile := by
    intro x
    unfold Ctx.fetch getBuffer
    split
    · rfl
    · split <;> rfl
  have hi : ∀ x : Ctx, (initEncoder x).s.outFile = x.s.outFile := by
    intro x
    unfold initEncoder
    split
    · dsimp only
      split
      · exact hf x
      · exact hf x
    · rfl
  have hd : ∀ x : Ctx, (drainSpillover n x).s.outFile = x.s.outFile := by
    intro x
    unfold drainSpillover
    split
    · simp only [sinkWrite_s]
    · rfl
  unfold Read at h ⊢
  split at h
  · simp [encodeResults] at h
  · next hg =>
    rw [if_neg hg]
    dsimp only at h ⊢
    have hclean : ∀ b : Bool, none ∉ encodeResults
        (drainSpillover n (initEncoder
          { s := s, bytesWritten := 0, hasBuffer := b, dst := [], trace := [] })).trace := by
      intro b
      rw [drainSpillover_results, initEncoder_results]
      simp [encodeResults]
    split at h
    · exact absurd h (by simpa [returnWritten] using hclean false)
    · next hne =>
      rw [if_neg hne]
      have hloop := encodeLoop_aborted codec n _ _ (by
        split
        · rw [fetch_results]; exact hclean false
        · exact hclean false) h
      have ho : (if (!(drainSpillover n (initEncoder
          { s := s, bytesWritten := 0, hasBuffer := false, dst := [],
            trace := [] })).hasBuffer) = true
          then (drainSpillover n (initEncoder
            { s := s, bytesWritten := 0, hasBuffer := false, dst := [], trace := [] })).fetch
          else drainSpillover n (initEncoder
            { s := s, bytesWritten := 0, hasBuffer := false, dst := [],
              trace := [] })).s.outFile = s.outFile := by
        split
        · rw [hf, hd, hi]
        · rw [hd, hi]
      rw [ho] at hloop
      exact hloop

/-- C7 (terminal state after error). On a stream whose sink is open: if the encoder
returns a negative result during a `Read` call, that call returns 0 and leaves `eof`
true; and every later `Read`, after any further calls and for any capacity, returns 0,
copies no byte, does nothing (its trace is empty) and leaves the stream as it was, `eof`
true and `position` unchanged. On a stream without a sink the error exit ends with
`fclose` on the null handle, and the call is aborted there instead of returning 0: such is
the stream constructed without file names, over one frame on which the codec fails. -/
theorem terminal_after_error (codec : Codec) (s : TranscodingDataStream) (n m : Nat)
    (caps : List Nat) :
    (none ∈ encodeResults (Read codec s n).trace → s.outFile = true →
      (Read codec s n).aborted = false ∧
      (Read codec s n).ret = 0 ∧ Eof (Read codec s n).state = true ∧
      afterReads codec (Read codec s n).state caps = (Read codec s n).state ∧
      Read codec (afterReads codec (Read codec s n).state caps) m =
        { state := (Read codec s n).state, ret := 0, dst := [], trace := [] } ∧
      Position (Read codec s n).state = Position s) ∧
    (none ∈ encodeResults (Read codec s n).trace → s.outFile = false →
      (Read codec s n).aborted = true ∧
      ∃ pre, (Read codec s n).trace = pre ++ [Ev.fclose false]) ∧
    (constructWithSink envOneFrame "" "" 128 [] true true).pcmBuffer.isSome = true ∧
    (constructWithSink envOneFrame "" "" 128 [] true true).outFile = false ∧
    (Read codecFails (constructWithSink envOneFrame "" "" 128 [] true true) 8).trace =
      [Ev.fetch true, Ev.lameInit, Ev.encode true 0 none, Ev.fclose false] ∧
    (Read codecFails (constructWithSink envOneFrame "" "" 128 [] true true) 8).aborted =
      true := by
  refine ⟨?_, ?_, by decide, by decide, by decide, by decide⟩
  · intro h ho
    obtain ⟨h1, h2⟩ := Read_error codec s n h
    obtain ⟨ha, _⟩ := Read_error_aborted codec s n h
    have h3 := afterReads_at_eof codec caps _ h2
    refine ⟨by rw [ha, ho]; rfl, h1, h2, h3, ?_, ?_⟩
    · rw [h3]
      exact Read_at_eof codec _ m h2
    · simp only [Position]
      rw [Read_position, h1]
      rfl
  · intro h ho
    obtain ⟨ha, pre, hp⟩ := Read_error_aborted codec s n h
    rw [ho] at ha hp
    exact ⟨ha, pre, hp⟩

/-- Witness for C7: with a sink, the codec fails on the second frame of a two-frame
source; without one, on the only frame. -/
theorem terminal_after_error_witness :
    ((none ∈ encodeResults (Read codecFailsOnSecond
        (constructWithSink envTwoFrames "temp" "final" 128 [] true true) 8).trace ∧
      (constructWithSink envTwoFrames "temp" "final" 128 [] true true).outFile = true) ∧
      (Read codecFailsOnSecond
        (afterReads codecFailsOnSecond (Read codecFailsOnSecond
          (constructWithSink envTwoFrames "temp" "final" 128 [] true true) 8).state [1, 8192])
        5).ret = 0) ∧
    ((none ∈ encodeResults (Read codecFails
        (constructWithSink envOneFrame "" "" 128 [] true true) 8).trace ∧
      (constructWithSink envOneFrame "" "" 128 [] true true).outFile = false) ∧
      (Read codecFails (constructWithSink envOneFrame "" "" 128 [] true true) 8).aborted =
        true) :=
  ⟨⟨⟨by decide, by decide⟩,
      congrArg ReadResult.ret
        ((terminal_after_error codecFailsOnSecond
          (constructWithSink envTwoFrames "temp" "final" 128 [] true true) 8 5 [1, 8192]).1
          (by decide) (by decide)).2.2.2.2.1⟩,
    ⟨⟨by decide, by decide⟩,
      ((terminal_after_error codecFails
        (constructWithSink envOneFrame "" "" 128 [] true true) 8 5 []).2.1
        (by decide) (by decide)).1⟩⟩

end Musikcube
